import Mathlib

/-!
# Serverless toolchain management of doctl: a verification development

A shallow embedding of `do/serverless.go`, and of the listing of floating IPs in
`commands/floating_ips.go`.

Conventions of the embedding.

* A Go `string` is a sequence of bytes, `GoString`.
* A Go function returning `(T, error)` returns a pair `T × Option GoError`, `none` being the
  `nil` error.  A Go expression that can panic returns an `Option`, `none` being the panic.
* What the operating system, the network or a subprocess gives back is an explicit argument:
  the filesystem is a state `FS` passed in and out, the environment is a function `Env`.
* For the installer, what the platform, the network and other programs answer is a `World`,
  and the state a run changes is a `Machine`: the filesystem and the GET requests issued.
-/

set_option autoImplicit false

namespace Doctl

/-! ## Go strings -/

/-- One byte. -/
abbrev Byte := Fin 256

/-- A Go string: an immutable sequence of bytes, not necessarily valid UTF-8. -/
abbrev GoString := List Byte

/-- The Go string a source literal denotes: the UTF-8 encoding of its text. -/
def utf8 (s : String) : GoString :=
  (s.toList.flatMap String.utf8EncodeChar).map (fun b => b.val)

/-- The byte `.` -/
def dot : Byte := 46

/-- Go's `strings.HasPrefix(s, prefix)`:
`len(s) >= len(prefix) && s[:len(prefix)] == prefix`. -/
def stringsHasPrefix (s pre : GoString) : Bool :=
  decide (pre.length ≤ s.length) && decide (s.take pre.length = pre)

/-- Go's `strings.Split(s, sep)` for a separator of one byte: the substrings between the
separators, in order; a string without the separator (the empty string included) gives the
one-element list holding it. -/
def stringsSplit : GoString → Byte → List GoString
  | [], _ => [[]]
  | c :: cs, sep =>
    if c = sep then [] :: stringsSplit cs sep
    else
      match stringsSplit cs sep with
      | [] => [[c]]
      | p :: ps => (c :: p) :: ps

/-- Go's `strings.Join(elems, sep)`. -/
def stringsJoin : List GoString → GoString → GoString
  | [], _ => []
  | [a], _ => a
  | a :: b :: rest, sep => a ++ sep ++ stringsJoin (b :: rest) sep

/-- The Go slice expression `xs[:hi]`: it panics (`none`) unless `0 <= hi <= len(xs)`. -/
def sliceTo {α : Type} (xs : List α) (hi : Int) : Option (List α) :=
  if 0 ≤ hi ∧ hi ≤ (xs.length : Int) then some (xs.take hi.toNat) else none

/-! ## The endpoint-migration rule -/

/-- The function `assignAPIHost` of `do/serverless.go`: namespaces prefixed by `fn-` get the
host with its last dot-separated label replaced by `co`; `none` would be a run-time panic of
the slice. -/
def assignAPIHost (origAPIHost nsName : GoString) : Option GoString :=
  if stringsHasPrefix nsName (utf8 "fn-") then
    let hostParts := stringsSplit origAPIHost dot
    match sliceTo hostParts ((hostParts.length : Int) - 1) with
    | none => none
    | some sl =>
      let sansSuffix := stringsJoin sl (utf8 ".")
      some (sansSuffix ++ utf8 ".co")
  else some origAPIHost

/-! ## Errors -/

/-- The system-call error numbers the filesystem model can produce. -/
inductive Errno
  | ENOENT
  | ENOTDIR
  | EISDIR
  | EEXIST
  | EINVAL
  deriving DecidableEq, Repr

/-- A path: the names leading from the root to a file or directory. -/
abbrev Path := List GoString

/-- A non-nil Go `error` value. -/
inductive GoError
  /-- The value of `errors.New(msg)`. -/
  | errorString (msg : GoString)
  /-- The `*fs.PathError` of package `os`: operation, path, error number. -/
  | pathError (op : GoString) (path : Path) (errno : Errno)
  /-- The `*os.LinkError` of `os.Rename`: operation, old path, new path, error number. -/
  | linkError (op : GoString) (oldpath newpath : Path) (errno : Errno)
  /-- An `*exec.ExitError`: the process ran and exited with a non-zero status. -/
  | exitError (status : Nat)
  /-- Any other error of a library: a process that cannot be started, an I/O failure, a
  transport failure, text that is not JSON for the wanted type. -/
  | other (description : GoString)
  deriving DecidableEq

/-- Go's `errors.New`. -/
def errorsNew (msg : GoString) : GoError := GoError.errorString msg

/-- Go's `os.IsNotExist(err)`, `err` possibly nil. -/
def osIsNotExist : Option GoError → Bool
  | some (GoError.pathError _ _ Errno.ENOENT) => true
  | _ => false

/-- Go's `errors.Is(err, os.ErrNotExist)` for a non-nil `err`. -/
def errorsIsNotExist : GoError → Bool
  | GoError.pathError _ _ Errno.ENOENT => true
  | GoError.linkError _ _ _ Errno.ENOENT => true
  | _ => false

/-- The type assertion `err.(*exec.ExitError)` succeeding. -/
def isExitError : GoError → Bool
  | GoError.exitError _ => true
  | _ => false

/-- The error value `ErrServerlessNotInstalled` of `do/serverless.go`. -/
def ErrServerlessNotInstalled : GoError :=
  errorsNew (utf8 "Serverless support is not installed (use `doctl serverless install`)")

/-- The error value `ErrServerlessNeedsUpgrade` of `do/serverless.go`. -/
def ErrServerlessNeedsUpgrade : GoError :=
  errorsNew (utf8 "Serverless support needs to be upgraded (use `doctl serverless upgrade`)")

/-- The error value `ErrServerlessNotConnected` of `do/serverless.go`. -/
def ErrServerlessNotConnected : GoError :=
  errorsNew (utf8 ("Serverless support is installed but not connected to a functions " ++
    "namespace (use `doctl serverless connect`)"))

/-! ## The filesystem

A tree of directories and regular files under one root, addressed by paths.  Permission
checks, links and I/O faults are outside the model: an operation fails only for a reason the
tree itself gives (a missing name, a regular file where a directory is needed, a directory
where a regular file is needed). -/

/-- What a path names: a regular file with its permission bits and content, or a directory
with its permission bits. -/
inductive Node
  | file (perm : Nat) (data : GoString)
  | dir (perm : Nat)
  deriving DecidableEq

/-- A filesystem state: what each path names, if anything.  The root is the empty path. -/
abbrev FS := Path → Option Node

/-- The state with `p` naming `n` and every other path as before. -/
def FS.set (fs : FS) (p : Path) (n : Node) : FS :=
  fun q => if q = p then some n else fs q

/-- Path resolution from the directory `cur` along the names `rest`: a missing name is
`ENOENT`, a regular file met before the last name is `ENOTDIR`. -/
def FS.walk (fs : FS) : Path → List GoString → Except Errno Node
  | cur, [] =>
    match fs cur with
    | some n => Except.ok n
    | none => Except.error Errno.ENOENT
  | cur, c :: rest =>
    match fs cur with
    | some (Node.dir _) => FS.walk fs (cur ++ [c]) rest
    | some (Node.file _ _) => Except.error Errno.ENOTDIR
    | none => Except.error Errno.ENOENT

/-- Path resolution from the root. -/
def FS.lookup (fs : FS) (p : Path) : Except Errno Node := fs.walk [] p

/-- Go's `filepath.Join(dir, elems...)` on a directory and further names: empty elements are
ignored.  Each element is one name (no separator inside, not `.` or `..`). -/
def filepathJoin (dir : Path) (elems : List GoString) : Path :=
  dir ++ elems.filter (fun e => e ≠ [])

/-- Go's `os.Stat(path)`: the node and a nil error, or no node and the error. -/
def osStat (fs : FS) (path : Path) : Option Node × Option GoError :=
  match fs.lookup path with
  | Except.ok n => (some n, none)
  | Except.error e => (none, some (GoError.pathError (utf8 "stat") path e))

/-- Go's `os.ReadFile(path)` (and `ioutil.ReadFile`): the content and a nil error, or the
error. -/
def osReadFile (fs : FS) (path : Path) : GoString × Option GoError :=
  match fs.lookup path with
  | Except.ok (Node.file _ data) => (data, none)
  | Except.ok (Node.dir _) => ([], some (GoError.pathError (utf8 "read") path Errno.EISDIR))
  | Except.error e => ([], some (GoError.pathError (utf8 "open") path e))

/-- The walk of `os.MkdirAll` below the directory `cur`: every missing name of `rest` becomes
a directory; a regular file on the way is `ENOTDIR`. -/
def mkdirAllFrom (perm : Nat) : FS → Path → List GoString → Except Errno FS
  | fs, _, [] => Except.ok fs
  | fs, cur, c :: rest =>
    match fs (cur ++ [c]) with
    | some (Node.dir _) => mkdirAllFrom perm fs (cur ++ [c]) rest
    | some (Node.file _ _) => Except.error Errno.ENOTDIR
    | none => mkdirAllFrom perm (fs.set (cur ++ [c]) (Node.dir perm)) (cur ++ [c]) rest

/-- Go's `os.MkdirAll(path, perm)`: creates the directory and any missing parent; a path that
is already a directory is left alone. -/
def osMkdirAll (fs : FS) (path : Path) (perm : Nat) : FS × Option GoError :=
  match fs [] with
  | some (Node.dir _) =>
    match mkdirAllFrom perm fs [] path with
    | Except.ok fs1 => (fs1, none)
    | Except.error e => (fs, some (GoError.pathError (utf8 "mkdir") path e))
  | _ => (fs, some (GoError.pathError (utf8 "mkdir") path Errno.ENOTDIR))

/-- Go's `os.WriteFile(path, data, perm)`: the file is created when missing, truncated when
present, and holds `data` afterwards; the parent must be a directory and the path must not
name a directory. -/
def osWriteFile (fs : FS) (path : Path) (data : GoString) (perm : Nat) : FS × Option GoError :=
  match path with
  | [] => (fs, some (GoError.pathError (utf8 "open") path Errno.EISDIR))
  | _ :: _ =>
    match fs.lookup path.dropLast with
    | Except.error e => (fs, some (GoError.pathError (utf8 "open") path e))
    | Except.ok (Node.file _ _) =>
      (fs, some (GoError.pathError (utf8 "open") path Errno.ENOTDIR))
    | Except.ok (Node.dir _) =>
      match fs path with
      | some (Node.dir _) => (fs, some (GoError.pathError (utf8 "open") path Errno.EISDIR))
      | some (Node.file oldPerm _) => (fs.set path (Node.file oldPerm data), none)
      | none => (fs.set path (Node.file perm data), none)

/-- The process environment: Go's `os.Getenv`, the empty string for an unset variable. -/
abbrev Env := GoString → GoString

/-! ## Data of `do/serverless.go` -/

/-- A Go `map[string]V`: `none` is the nil map, `some l` the map with the entries `l`, each
key once, listed in ascending key order. -/
abbrev GoMap (V : Type) := Option (List (GoString × V))

/-- Go's `m[k]` with the presence flag: the value under `k`, if any. -/
def GoMap.get? {V : Type} (m : GoMap V) (k : GoString) : Option V :=
  match m with
  | none => none
  | some l => (l.find? (fun e => decide (e.1 = k))).map (fun e => e.2)

/-- The struct `ServerlessCredential`: an individual entry of `ServerlessCredentials`. -/
structure ServerlessCredential where
  Auth : GoString
  deriving DecidableEq

/-- The struct `ServerlessCredentials`: what is stored in credentials.json. -/
structure ServerlessCredentials where
  APIHost : GoString
  Namespace : GoString
  Credentials : GoMap (GoMap ServerlessCredential)
  deriving DecidableEq

/-- The zero value `ServerlessCredentials{}`. -/
def ServerlessCredentials.zero : ServerlessCredentials :=
  { APIHost := [], Namespace := [], Credentials := none }

/-- The struct `OutputNamespace`: the namespace member of a namespace response. -/
structure OutputNamespace where
  Namespace : GoString
  APIHost : GoString
  UUID : GoString
  Key : GoString
  Label : GoString
  Region : GoString
  deriving DecidableEq

/-- The struct `NamespaceResponse`: the body of a namespace response. -/
structure NamespaceResponse where
  Namespace : OutputNamespace
  deriving DecidableEq

/-- The struct `inputNamespace`: the reduced namespace of a creation request. -/
structure inputNamespace where
  Label : GoString
  Region : GoString
  deriving DecidableEq

/-- The struct `newNamespaceRequest`: the POST body requesting a new namespace. -/
structure newNamespaceRequest where
  Namespace : inputNamespace
  deriving DecidableEq

/-- An `*http.Request` as `godo.Client.NewRequest` builds it. -/
structure HttpRequest where
  method : GoString
  path : GoString
  body : Option newNamespaceRequest
  deriving DecidableEq

/-- The `*godo.Client` the service holds, an external collaborator: how it builds a request
and what performing a request gives (the decoded body and the error). -/
structure GodoClient where
  NewRequest : GoString → GoString → Option newNamespaceRequest → HttpRequest × Option GoError
  Do : HttpRequest → NamespaceResponse × Option GoError

/-- A decoded JSON value held in an `interface{}`. -/
inductive JsonValue
  | null
  | bool (b : Bool)
  | number (literal : GoString)
  | string (s : GoString)
  | array (items : List JsonValue)
  | object (members : List (GoString × JsonValue))

/-- The struct `ServerlessOutput`: the output returned from calls to the sandbox plugin. -/
structure ServerlessOutput where
  Table : List (List (GoString × JsonValue))
  Captured : List GoString
  Formatted : List GoString
  Entity : Option JsonValue
  Error : GoString

/-- The zero value `ServerlessOutput{}`. -/
def ServerlessOutput.zero : ServerlessOutput :=
  { Table := [], Captured := [], Formatted := [], Entity := none, Error := [] }

/-- What `cmd.Output()` returns for a command: the captured standard output and the error. -/
structure CmdRun where
  stdout : GoString
  err : Option GoError

/-- The response to an HTTP GET: the status, the bytes of the body that arrive, and the
error that ends the reading of the body, if one does. -/
structure HttpResponse where
  StatusCode : Nat
  Body : GoString
  bodyErr : Option GoError

/-- The struct `whisk.Action` of the OpenWhisk client library, by the fields that name a
function. -/
structure whiskAction where
  Namespace : GoString
  Name : GoString
  Version : GoString
  deriving DecidableEq

/-- The fields of `whisk.Config` that `initWhisk` sets. -/
structure WhiskConfig where
  Host : GoString
  AuthToken : GoString
  deriving DecidableEq

/-- The `*whisk.Client` as `do/serverless.go` uses it: its `Config`, and the answer of
`Actions.Get` to a name and the flag asking for the code: the action (a pointer, possibly
nil), the HTTP response (possibly nil) and the error. -/
structure WhiskClient where
  Config : WhiskConfig
  ActionsGet : GoString → Bool → Option whiskAction × Option HttpResponse × Option GoError

/-- The `serverlessService` of `do/serverless.go`; `owClient` is the lazily created OpenWhisk
client, nil until `initWhisk` has succeeded. -/
structure serverlessService where
  serverlessJs : Path
  serverlessDir : Path
  credsDir : Path
  node : Path
  userAgent : GoString
  client : GodoClient
  owClient : Option WhiskClient

/-- The constant `minServerlessVersion`. -/
def minServerlessVersion : GoString := utf8 "4.1.0-1.3.0"

/-- The constant `credsDir`. -/
def credsDir : GoString := utf8 "creds"

/-- The constant `CredentialsFile`. -/
def CredentialsFile : GoString := utf8 "credentials.json"

/-! ## Version check and status -/

/-- Go's three-way comparison of strings (`runtime.cmpstring`): byte by byte, the first
difference decides, and a proper prefix is smaller. -/
def goStringCompare : GoString → GoString → Ordering
  | [], [] => Ordering.eq
  | [], _ :: _ => Ordering.lt
  | _ :: _, [] => Ordering.gt
  | a :: as, b :: bs =>
    if a < b then Ordering.lt
    else if b < a then Ordering.gt
    else goStringCompare as bs

/-- Go's `a >= b` on strings. -/
def goStringGe (a b : GoString) : Bool :=
  match goStringCompare a b with
  | Ordering.lt => false
  | _ => true

/-- The function `GetCredentialDirectory` of `do/serverless.go`. -/
def GetCredentialDirectory (leafDir : GoString) (serverlessDir : Path) : Path :=
  filepathJoin serverlessDir [credsDir, leafDir]

/-- The function `GetMinServerlessVersion` of `do/serverless.go`. -/
def GetMinServerlessVersion (env : Env) : GoString :=
  let fromEnv := env (utf8 "minServerlessVersion")
  if fromEnv ≠ [] then fromEnv else minServerlessVersion

/-- The function `GetCurrentServerlessVersion` of `do/serverless.go`. -/
def GetCurrentServerlessVersion (fs : FS) (serverlessDir : Path) : GoString :=
  let versionFile := filepathJoin serverlessDir [utf8 "version"]
  match osReadFile fs versionFile with
  | (_, some _) => utf8 "0"
  | (contents, none) => contents

/-- The function `serverlessUptodate` of `do/serverless.go`. -/
def serverlessUptodate (env : Env) (fs : FS) (serverlessDir : Path) : Bool :=
  goStringGe (GetCurrentServerlessVersion fs serverlessDir) (GetMinServerlessVersion env)

/-- The function `isServerlessConnected` of `do/serverless.go`. -/
def isServerlessConnected (fs : FS) (leafCredsDir : GoString) (serverlessDir : Path) : Bool :=
  let creds := GetCredentialDirectory leafCredsDir serverlessDir
  let credsFile := filepathJoin creds [CredentialsFile]
  !osIsNotExist (osStat fs credsFile).2

/-- The function `serverlessService.CheckServerlessStatus` of `do/serverless.go`. -/
def CheckServerlessStatus (s : serverlessService) (env : Env) (fs : FS)
    (leafCredsDir : GoString) : Option GoError :=
  if osIsNotExist (osStat fs s.serverlessDir).2 then some ErrServerlessNotInstalled
  else if !serverlessUptodate env fs s.serverlessDir then some ErrServerlessNeedsUpgrade
  else if !isServerlessConnected fs leafCredsDir s.serverlessDir then
    some ErrServerlessNotConnected
  else none

/-! ## The subprocess bridge -/

/-- The function `serverlessService.Exec` of `do/serverless.go`.  The run of the command is
given by what `cmd.Output()` returns, and `jsonUnmarshal` is `json.Unmarshal` into a
`ServerlessOutput`. -/
def Exec (jsonUnmarshal : GoString → ServerlessOutput × Option GoError) (cmd : CmdRun) :
    ServerlessOutput × Option GoError :=
  let realError : Option GoError :=
    match cmd.err with
    | none => none
    | some e => if !isExitError e then some e else none
  match realError with
  | some e => (ServerlessOutput.zero, some e)
  | none =>
    match jsonUnmarshal cmd.stdout with
    | (_, some e) => (ServerlessOutput.zero, some e)
    | (result, none) =>
      if result.Error.length > 0 then (result, some (errorsNew result.Error))
      else (result, none)

/-! ## Namespaces -/

/-- The function `executeNamespaceRequest` of `do/serverless.go`; `none` would be a run-time
panic. -/
def executeNamespaceRequest (s : serverlessService) (req : HttpRequest) :
    Option (ServerlessCredentials × Option GoError) :=
  match s.client.Do req with
  | (_, some err) => some (ServerlessCredentials.zero, some err)
  | (decoded, none) =>
    match assignAPIHost decoded.Namespace.APIHost decoded.Namespace.Namespace with
    | none => none
    | some host =>
      let credential : ServerlessCredential :=
        { Auth := decoded.Namespace.UUID ++ utf8 ":" ++ decoded.Namespace.Key }
      let nsName := decoded.Namespace.Namespace
      let ans : ServerlessCredentials :=
        { APIHost := host
          Namespace := nsName
          Credentials := some [(host, some [(nsName, credential)])] }
      some (ans, none)

/-- The function `serverlessService.GetServerlessNamespace` of `do/serverless.go`. -/
def GetServerlessNamespace (s : serverlessService) :
    Option (ServerlessCredentials × Option GoError) :=
  let path := utf8 "v2/functions/sandbox"
  match s.client.NewRequest (utf8 "POST") path none with
  | (_, some err) => some (ServerlessCredentials.zero, some err)
  | (req, none) => executeNamespaceRequest s req

/-- The function `serverlessService.GetNamespace` of `do/serverless.go`. -/
def GetNamespace (s : serverlessService) (name : GoString) :
    Option (ServerlessCredentials × Option GoError) :=
  let path := utf8 "v2/functions/namespaces/" ++ name
  match s.client.NewRequest (utf8 "GET") path none with
  | (_, some err) => some (ServerlessCredentials.zero, some err)
  | (req, none) => executeNamespaceRequest s req

/-- The function `serverlessService.CreateNamespace` of `do/serverless.go`. -/
def CreateNamespace (s : serverlessService) (label region : GoString) :
    Option (ServerlessCredentials × Option GoError) :=
  let reqBody : newNamespaceRequest := { Namespace := { Label := label, Region := region } }
  let path := utf8 "v2/functions/namespaces"
  match s.client.NewRequest (utf8 "POST") path (some reqBody) with
  | (_, some err) => some (ServerlessCredentials.zero, some err)
  | (req, none) => executeNamespaceRequest s req

/-- The record of a namespace response `d`, as the claims describe it: the host is the
assigned one, the namespace is the response's, and the credentials map holds exactly the host,
under it exactly the namespace, and there the key `uuid:key`. -/
def connectedTo (d : OutputNamespace) (c : ServerlessCredentials) : Prop :=
  assignAPIHost d.APIHost d.Namespace = some c.APIHost ∧
  c.Namespace = d.Namespace ∧
  c.Credentials
    = some [(c.APIHost, some [(c.Namespace, { Auth := d.UUID ++ utf8 ":" ++ d.Key })])] ∧
  (c.Credentials.get? c.APIHost).bind (fun m => GoMap.get? m c.Namespace)
    = some { Auth := d.UUID ++ utf8 ":" ++ d.Key }

/-! ## UTF-8, as package `unicode/utf8` decodes it -/

/-- A continuation byte, `0x80` to `0xBF`. -/
def isContinuation (b : Byte) : Bool := decide (128 ≤ b.val ∧ b.val ≤ 191)

/-- The length of the encoding a leading byte announces (2, 3 or 4), and 0 for a byte that
leads no encoding of more than one byte. -/
def leadSize (b0 : Byte) : Nat :=
  if 194 ≤ b0.val ∧ b0.val ≤ 223 then 2
  else if 224 ≤ b0.val ∧ b0.val ≤ 239 then 3
  else if 240 ≤ b0.val ∧ b0.val ≤ 244 then 4
  else 0

/-- The second bytes accepted after the leading byte `b0` (no overlong form, no surrogate,
nothing above `U+10FFFF`). -/
def secondOk (b0 b1 : Byte) : Bool :=
  if b0.val = 224 then decide (160 ≤ b1.val ∧ b1.val ≤ 191)
  else if b0.val = 237 then decide (128 ≤ b1.val ∧ b1.val ≤ 159)
  else if b0.val = 240 then decide (144 ≤ b1.val ∧ b1.val ≤ 191)
  else if b0.val = 244 then decide (128 ≤ b1.val ∧ b1.val ≤ 143)
  else isContinuation b1

/-- The size `utf8.DecodeRuneInString` reports for the valid encoding at the head of `s`, and
0 where it reports `(RuneError, 1)` (or `s` is empty). -/
def runeWidth : GoString → Nat
  | [] => 0
  | b0 :: rest =>
    if b0.val < 128 then 1
    else if leadSize b0 = 2 then
      match rest with
      | b1 :: _ => if secondOk b0 b1 then 2 else 0
      | _ => 0
    else if leadSize b0 = 3 then
      match rest with
      | b1 :: b2 :: _ => if secondOk b0 b1 && isContinuation b2 then 3 else 0
      | _ => 0
    else if leadSize b0 = 4 then
      match rest with
      | b1 :: b2 :: b3 :: _ =>
        if secondOk b0 b1 && isContinuation b2 && isContinuation b3 then 4 else 0
      | _ => 0
    else 0

/-- The UTF-8 encoding of `U+FFFD`, the replacement character. -/
def replacementChar : GoString := [239, 191, 189]

/-- Go's `utf8.ValidString`, reading at most `fuel` runes. -/
def utf8ValidFrom : Nat → GoString → Bool
  | _, [] => true
  | 0, _ :: _ => false
  | n + 1, b :: rest =>
    match runeWidth (b :: rest) with
    | 0 => false
    | w + 1 => utf8ValidFrom n (rest.drop w)

/-- Go's `utf8.ValidString(s)`. -/
def utf8Valid (s : GoString) : Bool := utf8ValidFrom s.length s

/-- The string with each byte that starts no valid encoding replaced by `U+FFFD`, reading at
most `fuel` runes. -/
def toValidUTF8From : Nat → GoString → GoString
  | 0, _ => []
  | _ + 1, [] => []
  | n + 1, b :: rest =>
    match runeWidth (b :: rest) with
    | 0 => replacementChar ++ toValidUTF8From n rest
    | w + 1 => (b :: rest.take w) ++ toValidUTF8From n (rest.drop w)

/-- The string coerced to valid UTF-8: each invalid byte replaced by `U+FFFD`. -/
def toValidUTF8 (s : GoString) : GoString := toValidUTF8From s.length s

/-- Go's `utf8.EncodeRune`: the UTF-8 encoding of a code point, `U+FFFD` for a surrogate or a
number that is no code point. -/
def encodeRune (cp : Nat) : GoString :=
  if cp < 128 then [Fin.ofNat cp]
  else if cp < 2048 then [Fin.ofNat (192 + cp / 64), Fin.ofNat (128 + cp % 64)]
  else if (55296 ≤ cp ∧ cp < 57344) ∨ 1114111 < cp then replacementChar
  else if cp < 65536 then
    [Fin.ofNat (224 + cp / 4096), Fin.ofNat (128 + cp / 64 % 64), Fin.ofNat (128 + cp % 64)]
  else
    [Fin.ofNat (240 + cp / 262144), Fin.ofNat (128 + cp / 4096 % 64),
      Fin.ofNat (128 + cp / 64 % 64), Fin.ofNat (128 + cp % 64)]

/-! ## The JSON text of credentials.json, as package `encoding/json` writes and reads it -/

/-- The digit of `n` in `0123456789abcdef`. -/
def hexDigit (n : Nat) : Byte := (utf8 "0123456789abcdef").getD n 48

/-- The value of a hexadecimal digit, in either case. -/
def hexValue (b : Byte) : Option Nat :=
  if 48 ≤ b.val ∧ b.val ≤ 57 then some (b.val - 48)
  else if 97 ≤ b.val ∧ b.val ≤ 102 then some (b.val - 87)
  else if 65 ≤ b.val ∧ b.val ≤ 70 then some (b.val - 55)
  else none

/-- The number four hexadecimal digits denote. -/
def hex4 (h1 h2 h3 h4 : Byte) : Option Nat :=
  match hexValue h1, hexValue h2, hexValue h3, hexValue h4 with
  | some a, some b, some c, some d => some (((a * 16 + b) * 16 + c) * 16 + d)
  | _, _, _, _ => none

/-- How the encoder writes a byte below `0x80` inside a string, with HTML escaping on: the
quote and the backslash behind a backslash, newline, carriage return and tab as `\n`, `\r`
and `\t`, any other control byte and `<`, `>`, `&` as `\u00XX`, any other byte as it is. -/
def jsonEscapeByte (b : Byte) : GoString :=
  if b = 34 ∨ b = 92 then [92, b]
  else if b = 10 then [92, 110]
  else if b = 13 then [92, 114]
  else if b = 9 then [92, 116]
  else if b.val < 32 ∨ b = 60 ∨ b = 62 ∨ b = 38 then
    [92, 117, 48, 48, hexDigit (b.val / 16), hexDigit (b.val % 16)]
  else [b]

/-- The body of a JSON string as the encoder writes it, reading at most `fuel` runes: an
invalid byte becomes the escape of `U+FFFD`, the runes `U+2028` and `U+2029` become their
escapes, any other rune of more than one byte is copied. -/
def jsonEscapeFrom : Nat → GoString → GoString
  | 0, _ => []
  | _ + 1, [] => []
  | n + 1, b :: rest =>
    if b.val < 128 then jsonEscapeByte b ++ jsonEscapeFrom n rest
    else
      match runeWidth (b :: rest) with
      | 0 => utf8 "\\ufffd" ++ jsonEscapeFrom n rest
      | w + 1 =>
        (if b :: rest.take w = [226, 128, 168] then utf8 "\\u2028"
          else if b :: rest.take w = [226, 128, 169] then utf8 "\\u2029"
          else b :: rest.take w) ++ jsonEscapeFrom n (rest.drop w)

/-- A Go string as a JSON string, between quotes. -/
def jsonQuote (s : GoString) : GoString := [34] ++ jsonEscapeFrom s.length s ++ [34]

/-- The byte a one-letter escape denotes. -/
def simpleEscape (e : Byte) : Option Byte :=
  if e = 34 ∨ e = 92 ∨ e = 47 then some e
  else if e = 98 then some 8
  else if e = 102 then some 12
  else if e = 110 then some 10
  else if e = 114 then some 13
  else if e = 116 then some 9
  else none

/-- The code point of the surrogate pair that the high surrogate `hi` forms with a following
`\uXXXX` escape of a low surrogate, and the text after that escape. -/
def surrogatePair (hi : Nat) (text : GoString) : Option (Nat × GoString) :=
  match text with
  | 92 :: 117 :: h1 :: h2 :: h3 :: h4 :: rest =>
    match hex4 h1 h2 h3 h4 with
    | some lo =>
      if hi < 56320 ∧ 56320 ≤ lo ∧ lo < 57344 then
        some ((hi - 55296) * 1024 + (lo - 56320) + 65536, rest)
      else none
    | none => none
  | _ => none

/-- The bytes `p` put in front of what a parser read. -/
def prependTo (p : GoString) : Option (GoString × GoString) → Option (GoString × GoString)
  | none => none
  | some (s, rest) => some (p ++ s, rest)

/-- The decoder on the body of a JSON string, in at most `fuel` steps: the string read up to
the closing quote, and the text after that quote; `none` for text that is no string. -/
def jsonUnquoteFrom : Nat → GoString → Option (GoString × GoString)
  | 0, _ => none
  | _ + 1, [] => none
  | n + 1, c :: rest =>
    if c = 34 then some ([], rest)
    else if c = 92 then
      match rest with
      | [] => none
      | e :: rest2 =>
        if e = 117 then
          match rest2 with
          | h1 :: h2 :: h3 :: h4 :: rest3 =>
            match hex4 h1 h2 h3 h4 with
            | none => none
            | some cp =>
              if 55296 ≤ cp ∧ cp < 57344 then
                match surrogatePair cp rest3 with
                | some (dec, rest4) => prependTo (encodeRune dec) (jsonUnquoteFrom n rest4)
                | none => prependTo replacementChar (jsonUnquoteFrom n rest3)
              else prependTo (encodeRune cp) (jsonUnquoteFrom n rest3)
          | _ => none
        else
          match simpleEscape e with
          | some b => prependTo [b] (jsonUnquoteFrom n rest2)
          | none => none
    else if c.val < 32 then none
    else if c.val < 128 then prependTo [c] (jsonUnquoteFrom n rest)
    else
      match runeWidth (c :: rest) with
      | 0 => prependTo replacementChar (jsonUnquoteFrom n rest)
      | w + 1 => prependTo (c :: rest.take w) (jsonUnquoteFrom n (rest.drop w))

/-- The decoder on a JSON string: the string read and the text after it. -/
def jsonUnquote (text : GoString) : Option (GoString × GoString) :=
  match text with
  | [] => none
  | q :: body => if q = 34 then jsonUnquoteFrom body.length body else none

/-- The text after the literal `lit`, for text that starts with it. -/
def expectLit (lit text : GoString) : Option GoString :=
  if lit.isPrefixOf text then some (text.drop lit.length) else none

/-- The indentation of depth `k`: two spaces a level. -/
def indent (k : Nat) : GoString := List.replicate (2 * k) 32

/-- The place of a new entry among entries in ascending key order; an entry of the same key
is replaced (Go's `m[key] = v`). -/
def insertEntry {V : Type} (key : GoString) (v : V) :
    List (GoString × V) → List (GoString × V)
  | [] => [(key, v)]
  | (k1, v1) :: t =>
    match goStringCompare key k1 with
    | Ordering.lt => (key, v) :: (k1, v1) :: t
    | Ordering.eq => (key, v) :: t
    | Ordering.gt => (k1, v1) :: insertEntry key v t

/-- A `ServerlessCredential` as indented JSON, at depth `k`. -/
def printCredential (k : Nat) (c : ServerlessCredential) : GoString :=
  utf8 "\x7b\n" ++ indent (k + 1) ++ utf8 "\"api_key\": " ++ jsonQuote c.Auth ++
    utf8 "\n" ++ indent k ++ utf8 "\x7d"

/-- The decoder on the JSON object of a `ServerlessCredential` at depth `k`. -/
def parseCredential (k : Nat) (text : GoString) : Option (ServerlessCredential × GoString) :=
  match expectLit (utf8 "\x7b\n" ++ indent (k + 1) ++ utf8 "\"api_key\": ") text with
  | none => none
  | some t1 =>
    match jsonUnquote t1 with
    | none => none
    | some (auth, t2) =>
      match expectLit (utf8 "\n" ++ indent k ++ utf8 "\x7d") t2 with
      | none => none
      | some t3 => some ({ Auth := auth }, t3)

/-- The members of a JSON object for the entries of a map, indented at depth `k`, one a line,
separated by commas. -/
def printEntries {V : Type} (printV : Nat → V → GoString) (k : Nat) :
    List (GoString × V) → GoString
  | [] => []
  | [e] => indent k ++ jsonQuote e.1 ++ utf8 ": " ++ printV k e.2
  | e :: e1 :: es =>
    indent k ++ jsonQuote e.1 ++ utf8 ": " ++ printV k e.2 ++ utf8 ",\n" ++
      printEntries printV k (e1 :: es)

/-- A map as indented JSON at depth `k`: `null` for the nil map, `{}` for the empty map, the
members in key order otherwise. -/
def printMap {V : Type} (printV : Nat → V → GoString) (k : Nat) : GoMap V → GoString
  | none => utf8 "null"
  | some [] => utf8 "\x7b\x7d"
  | some (e :: es) =>
    utf8 "\x7b\n" ++ printEntries printV (k + 1) (e :: es) ++ utf8 "\n" ++ indent k ++
      utf8 "\x7d"

/-- The decoder on the members of a JSON object at depth `k`, at most `fuel` of them: each
member is stored into the map read so far. -/
def parseEntries {V : Type} (parseV : Nat → GoString → Option (V × GoString)) (k : Nat) :
    Nat → GoString → List (GoString × V) → Option (List (GoString × V) × GoString)
  | 0, _, _ => none
  | fuel + 1, text, acc =>
    match expectLit (indent k) text with
    | none => none
    | some t1 =>
      match jsonUnquote t1 with
      | none => none
      | some (key, t2) =>
        match expectLit (utf8 ": ") t2 with
        | none => none
        | some t3 =>
          match parseV k t3 with
          | none => none
          | some (v, t4) =>
            match expectLit (utf8 ",\n") t4 with
            | some t5 => parseEntries parseV k fuel t5 (insertEntry key v acc)
            | none => some (insertEntry key v acc, t4)

/-- The decoder on a JSON value for a map, at depth `k`. -/
def parseMap {V : Type} (parseV : Nat → GoString → Option (V × GoString)) (k : Nat)
    (text : GoString) : Option (GoMap V × GoString) :=
  match expectLit (utf8 "null") text with
  | some rest => some (none, rest)
  | none =>
    match expectLit (utf8 "\x7b\x7d") text with
    | some rest => some (some [], rest)
    | none =>
      match expectLit (utf8 "\x7b\n") text with
      | none => none
      | some t1 =>
        match parseEntries parseV (k + 1) text.length t1 [] with
        | none => none
        | some (es, t2) =>
          match expectLit (utf8 "\n" ++ indent k ++ utf8 "\x7d") t2 with
          | none => none
          | some t3 => some (some es, t3)

/-- Go's `json.MarshalIndent(&creds, "", "  ")` for a `ServerlessCredentials`; it has no
error for this type. -/
def jsonMarshalIndent (creds : ServerlessCredentials) : GoString × Option GoError :=
  (utf8 "\x7b\n  \"currentHost\": " ++ jsonQuote creds.APIHost ++
    utf8 ",\n  \"currentNamespace\": " ++ jsonQuote creds.Namespace ++
    utf8 ",\n  \"credentials\": " ++
    printMap (printMap printCredential) 1 creds.Credentials ++ utf8 "\n\x7d", none)

/-- The decoder on the JSON object of a `ServerlessCredentials`. -/
def parseCredentials (text : GoString) : Option (ServerlessCredentials × GoString) :=
  match expectLit (utf8 "\x7b\n  \"currentHost\": ") text with
  | none => none
  | some t1 =>
    match jsonUnquote t1 with
    | none => none
    | some (host, t2) =>
      match expectLit (utf8 ",\n  \"currentNamespace\": ") t2 with
      | none => none
      | some t3 =>
        match jsonUnquote t3 with
        | none => none
        | some (nsName, t4) =>
          match expectLit (utf8 ",\n  \"credentials\": ") t4 with
          | none => none
          | some t5 =>
            match parseMap (parseMap parseCredential) 1 t5 with
            | none => none
            | some (m, t6) =>
              match expectLit (utf8 "\n\x7d") t6 with
              | none => none
              | some t7 =>
                some ({ APIHost := host, Namespace := nsName, Credentials := m }, t7)

/-- Go's `json.Unmarshal(bytes, &creds)` into a zero `ServerlessCredentials`, on the texts
that `json.MarshalIndent` writes for that type (strings with any escape, members in the
written layout); any other text is refused here as a syntax error, which leaves `creds`
zero. -/
def jsonUnmarshal (bytes : GoString) : ServerlessCredentials × Option GoError :=
  match parseCredentials bytes with
  | some (creds, []) => (creds, none)
  | _ => (ServerlessCredentials.zero, some (GoError.other (utf8 "invalid character")))

/-- What reading back the JSON text of a map gives: each key and value as read from its text,
stored in the order written. -/
def mapImage {V : Type} (imageV : V → V) : GoMap V → GoMap V
  | none => none
  | some l => some (l.foldl (fun acc e => insertEntry (toValidUTF8 e.1) (imageV e.2) acc) [])

/-- What reading back the JSON text of a `ServerlessCredential` gives. -/
def credentialImage (c : ServerlessCredential) : ServerlessCredential :=
  { Auth := toValidUTF8 c.Auth }

/-- What reading back the JSON text of a `ServerlessCredentials` gives: every string coerced
to valid UTF-8. -/
def credentialsImage (r : ServerlessCredentials) : ServerlessCredentials :=
  { APIHost := toValidUTF8 r.APIHost
    Namespace := toValidUTF8 r.Namespace
    Credentials := mapImage (mapImage credentialImage) r.Credentials }

/-- The representation invariant of a map: the nil map, or entries in strictly ascending key
order (so each key once), with values that keep their own invariant. -/
def sortedMap {V : Type} (sortedV : V → Prop) : GoMap V → Prop
  | none => True
  | some l =>
    l.Pairwise (fun a b => goStringCompare a.1 b.1 = Ordering.lt) ∧ ∀ e ∈ l, sortedV e.2

/-- The representation invariant of a record: each of its maps lists each key once, in
ascending key order. -/
def wellFormedCredentials (r : ServerlessCredentials) : Prop :=
  sortedMap (sortedMap (fun _ => True)) r.Credentials

/-- A map whose keys are valid UTF-8 and whose values are valid. -/
def utf8ValidMap {V : Type} (validV : V → Prop) : GoMap V → Prop
  | none => True
  | some l => ∀ e ∈ l, utf8Valid e.1 = true ∧ validV e.2

/-- A record all of whose strings are valid UTF-8: the current host, the current namespace,
and every key and api key of the credential map. -/
def utf8ValidCredentials (r : ServerlessCredentials) : Prop :=
  utf8Valid r.APIHost = true ∧ utf8Valid r.Namespace = true ∧
    utf8ValidMap (utf8ValidMap (fun c => utf8Valid c.Auth = true)) r.Credentials

/-! ## The credential store -/

/-- The function `serverlessService.WriteCredentials` of `do/serverless.go`. -/
def WriteCredentials (s : serverlessService) (fs : FS) (creds : ServerlessCredentials) :
    FS × Option GoError :=
  match osMkdirAll fs s.credsDir 0o700 with
  | (fs1, some err) => (fs1, some err)
  | (fs1, none) =>
    let credsPath := filepathJoin s.credsDir [CredentialsFile]
    match jsonMarshalIndent creds with
    | (_, some err) => (fs1, some err)
    | (bytes, none) => osWriteFile fs1 credsPath bytes 0o600

/-- The function `serverlessService.ReadCredentials` of `do/serverless.go`. -/
def ReadCredentials (s : serverlessService) (fs : FS) :
    ServerlessCredentials × Option GoError :=
  let credsPath := filepathJoin s.credsDir [CredentialsFile]
  match osReadFile fs credsPath with
  | (_, some err) => (ServerlessCredentials.zero, some err)
  | (bytes, none) => jsonUnmarshal bytes

/-! ## Dotted numeric versions, in the words of the claims -/

/-- A decimal digit. -/
def isDecimalDigit (b : Byte) : Bool := decide (48 ≤ b.val ∧ b.val ≤ 57)

/-- A non-empty run of decimal digits. -/
def isNumericLabel (s : GoString) : Bool := decide (s ≠ []) && s.all isDecimalDigit

/-- A well-formed dotted numeric version such as `10.0.0`: numeric labels separated by dots. -/
def wellFormedVersion (v : GoString) : Bool := (stringsSplit v dot).all isNumericLabel

/-- The number a run of decimal digits denotes. -/
def decimalValue (s : GoString) : Nat := s.foldl (fun acc b => acc * 10 + (b.val - 48)) 0

/-- The numeric components of a dotted version. -/
def versionNumbers (v : GoString) : List Nat := (stringsSplit v dot).map decimalValue

/-- Three-way comparison of two numbers. -/
def natCompare (a b : Nat) : Ordering :=
  if a < b then Ordering.lt else if b < a then Ordering.gt else Ordering.eq

/-- Version precedence: the first differing component decides, numerically. -/
def versionCompare : List Nat → List Nat → Ordering
  | [], [] => Ordering.eq
  | [], _ :: _ => Ordering.lt
  | _ :: _, [] => Ordering.gt
  | a :: as, b :: bs =>
    match natCompare a b with
    | Ordering.eq => versionCompare as bs
    | o => o

/-- The version `v` is semantically at least the version `m`. -/
def semanticallyAtLeast (v m : GoString) : Bool :=
  match versionCompare (versionNumbers v) (versionNumbers m) with
  | Ordering.lt => false
  | _ => true

/-- The versions `v` and `m` have as many components, and their components as many digits. -/
def sameDigitCounts (v m : GoString) : Prop :=
  (stringsSplit v dot).map List.length = (stringsSplit m dot).map List.length

/-! ## More of the filesystem: temporary directories, renaming, removing, unpacking -/

/-- Go's `filepath.Dir(path)`: the path without its last name. -/
def filepathDir (path : Path) : Path := path.dropLast

/-- The state with the tree at `oldpath` moved to `newpath`, in place of what was there. -/
def FS.moveTree (fs : FS) (oldpath newpath : Path) : FS := fun q =>
  if newpath <+: q then fs (oldpath ++ q.drop newpath.length)
  else if oldpath <+: q then none
  else fs q

/-- The state without `path` and everything below it. -/
def FS.removeTree (fs : FS) (path : Path) : FS := fun q =>
  if path <+: q then none else fs q

/-- The state with the nodes of `tree` (paths relative to `directory`) put below
`directory`, over what was there; the other paths are as before. -/
def FS.graft (fs : FS) (directory : Path) (tree : FS) : FS := fun q =>
  if directory <+: q ∧ q ≠ directory then
    match tree (q.drop directory.length) with
    | some n => some n
    | none => fs q
  else fs q

/-- Go's `ioutil.TempDir(dir, pattern)` for a pattern without `*`: a new directory named
`pattern` followed by a random string, and its path.  `random` is the string of the try that
ends the search. -/
def ioutilTempDir (random : GoString) (fs : FS) (dir : Path) (pattern : GoString) :
    FS × Path × Option GoError :=
  let name := dir ++ [pattern ++ random]
  match fs.lookup dir with
  | Except.ok (Node.dir _) =>
    match fs name with
    | none => (fs.set name (Node.dir 0o700), name, none)
    | some _ => (fs, [], some (GoError.pathError (utf8 "mkdir") name Errno.EEXIST))
  | Except.ok (Node.file _ _) =>
    (fs, [], some (GoError.pathError (utf8 "mkdir") name Errno.ENOTDIR))
  | Except.error e => (fs, [], some (GoError.pathError (utf8 "mkdir") name e))

/-- Whether the path resolves to a directory: `Lstat` succeeds and `IsDir()` holds. -/
def FS.isDir (fs : FS) (p : Path) : Bool :=
  match fs.lookup p with
  | Except.ok (Node.dir _) => true
  | _ => false

/-- Go's `os.Rename(oldpath, newpath)`.  The old path must exist.  A new path that is an
existing directory is refused with `EEXIST`: Go checks this itself before the system call.
Otherwise the parent of the new path must be a directory, a file replaces a file, and the
tree moves as a whole. -/
def osRename (fs : FS) (oldpath newpath : Path) : FS × Option GoError :=
  let fail : Errno → FS × Option GoError := fun e =>
    (fs, some (GoError.linkError (utf8 "rename") oldpath newpath e))
  match fs.lookup oldpath with
  | Except.error e => fail e
  | Except.ok src =>
    if fs.isDir newpath then fail Errno.EEXIST
    else if oldpath = [] ∨ newpath = [] then fail Errno.EINVAL
    else
      match fs.lookup newpath.dropLast with
      | Except.error e => fail e
      | Except.ok (Node.file _ _) => fail Errno.ENOTDIR
      | Except.ok (Node.dir _) =>
        if oldpath = newpath then (fs, none)
        else if oldpath <+: newpath then fail Errno.EINVAL
        else
          match src, fs newpath with
          | _, none => (fs.moveTree oldpath newpath, none)
          | Node.file _ _, some (Node.file _ _) => (fs.moveTree oldpath newpath, none)
          | Node.dir _, some (Node.file _ _) => fail Errno.ENOTDIR
          | _, some (Node.dir _) => fail Errno.EEXIST

/-- Go's `os.RemoveAll(path)`: removes the path and everything below it; a path that does
not exist is no error, a regular file on the way to it is. -/
def osRemoveAll (fs : FS) (path : Path) : FS × Option GoError :=
  match path with
  | [] => (fs, some (GoError.pathError (utf8 "RemoveAll") path Errno.EINVAL))
  | _ :: _ =>
    match fs.lookup path.dropLast with
    | Except.ok (Node.dir _) => (fs.removeTree path, none)
    | Except.ok (Node.file _ _) =>
      (fs, some (GoError.pathError (utf8 "unlinkat") path Errno.ENOTDIR))
    | Except.error Errno.ENOENT => (fs, none)
    | Except.error e => (fs, some (GoError.pathError (utf8 "open") path e))

/-- Go's `os.Create(path)`: the file is created when missing and emptied when present. -/
def osCreate (fs : FS) (path : Path) : FS × Option GoError := osWriteFile fs path [] 0o666

/-- Writing `data` to the open file `path`, after what it holds (as `io.Copy` does). -/
def fileAppend (fs : FS) (path : Path) (data : GoString) : FS :=
  match fs path with
  | some (Node.file perm old) => fs.set path (Node.file perm (old ++ data))
  | _ => fs

/-! ## What lies outside the program -/

/-- What the platform, the network and other programs answer: the constants of package
`runtime`, the random part of a temporary name, the answer to an HTTP GET of a URL, the tree
an archive holds (`none` for bytes that are no archive), what running a program file with
arguments prints and returns (`cmd.Output()`). -/
structure World where
  GOOS : GoString
  GOARCH : GoString
  random : GoString
  httpGet : GoString → HttpResponse × Option GoError
  unpack : GoString → Option FS
  runProgram : GoString → List GoString → GoString × Option GoError

/-- The state a run changes: the filesystem, and the URLs of the GET requests issued so far,
oldest first. -/
structure Machine where
  fs : FS
  requests : List GoString

/-- Go's `exec.Command(path, args...).Output()`: the program file at `path` is run. -/
def execCommandOutput (w : World) (fs : FS) (path : Path) (args : List GoString) :
    GoString × Option GoError :=
  match fs.lookup path with
  | Except.ok (Node.file _ program) => w.runProgram program args
  | Except.ok (Node.dir _) => ([], some (GoError.other (utf8 "permission denied")))
  | Except.error e => ([], some (GoError.pathError (utf8 "fork/exec") path e))

/-- Modelled from the spec: `extract.Extract(archive, directory)` of package `pkg/extract`,
which is not among the sources.  The spec has the archives extracted into the staging
directory: the tree the archive file holds is put below `directory`. -/
def extractExtract (w : World) (fs : FS) (archive directory : Path) : FS × Option GoError :=
  match osReadFile fs archive with
  | (_, some err) => (fs, some err)
  | (bytes, none) =>
    match w.unpack bytes with
    | none => (fs, some (GoError.other (utf8 "unexpected EOF")))
    | some tree =>
      match fs.lookup directory with
      | Except.ok (Node.dir _) => (fs.graft directory tree, none)
      | Except.ok (Node.file _ _) =>
        (fs, some (GoError.pathError (utf8 "mkdir") directory Errno.ENOTDIR))
      | Except.error e => (fs, some (GoError.pathError (utf8 "mkdir") directory e))

/-! ## White space, as `strings.TrimSpace` sees it -/

/-- The UTF-8 encodings of the white space characters of Unicode (`unicode.IsSpace`). -/
def whiteSpaceRunes : List GoString :=
  [[9], [10], [11], [12], [13], [32], [194, 133], [194, 160], [225, 154, 128],
    [226, 128, 128], [226, 128, 129], [226, 128, 130], [226, 128, 131], [226, 128, 132],
    [226, 128, 133], [226, 128, 134], [226, 128, 135], [226, 128, 136], [226, 128, 137],
    [226, 128, 138], [226, 128, 168], [226, 128, 169], [226, 128, 175], [226, 129, 159],
    [227, 128, 128]]

/-- The string without the white space it starts with; at most `fuel` characters go. -/
def trimLeftSpace : Nat → GoString → GoString
  | 0, s => s
  | fuel + 1, s =>
    match whiteSpaceRunes.find? (fun r => r.isPrefixOf s) with
    | some r => trimLeftSpace fuel (s.drop r.length)
    | none => s

/-- The string without the white space it ends with; at most `fuel` characters go. -/
def trimRightSpace : Nat → GoString → GoString
  | 0, s => s
  | fuel + 1, s =>
    match whiteSpaceRunes.find? (fun r => r.reverse.isPrefixOf s.reverse) with
    | some r => trimRightSpace fuel (s.take (s.length - r.length))
    | none => s

/-- Go's `strings.TrimSpace(s)`. -/
def stringsTrimSpace (s : GoString) : GoString :=
  trimRightSpace s.length (trimLeftSpace s.length s)

/-! ## The toolchain installer -/

/-- The constant `nodeVersion`. -/
def nodeVersion : GoString := utf8 "v16.13.0"

/-- The function `download` of `do/serverless.go`. -/
def download (w : World) (m : Machine) (URL : GoString) (targetFile : Path) :
    Machine × Option GoError :=
  let m1 : Machine := { fs := m.fs, requests := m.requests ++ [URL] }
  match w.httpGet URL with
  | (_, some err) => (m1, some err)
  | (response, none) =>
    if response.StatusCode ≠ 200 then
      (m1, some (errorsNew (utf8 "Received status code " ++
        utf8 (toString response.StatusCode) ++ utf8 " attempting to download from " ++ URL)))
    else
      match osCreate m1.fs targetFile with
      | (fs1, some err) => ({ fs := fs1, requests := m1.requests }, some err)
      | (fs1, none) =>
        let fs2 := fileAppend fs1 targetFile response.Body
        match response.bodyErr with
        | some err => ({ fs := fs2, requests := m1.requests }, some err)
        | none => ({ fs := fs2, requests := m1.requests }, none)

/-- The function `canReuseNode` of `do/serverless.go`. -/
def canReuseNode (w : World) (fs : FS) (serverlessDir : Path) (nodeBin : GoString) : Bool :=
  let fullNodeBin := filepathJoin serverlessDir [nodeBin]
  match execCommandOutput w fs fullNodeBin [utf8 "--version"] with
  | (result, none) =>
    let installed := stringsTrimSpace result
    decide (installed = nodeVersion)
  | (_, some _) => false

/-- The function `moveExistingNode` of `do/serverless.go`. -/
def moveExistingNode (fs : FS) (existing staging : Path) (nodeBin : GoString) :
    FS × Option GoError :=
  let srcPath := filepathJoin existing [nodeBin]
  let destPath := filepathJoin staging [nodeBin]
  osRename fs srcPath destPath

/-- The function `PreserveCreds` of `do/serverless.go`. -/
def PreserveCreds (fs : FS) (leafDir : GoString) (stagingDir serverlessDir : Path) :
    FS × Option GoError :=
  let credPath := filepathJoin serverlessDir [credsDir]
  let relocPath := filepathJoin stagingDir [credsDir]
  match osRename fs credPath relocPath with
  | (fs1, none) => (fs1, none)
  | (fs1, some err) =>
    if !errorsIsNotExist err then (fs1, some err)
    else
      let legacyCredPath := filepathJoin serverlessDir [utf8 ".nimbella"]
      match osMkdirAll fs1 relocPath 0o700 with
      | (fs2, some err) => (fs2, some err)
      | (fs2, none) =>
        let moveLegacyTo := GetCredentialDirectory leafDir stagingDir
        osRename fs2 legacyCredPath moveLegacyTo

/-- The names `InstallServerless` derives from the target: the operating system and the
architecture as the interpreter's distribution calls them, and the name of the interpreter
binary; or the error for 32-bit linux. -/
def targetNames (goos0 arch0 : GoString) : Except GoError (GoString × GoString × GoString) :=
  let goos := goos0
  let arch := arch0
  let nodeBin := utf8 "node"
  let arch := if arch = utf8 "amd64" then utf8 "x64" else arch
  if arch = utf8 "386" ∧ goos = utf8 "linux" then
    Except.error (errorsNew (utf8 "serverless support is not available for 32-bit linux"))
  else
    let arch := if arch = utf8 "386" then utf8 "x86" else arch
    let nodeBin := if goos = utf8 "windows" then utf8 "node.exe" else nodeBin
    let goos := if goos = utf8 "windows" then utf8 "win" else goos
    Except.ok (goos, arch, nodeBin)

/-- The value of `nodeDir` in `InstallServerless`. -/
def nodeDirName (goos arch : GoString) : GoString :=
  utf8 "node-" ++ nodeVersion ++ utf8 "-" ++ goos ++ utf8 "-" ++ arch

/-- The value of `nodeURL` in `InstallServerless`. -/
def nodeArchiveURL (goos arch : GoString) : GoString :=
  if goos = utf8 "win" then
    utf8 "https://nodejs.org/dist/" ++ nodeVersion ++ utf8 "/" ++ nodeDirName goos arch ++
      utf8 ".zip"
  else
    utf8 "https://nodejs.org/dist/" ++ nodeVersion ++ utf8 "/" ++ nodeDirName goos arch ++
      utf8 ".tar.gz"

/-- The value of `nodeFileName` in `InstallServerless`, when the interpreter is downloaded. -/
def nodeArchiveFile (goos : GoString) (tmp : Path) : Path :=
  if goos = utf8 "win" then filepathJoin tmp [utf8 "node-install.zip"]
  else filepathJoin tmp [utf8 "node-install.tar.gz"]

/-- The value of `URL` in `InstallServerless`: where the bundle is downloaded from. -/
def sandboxURL (env : Env) : GoString :=
  utf8 "https://do-serverless-tools.nyc3.digitaloceanspaces.com/doctl-sandbox-" ++
    GetMinServerlessVersion env ++ utf8 ".tar.gz"

/-- The local variables of `InstallServerless` once the archives are unpacked;
`nodeFileName` is `none` for the empty string (the interpreter was not downloaded). -/
structure Staging where
  tmp : Path
  goos : GoString
  arch : GoString
  nodeBin : GoString
  nodeFileName : Option Path
  nodeDir : GoString

/-- The first part of `InstallServerless` of `do/serverless.go`, up to the unpacking: the
temporary directory, the names of the target, the downloads, the extraction. -/
def installFetch (s : serverlessService) (w : World) (env : Env) (m : Machine)
    (upgrading : Bool) : Machine × Except GoError Staging :=
  let serverlessDir := s.serverlessDir
  match ioutilTempDir w.random m.fs (filepathDir serverlessDir) (utf8 "sbx-install") with
  | (fs0, _, some err) => ({ fs := fs0, requests := m.requests }, Except.error err)
  | (fs0, tmp, none) =>
    let m0 : Machine := { fs := fs0, requests := m.requests }
    match targetNames w.GOOS w.GOARCH with
    | Except.error err => (m0, Except.error err)
    | Except.ok (goos, arch, nodeBin) =>
      let nodeStep : Machine × Option GoError × Option Path × GoString :=
        if !upgrading || !canReuseNode w m0.fs serverlessDir nodeBin then
          let nodeDir := nodeDirName goos arch
          let nodeURL := nodeArchiveURL goos arch
          let nodeFileName := nodeArchiveFile goos tmp
          match download w m0 nodeURL nodeFileName with
          | (m1, err) => (m1, err, some nodeFileName, nodeDir)
        else (m0, none, none, [])
      match nodeStep with
      | (m1, some err, _, _) => (m1, Except.error err)
      | (m1, none, nodeFileName, nodeDir) =>
        let URL := sandboxURL env
        let sandboxFileName := filepathJoin tmp [utf8 "doctl-sandbox.tar.gz"]
        match download w m1 URL sandboxFileName with
        | (m2, some err) => (m2, Except.error err)
        | (m2, none) =>
          match extractExtract w m2.fs sandboxFileName tmp with
          | (fs3, some err) => ({ fs := fs3, requests := m2.requests }, Except.error err)
          | (fs3, none) =>
            let st : Staging :=
              { tmp := tmp, goos := goos, arch := arch, nodeBin := nodeBin,
                nodeFileName := nodeFileName, nodeDir := nodeDir }
            match nodeFileName with
            | none => ({ fs := fs3, requests := m2.requests }, Except.ok st)
            | some file =>
              match extractExtract w fs3 file tmp with
              | (fs4, some err) => ({ fs := fs4, requests := m2.requests }, Except.error err)
              | (fs4, none) => ({ fs := fs4, requests := m2.requests }, Except.ok st)

/-- How the second part of `InstallServerless` ends: with an error, with the `return nil`
taken when the empty credentials directory cannot be made, or ready for the activation. -/
inductive Relocated
  | failed (err : GoError)
  | returnedNil
  | ready

/-- The second part of `InstallServerless` of `do/serverless.go`, under "Move artifacts to
final location" up to the removal of the former install: when upgrading, the credentials and
an interpreter to reuse are moved into the staged tree; otherwise an empty credentials
directory and the install directory are made. -/
def installRelocate (s : serverlessService) (fs : FS) (leafCredsDir : GoString)
    (upgrading : Bool) (st : Staging) : FS × Relocated :=
  let serverlessDir := s.serverlessDir
  let srcPath := filepathJoin st.tmp [utf8 "sandbox"]
  if upgrading then
    match PreserveCreds fs leafCredsDir srcPath serverlessDir with
    | (fs1, some err) => (fs1, Relocated.failed err)
    | (fs1, none) =>
      match st.nodeFileName with
      | none =>
        match moveExistingNode fs1 serverlessDir srcPath st.nodeBin with
        | (fs2, some err) => (fs2, Relocated.failed err)
        | (fs2, none) => (fs2, Relocated.ready)
      | some _ => (fs1, Relocated.ready)
  else
    let emptyCreds := filepathJoin srcPath [credsDir]
    match osMkdirAll fs emptyCreds 0o700 with
    | (fs1, some _) => (fs1, Relocated.returnedNil)
    | (fs1, none) =>
      match osMkdirAll fs1 serverlessDir 0o755 with
      | (fs2, some err) => (fs2, Relocated.failed err)
      | (fs2, none) => (fs2, Relocated.ready)

/-- The last part of `InstallServerless` of `do/serverless.go`, the activation: the former
install directory is removed, the staged tree renamed into its place, a downloaded
interpreter moved in, and the temporary directory removed, whatever the outcome of that. -/
def installActivate (s : serverlessService) (fs : FS) (st : Staging) :
    FS × Option GoError :=
  let serverlessDir := s.serverlessDir
  let srcPath := filepathJoin st.tmp [utf8 "sandbox"]
  match osRemoveAll fs serverlessDir with
  | (fs1, some err) => (fs1, some err)
  | (fs1, none) =>
    match osRename fs1 srcPath serverlessDir with
    | (fs2, some err) => (fs2, some err)
    | (fs2, none) =>
      let nodeMove : FS × Option GoError :=
        match st.nodeFileName with
        | some _ =>
          let srcPath :=
            if st.goos = utf8 "win" then filepathJoin st.tmp [st.nodeDir, st.nodeBin]
            else filepathJoin st.tmp [st.nodeDir, utf8 "bin", st.nodeBin]
          let destPath := filepathJoin serverlessDir [st.nodeBin]
          osRename fs2 srcPath destPath
        | none => (fs2, none)
      match nodeMove with
      | (fs3, some err) => (fs3, some err)
      | (fs3, none) => ((osRemoveAll fs3 st.tmp).1, none)

/-- The function `serverlessService.InstallServerless` of `do/serverless.go`, its three parts
in a row.  What it prints is left out. -/
def InstallServerless (s : serverlessService) (w : World) (env : Env) (m : Machine)
    (leafCredsDir : GoString) (upgrading : Bool) : Machine × Option GoError :=
  match installFetch s w env m upgrading with
  | (m1, Except.error err) => (m1, some err)
  | (m1, Except.ok st) =>
    match installRelocate s m1.fs leafCredsDir upgrading st with
    | (fs2, Relocated.failed err) => ({ fs := fs2, requests := m1.requests }, some err)
    | (fs2, Relocated.returnedNil) => ({ fs := fs2, requests := m1.requests }, none)
    | (fs2, Relocated.ready) =>
      match installActivate s fs2 st with
      | (fs3, err) => ({ fs := fs3, requests := m1.requests }, err)

/-- The path of the temporary directory `InstallServerless` works in, when `ioutil.TempDir`
can make it: beside the install directory, named `sbx-install` and a random string. -/
def stagingPath (s : serverlessService) (w : World) : Path :=
  filepathDir s.serverlessDir ++ [utf8 "sbx-install" ++ w.random]

/-! ## Building the service and its commands -/

/-- The path a string names: its names between separators (the byte `/`); empty names
(a leading, trailing or doubled separator) count for nothing. -/
def pathOfString (text : GoString) : Path :=
  (stringsSplit text 47).filter (fun name => name ≠ [])

/-- The string that names a path: each name after a separator, and the separator alone for
the root. -/
def pathString : Path → GoString
  | [] => [47]
  | name :: rest => rest.foldl (fun text n => text ++ [47] ++ n) ([47] ++ name)

/-- The function `NewServerlessService` of `do/serverless.go`.  The operating system
(`runtime.GOOS`) and the version of the client (`doctl.DoitVersion.String()`) are given, and the
directories are given as paths. -/
def NewServerlessService (env : Env) (GOOS : GoString) (doitVersion : GoString)
    (client : GodoClient) (usualServerlessDir : Path) (credsToken : GoString) :
    serverlessService :=
  let nodeBin := if GOOS = utf8 "windows" then utf8 "node.exe" else utf8 "node"
  let serverlessDir :=
    if env (utf8 "OVERRIDE_SANDBOX_DIR") = [] then usualServerlessDir
    else pathOfString (env (utf8 "OVERRIDE_SANDBOX_DIR"))
  { serverlessJs := filepathJoin serverlessDir [utf8 "sandbox.js"]
    serverlessDir := serverlessDir
    credsDir := GetCredentialDirectory credsToken usualServerlessDir
    node := filepathJoin serverlessDir [nodeBin]
    userAgent := utf8 "doctl/" ++ doitVersion ++ utf8 " serverless/" ++ minServerlessVersion
    client := client
    owClient := none }

/-- The fields of an `*exec.Cmd` that `Cmd` sets: the program, the argument vector, the
environment, and whether standard error is the parent's (`os.Stderr`) or left nil. -/
structure ExecCmd where
  Path : GoString
  Args : List GoString
  Env : List GoString
  Stderr : Bool

/-- Go's `exec.Command(name, arg...)` for a `name` with a separator in it. -/
def execCommand (name : GoString) (arg : List GoString) : ExecCmd :=
  { Path := name, Args := [name] ++ arg, Env := [], Stderr := false }

/-- The function `serverlessService.Cmd` of `do/serverless.go`; `environ` is `os.Environ()`
and `env` is `os.Getenv`. -/
def Cmd (s : serverlessService) (environ : List GoString) (env : Env) (command : GoString)
    (args : List GoString) : ExecCmd × Option GoError :=
  let args := [pathString s.serverlessJs, command] ++ args
  let cmd := execCommand (pathString s.node) args
  let cmd : ExecCmd :=
    { Path := cmd.Path, Args := cmd.Args, Stderr := cmd.Stderr,
      Env := environ ++ [utf8 "NIMBELLA_DIR=" ++ pathString s.credsDir,
        utf8 "NIM_USER_AGENT=" ++ s.userAgent] }
  let cmd : ExecCmd :=
    if env (utf8 "DEBUG") ≠ [] then
      { Path := cmd.Path, Args := cmd.Args, Env := cmd.Env, Stderr := true }
    else cmd
  (cmd, none)

/-- The struct `ServerlessRuntime`. -/
structure ServerlessRuntime where
  Default : Bool
  Deprecated : Bool
  Kind : GoString
  deriving DecidableEq

/-- The struct `ServerlessHostInfo`. -/
structure ServerlessHostInfo where
  Runtimes : GoMap (List ServerlessRuntime)
  deriving DecidableEq

/-- The zero value `ServerlessHostInfo{}`. -/
def ServerlessHostInfo.zero : ServerlessHostInfo := { Runtimes := none }

/-- Go's `io.ReadAll(resp.Body)`: the bytes that arrived, and the error that ended the
reading if it was not the end of the body. -/
def ioReadAll (resp : HttpResponse) : GoString × Option GoError := (resp.Body, resp.bodyErr)

/-- The function `serverlessService.GetHostInfo` of `do/serverless.go`; `unmarshal` is
`json.Unmarshal` into a `ServerlessHostInfo`, giving the value the variable holds afterwards. -/
def GetHostInfo (w : World) (unmarshal : GoString → ServerlessHostInfo × Option GoError)
    (APIHost : GoString) : ServerlessHostInfo × Option GoError :=
  let endpoint := APIHost ++ utf8 "/api/v1"
  match w.httpGet endpoint with
  | (_, some err) => (ServerlessHostInfo.zero, some err)
  | (resp, none) =>
    match ioReadAll resp with
    | (body, _) =>
      match unmarshal body with
      | (result, err) => (result, err)

/-! ## The status check, with the state it passes on -/

/-- What a call on the service can change: the fields of the service and the filesystem. -/
structure ServiceState where
  service : serverlessService
  fs : FS

/-- The call `os.Stat(path)` as a step: the state after it, and what it returns. -/
def statStep (st : ServiceState) (path : Path) : ServiceState × (Option Node × Option GoError) :=
  (st, osStat st.fs path)

/-- The call `ioutil.ReadFile(path)` as a step: the state after it, and what it returns. -/
def readFileStep (st : ServiceState) (path : Path) : ServiceState × (GoString × Option GoError) :=
  (st, osReadFile st.fs path)

/-- The function `serverlessUptodate` of `do/serverless.go`, with the state it passes on. -/
def serverlessUptodateStep (env : Env) (st : ServiceState) (serverlessDir : Path) :
    ServiceState × Bool :=
  let versionFile := filepathJoin serverlessDir [utf8 "version"]
  match readFileStep st versionFile with
  | (st1, (_, some _)) => (st1, goStringGe (utf8 "0") (GetMinServerlessVersion env))
  | (st1, (contents, none)) => (st1, goStringGe contents (GetMinServerlessVersion env))

/-- The function `isServerlessConnected` of `do/serverless.go`, with the state it passes
on. -/
def isServerlessConnectedStep (st : ServiceState) (leafCredsDir : GoString)
    (serverlessDir : Path) : ServiceState × Bool :=
  let creds := GetCredentialDirectory leafCredsDir serverlessDir
  let credsFile := filepathJoin creds [CredentialsFile]
  match statStep st credsFile with
  | (st1, (_, err)) => (st1, !osIsNotExist err)

/-- The function `serverlessService.CheckServerlessStatus` of `do/serverless.go`, with the
state it passes on: every system call it makes is a step. -/
def CheckServerlessStatusStep (env : Env) (st : ServiceState) (leafCredsDir : GoString) :
    ServiceState × Option GoError :=
  match statStep st st.service.serverlessDir with
  | (st1, (_, err)) =>
    if osIsNotExist err then (st1, some ErrServerlessNotInstalled)
    else
      match serverlessUptodateStep env st1 st1.service.serverlessDir with
      | (st2, false) => (st2, some ErrServerlessNeedsUpgrade)
      | (st2, true) =>
        match isServerlessConnectedStep st2 leafCredsDir st2.service.serverlessDir with
        | (st3, false) => (st3, some ErrServerlessNotConnected)
        | (st3, true) => (st3, none)

/-! ## The OpenWhisk client, created on demand -/

/-- Go's indexing `m[k]` of a map of maps: the inner map, the nil map when the key is
missing. -/
def GoMap.index {V : Type} (m : GoMap (GoMap V)) (k : GoString) : GoMap V :=
  match GoMap.get? m k with
  | some inner => inner
  | none => none

/-- The zero value `ServerlessCredential{}`. -/
def ServerlessCredential.zero : ServerlessCredential := { Auth := [] }

/-- Go's indexing `m[k]` of a map of credentials: the zero value when the key is missing. -/
def GoMap.credential (m : GoMap ServerlessCredential) (k : GoString) : ServerlessCredential :=
  match GoMap.get? m k with
  | some c => c
  | none => ServerlessCredential.zero

/-- The function `initWhisk` of `do/serverless.go`: the service as it is afterwards, and the
error. `whiskNewClient` is `whisk.NewClient(http.DefaultClient, &config)` of the OpenWhisk
client library. -/
def initWhisk (whiskNewClient : WhiskConfig → Option WhiskClient × Option GoError)
    (s : serverlessService) (fs : FS) : serverlessService × Option GoError :=
  match s.owClient with
  | some _ => (s, none)
  | none =>
    match ReadCredentials s fs with
    | (_, some err) => (s, some err)
    | (creds, none) =>
      let credential := GoMap.credential (GoMap.index creds.Credentials creds.APIHost) creds.Namespace
      let config : WhiskConfig := { Host := creds.APIHost, AuthToken := credential.Auth }
      match whiskNewClient config with
      | (_, some err) => (s, some err)
      | (client, none) => ({ s with owClient := client }, none)

/-- The zero value `whisk.Action{}`. -/
def whiskAction.zero : whiskAction := { Namespace := [], Name := [], Version := [] }

/-- The struct `FunctionParameter` of `do/serverless.go`. -/
structure FunctionParameter where
  Key : GoString
  Value : GoString
  Init : Bool
  Encryption : GoString
  deriving DecidableEq

/-- The struct `FunctionParameterReparse` of `do/serverless.go`. -/
structure FunctionParameterReparse where
  Parameters : List FunctionParameter
  deriving DecidableEq

/-- The function `serverlessService.GetFunction` of `do/serverless.go`: the service as it is
afterwards, and the three results, `none` for the nil-pointer panic of `s.owClient.Actions`
or `*action`. `unmarshal` is `json.Unmarshal` into a `FunctionParameterReparse`, giving the
value the variable holds afterwards. The `err` of the read and of the unmarshalling is a
variable of the inner block, so the error returned in the end is the one of `Actions.Get`. -/
def GetFunction (whiskNewClient : WhiskConfig → Option WhiskClient × Option GoError)
    (unmarshal : GoString → FunctionParameterReparse × Option GoError)
    (s : serverlessService) (fs : FS) (name : GoString) (fetchCode : Bool) :
    serverlessService × Option (whiskAction × List FunctionParameter × Option GoError) :=
  match initWhisk whiskNewClient s fs with
  | (s1, some _) => (s1, some (whiskAction.zero, [], none))
  | (s1, none) =>
    match s1.owClient with
    | none => (s1, none)
    | some owClient =>
      match owClient.ActionsGet name fetchCode with
      | (action, some resp, none) =>
        match ioReadAll resp with
        | (body, none) =>
          match unmarshal body with
          | (_, some err) => (s1, some (whiskAction.zero, [], some err))
          | (reparse, none) =>
            match action with
            | none => (s1, none)
            | some a => (s1, some (a, reparse.Parameters, none))
        | (_, some _) =>
          match action with
          | none => (s1, none)
          | some a => (s1, some (a, [], none))
      | (action, _, err) =>
        match action with
        | none => (s1, none)
        | some a => (s1, some (a, [], err))

/-- The function `serverlessService.GetConnectedAPIHost` of `do/serverless.go`: the service
as it is afterwards, and the two results, `none` for the nil-pointer panic of
`s.owClient.Config`. -/
def GetConnectedAPIHost (whiskNewClient : WhiskConfig → Option WhiskClient × Option GoError)
    (s : serverlessService) (fs : FS) : serverlessService × Option (GoString × Option GoError) :=
  match initWhisk whiskNewClient s fs with
  | (s1, some err) => (s1, some ([], some err))
  | (s1, none) =>
    match s1.owClient with
    | none => (s1, none)
    | some owClient => (s1, some (owClient.Config.Host, none))

/-! ## Floating IPs (`commands/floating_ips.go`) -/

/-- The struct `godo.Region`, by its slug. -/
structure Region where
  Slug : GoString
  deriving DecidableEq

/-- The `do.FloatingIP`, a `*godo.FloatingIP`, by its address and its region; the region is
a pointer and may be nil. -/
structure FloatingIP where
  IP : GoString
  Region : Option Region
  deriving DecidableEq

/-- One round of the loop of `RunFloatingIPList`: the value of `skip` for the address `fip`;
`none` is the nil-pointer panic of `fip.Region.Slug`, which is evaluated only when the
wanted region is not empty. -/
def floatingIPSkip (region : GoString) (fip : FloatingIP) : Option Bool :=
  if region ≠ [] then
    match fip.Region with
    | none => none
    | some r => some (decide (region ≠ r.Slug))
  else some false

/-- The loop of `RunFloatingIPList` over the rest of the list, `fips` being the addresses
appended so far. -/
def floatingIPLoop (region : GoString) : List FloatingIP → List FloatingIP →
    Option (List FloatingIP)
  | [], fips => some fips
  | fip :: rest, fips =>
    match floatingIPSkip region fip with
    | none => none
    | some skip =>
      if !skip then floatingIPLoop region rest (fips ++ [fip])
      else floatingIPLoop region rest fips

/-- The function `RunFloatingIPList` of `commands/floating_ips.go`. `GetString` is the result
of `config.GetString(ns, doit.ArgRegionSlug)`, `fisList` the result of `fis.List()`, and
`Display` the error of displaying the given addresses. The result is the list handed to the
displayer, if the displayer is reached, and the error returned; `none` is a panic. -/
def RunFloatingIPList (GetString : GoString × Option GoError)
    (fisList : List FloatingIP × Option GoError)
    (Display : List FloatingIP → Option GoError) :
    Option (Option (List FloatingIP) × Option GoError) :=
  match GetString with
  | (_, some err) => some (none, some err)
  | (region, none) =>
    match fisList with
    | (_, some err) => some (none, some err)
    | (list, none) =>
      match floatingIPLoop region list [] with
      | none => none
      | some fips => some (some fips, Display fips)

/-- In the words of the claim: the region slug of the address is `r`. -/
def hasRegionSlug (r : GoString) (fip : FloatingIP) : Bool :=
  match fip.Region with
  | none => false
  | some region => decide (region.Slug = r)

/-! ## Sample inputs -/

/-- The output text `{"error":"boom","table":[{"name":"f"}]}` of a subprocess. -/
def sampleOutputText : GoString :=
  utf8 "\x7b\"error\":\"boom\",\"table\":[\x7b\"name\":\"f\"\x7d]\x7d"

/-- The envelope that text denotes. -/
def sampleEnvelope : ServerlessOutput :=
  { Table := [[(utf8 "name", JsonValue.string (utf8 "f"))]]
    Captured := []
    Formatted := []
    Entity := none
    Error := utf8 "boom" }

/-- A decoder that reads the sample text as the sample envelope and rejects any other. -/
def sampleUnmarshal (out : GoString) : ServerlessOutput × Option GoError :=
  if out = sampleOutputText then (sampleEnvelope, none)
  else (ServerlessOutput.zero, some (GoError.other (utf8 "invalid character")))

/-- A client whose requests carry the method, path and body asked for, and which answers
every request with the namespace `fn-abc` on the host `api.example.io`. -/
def sampleClient : GodoClient :=
  { NewRequest := fun method path body => ({ method := method, path := path, body := body }, none)
    Do := fun _ =>
      ({ Namespace :=
          { Namespace := utf8 "fn-abc", APIHost := utf8 "api.example.io", UUID := utf8 "u",
            Key := utf8 "k", Label := utf8 "l", Region := utf8 "nyc1" } }, none) }

/-- A service installed under `/home/.sandbox` with the token scope `tok`. -/
def sampleService : serverlessService :=
  { serverlessJs := [utf8 "home", utf8 ".sandbox", utf8 "sandbox.js"]
    serverlessDir := [utf8 "home", utf8 ".sandbox"]
    credsDir := [utf8 "home", utf8 ".sandbox", utf8 "creds", utf8 "tok"]
    node := [utf8 "home", utf8 ".sandbox", utf8 "node"]
    userAgent := utf8 "doctl/1.0.0 serverless/4.1.0-1.3.0"
    client := sampleClient
    owClient := none }

/-- The filesystem holding the install directory `/home/.sandbox` with the given content of
its `version` file, and nothing else. -/
def sampleInstalledFS (version : GoString) : FS := fun p =>
  if p = [] then some (Node.dir 493)
  else if p = [utf8 "home"] then some (Node.dir 493)
  else if p = [utf8 "home", utf8 ".sandbox"] then some (Node.dir 493)
  else if p = [utf8 "home", utf8 ".sandbox", utf8 "version"] then some (Node.file 420 version)
  else none

/-- The environment in which only `minServerlessVersion` is set, to `m`. -/
def sampleEnv (m : GoString) : Env := fun name =>
  if name = utf8 "minServerlessVersion" then m else []

/-- The filesystem holding the root directory alone. -/
def rootOnlyFS : FS := fun p => if p = [] then some (Node.dir 493) else none

/-- A record whose host is the single byte `0xFF`, which is not valid UTF-8. -/
def sampleInvalidCredentials : ServerlessCredentials :=
  { APIHost := [255], Namespace := utf8 "fn-abc", Credentials := none }

/-- The record of the namespace `fn-abc` on the host `api.example.co`. -/
def sampleCredentials : ServerlessCredentials :=
  { APIHost := utf8 "api.example.co"
    Namespace := utf8 "fn-abc"
    Credentials := some [(utf8 "api.example.co", some [(utf8 "fn-abc", { Auth := utf8 "u:k" })])] }

/-- The record of the namespace `fn-xyz` on the host `faas.example.co`. -/
def sampleOtherCredentials : ServerlessCredentials :=
  { APIHost := utf8 "faas.example.co"
    Namespace := utf8 "fn-xyz"
    Credentials :=
      some [(utf8 "faas.example.co", some [(utf8 "fn-xyz", { Auth := utf8 "v:w" })])] }

/-- The environment in which only `OVERRIDE_SANDBOX_DIR` is set, to `/snap/sandbox`. -/
def sampleOverrideEnv : Env := fun name =>
  if name = utf8 "OVERRIDE_SANDBOX_DIR" then utf8 "/snap/sandbox" else []

/-- The service `NewServerlessService` builds on linux for the usual directory
`/home/.sandbox` and the token scope `tok` when `OVERRIDE_SANDBOX_DIR` is `/snap/sandbox`. -/
def sampleOverrideService : serverlessService :=
  NewServerlessService sampleOverrideEnv (utf8 "linux") (utf8 "1.0.0") sampleClient
    [utf8 "home", utf8 ".sandbox"] (utf8 "tok")

/-- The filesystem holding the directory `/home` and the install directory `/snap/sandbox`
with the version file `4.1.0-1.3.0`, and nothing else. -/
def sampleOverrideFS : FS := fun p =>
  if p = [] then some (Node.dir 493)
  else if p = [utf8 "home"] then some (Node.dir 493)
  else if p = [utf8 "snap"] then some (Node.dir 493)
  else if p = [utf8 "snap", utf8 "sandbox"] then some (Node.dir 493)
  else if p = [utf8 "snap", utf8 "sandbox", utf8 "version"] then
    some (Node.file 420 (utf8 "4.1.0-1.3.0"))
  else none

/-- A decoder of host information that reads the text `{}` as the zero value and rejects any
other text. -/
def sampleHostInfoUnmarshal (body : GoString) : ServerlessHostInfo × Option GoError :=
  if body = utf8 "\x7b\x7d" then (ServerlessHostInfo.zero, none)
  else (ServerlessHostInfo.zero, some (GoError.other (utf8 "unexpected end of JSON input")))

/-- A world in which every GET is answered with the status 200 and the body `{}`, and the
reading of the body ends with the error `unexpected EOF` after those two bytes. -/
def sampleShortBodyWorld : World :=
  { GOOS := utf8 "linux"
    GOARCH := utf8 "amd64"
    random := utf8 "123"
    httpGet := fun _ =>
      ({ StatusCode := 200, Body := utf8 "\x7b\x7d",
         bodyErr := some (GoError.other (utf8 "unexpected EOF")) }, none)
    unpack := fun _ => none
    runProgram := fun _ _ => ([], some (GoError.exitError 1)) }

/-- The tree a bundle archive holds: the directory `sandbox` with the version file
`4.1.0-1.3.0` and the script `sandbox.js`. -/
def sampleBundleTree : FS := fun p =>
  if p = [utf8 "sandbox"] then some (Node.dir 493)
  else if p = [utf8 "sandbox", utf8 "version"] then some (Node.file 420 (utf8 "4.1.0-1.3.0"))
  else if p = [utf8 "sandbox", utf8 "sandbox.js"] then some (Node.file 420 (utf8 "js"))
  else none

/-- The tree an interpreter archive for linux on x64 holds: the binary
`node-v16.13.0-linux-x64/bin/node`. -/
def sampleNodeTree : FS := fun p =>
  if p = [utf8 "node-v16.13.0-linux-x64"] then some (Node.dir 493)
  else if p = [utf8 "node-v16.13.0-linux-x64", utf8 "bin"] then some (Node.dir 493)
  else if p = [utf8 "node-v16.13.0-linux-x64", utf8 "bin", utf8 "node"] then
    some (Node.file 493 (utf8 "node16"))
  else none

/-- A world on linux and amd64 in which the interpreter archive and the bundle of the default
minimum version can be downloaded (any other URL is answered with the status 404), the
program `node16` prints `v16.13.0`, and the temporary directory gets the suffix `123`. -/
def sampleWorld : World :=
  { GOOS := utf8 "linux"
    GOARCH := utf8 "amd64"
    random := utf8 "123"
    httpGet := fun url =>
      if url = utf8 "https://nodejs.org/dist/v16.13.0/node-v16.13.0-linux-x64.tar.gz" then
        ({ StatusCode := 200, Body := utf8 "NODE", bodyErr := none }, none)
      else if url = utf8 ("https://do-serverless-tools.nyc3.digitaloceanspaces.com/" ++
          "doctl-sandbox-4.1.0-1.3.0.tar.gz") then
        ({ StatusCode := 200, Body := utf8 "BUNDLE", bodyErr := none }, none)
      else ({ StatusCode := 404, Body := [], bodyErr := none }, none)
    unpack := fun bytes =>
      if bytes = utf8 "BUNDLE" then some sampleBundleTree
      else if bytes = utf8 "NODE" then some sampleNodeTree
      else none
    runProgram := fun program _ =>
      if program = utf8 "node16" then (utf8 "v16.13.0\n", none)
      else ([], some (GoError.exitError 1)) }

/-- The sample world on linux and 386. -/
def sampleWorld386 : World := { sampleWorld with GOARCH := utf8 "386" }

/-- The sample world on windows and amd64. -/
def sampleWindowsWorld : World := { sampleWorld with GOOS := utf8 "windows" }

/-- The filesystem holding the directory `/home` and nothing else. -/
def sampleHomeFS : FS := fun p =>
  if p = [] then some (Node.dir 493)
  else if p = [utf8 "home"] then some (Node.dir 493)
  else none

/-- The filesystem after the first part of a fresh install, in the sample world and from
the filesystem holding `/home` alone: the temporary directory `/home/sbx-install123` with the
two archive files and what they unpack. -/
def sampleStagedFS : FS :=
  ((((((sampleHomeFS.set [utf8 "home", utf8 "sbx-install123"] (Node.dir 0o700)).set
    [utf8 "home", utf8 "sbx-install123", utf8 "node-install.tar.gz"] (Node.file 0o666 [])).set
    [utf8 "home", utf8 "sbx-install123", utf8 "node-install.tar.gz"]
      (Node.file 0o666 ([] ++ utf8 "NODE"))).set
    [utf8 "home", utf8 "sbx-install123", utf8 "doctl-sandbox.tar.gz"] (Node.file 0o666 [])).set
    [utf8 "home", utf8 "sbx-install123", utf8 "doctl-sandbox.tar.gz"]
      (Node.file 0o666 ([] ++ utf8 "BUNDLE"))).graft
    [utf8 "home", utf8 "sbx-install123"] sampleBundleTree).graft
    [utf8 "home", utf8 "sbx-install123"] sampleNodeTree

/-- The tree of a bundle archive in which `sandbox/creds` is a regular file. -/
def sampleBadBundleTree : FS := fun p =>
  if p = [utf8 "sandbox"] then some (Node.dir 493)
  else if p = [utf8 "sandbox", utf8 "version"] then some (Node.file 420 (utf8 "4.1.0-1.3.0"))
  else if p = [utf8 "sandbox", utf8 "creds"] then some (Node.file 420 [])
  else none

/-- The sample world with the bundle in which `sandbox/creds` is a regular file. -/
def sampleBadBundleWorld : World :=
  { sampleWorld with
    unpack := fun bytes =>
      if bytes = utf8 "BUNDLE" then some sampleBadBundleTree
      else if bytes = utf8 "NODE" then some sampleNodeTree
      else none }

/-- The tree of a bundle archive in which `sandbox/node` is a directory. -/
def sampleNodeDirBundleTree : FS := fun p =>
  if p = [utf8 "sandbox"] then some (Node.dir 493)
  else if p = [utf8 "sandbox", utf8 "version"] then some (Node.file 420 (utf8 "4.1.0-1.3.0"))
  else if p = [utf8 "sandbox", utf8 "node"] then some (Node.dir 493)
  else none

/-- The sample world with the bundle in which `sandbox/node` is a directory. -/
def sampleNodeDirBundleWorld : World :=
  { sampleWorld with
    unpack := fun bytes =>
      if bytes = utf8 "BUNDLE" then some sampleNodeDirBundleTree
      else if bytes = utf8 "NODE" then some sampleNodeTree
      else none }

/-- The filesystem holding an install of the version `4.0.0` under `/home/.sandbox`, with the
interpreter `node16` and the credentials of the token scopes `tok` and `other` under `creds`. -/
def sampleUpgradeFS : FS := fun p =>
  if p = [] then some (Node.dir 493)
  else if p = [utf8 "home"] then some (Node.dir 493)
  else if p = [utf8 "home", utf8 ".sandbox"] then some (Node.dir 493)
  else if p = [utf8 "home", utf8 ".sandbox", utf8 "version"] then
    some (Node.file 420 (utf8 "4.0.0"))
  else if p = [utf8 "home", utf8 ".sandbox", utf8 "node"] then
    some (Node.file 493 (utf8 "node16"))
  else if p = [utf8 "home", utf8 ".sandbox", utf8 "creds"] then some (Node.dir 448)
  else if p = [utf8 "home", utf8 ".sandbox", utf8 "creds", utf8 "tok"] then some (Node.dir 448)
  else if p = [utf8 "home", utf8 ".sandbox", utf8 "creds", utf8 "tok", utf8 "credentials.json"]
    then some (Node.file 384 (utf8 "tok-credentials"))
  else if p = [utf8 "home", utf8 ".sandbox", utf8 "creds", utf8 "other"] then
    some (Node.dir 448)
  else if p = [utf8 "home", utf8 ".sandbox", utf8 "creds", utf8 "other", utf8 "credentials.json"]
    then some (Node.file 384 (utf8 "other-credentials"))
  else none

/-- The filesystem holding an install of the version `4.0.0` under `/home/.sandbox`, with the
interpreter `node16`, no `creds`, and the legacy directory `.nimbella` holding the leaf `tok`
with a credentials file. -/
def sampleLegacyFS : FS := fun p =>
  if p = [] then some (Node.dir 493)
  else if p = [utf8 "home"] then some (Node.dir 493)
  else if p = [utf8 "home", utf8 ".sandbox"] then some (Node.dir 493)
  else if p = [utf8 "home", utf8 ".sandbox", utf8 "version"] then
    some (Node.file 420 (utf8 "4.0.0"))
  else if p = [utf8 "home", utf8 ".sandbox", utf8 "node"] then
    some (Node.file 493 (utf8 "node16"))
  else if p = [utf8 "home", utf8 ".sandbox", utf8 ".nimbella"] then some (Node.dir 448)
  else if p = [utf8 "home", utf8 ".sandbox", utf8 ".nimbella", utf8 "tok"] then
    some (Node.dir 448)
  else if p = [utf8 "home", utf8 ".sandbox", utf8 ".nimbella", utf8 "tok",
      utf8 "credentials.json"] then some (Node.file 384 (utf8 "tok-credentials"))
  else none

/-- The filesystem holding an install of the version `4.0.0` under `/home/.sandbox`, with the
interpreter `node16`, no `creds`, and the legacy directory `.nimbella` holding a credentials
file. -/
def sampleFlatLegacyFS : FS := fun p =>
  if p = [] then some (Node.dir 493)
  else if p = [utf8 "home"] then some (Node.dir 493)
  else if p = [utf8 "home", utf8 ".sandbox"] then some (Node.dir 493)
  else if p = [utf8 "home", utf8 ".sandbox", utf8 "version"] then
    some (Node.file 420 (utf8 "4.0.0"))
  else if p = [utf8 "home", utf8 ".sandbox", utf8 "node"] then
    some (Node.file 493 (utf8 "node16"))
  else if p = [utf8 "home", utf8 ".sandbox", utf8 ".nimbella"] then some (Node.dir 448)
  else if p = [utf8 "home", utf8 ".sandbox", utf8 ".nimbella", utf8 "credentials.json"] then
    some (Node.file 384 (utf8 "legacy-credentials"))
  else none

/-- The tree of a bundle archive that holds no `sandbox`: a single file `README`. -/
def sampleNoSandboxBundleTree : FS := fun p =>
  if p = [utf8 "README"] then some (Node.file 420 (utf8 "empty")) else none

/-- The sample world with the bundle that holds no `sandbox`. -/
def sampleNoSandboxWorld : World :=
  { sampleWorld with
    unpack := fun bytes =>
      if bytes = utf8 "BUNDLE" then some sampleNoSandboxBundleTree
      else if bytes = utf8 "NODE" then some sampleNodeTree
      else none }

/-- The install of `sampleUpgradeFS` with, besides its `creds`, a legacy directory
`.nimbella` holding a credentials file. -/
def sampleBothFS : FS := fun p =>
  if p = [utf8 "home", utf8 ".sandbox", utf8 ".nimbella"] then some (Node.dir 448)
  else if p = [utf8 "home", utf8 ".sandbox", utf8 ".nimbella", utf8 "credentials.json"] then
    some (Node.file 384 (utf8 "legacy-credentials"))
  else sampleUpgradeFS p

/-- The local variables of a sample run that downloads the interpreter on linux and x64. -/
def sampleStaging : Staging :=
  { tmp := [utf8 "home", utf8 "sbx-install123"]
    goos := utf8 "linux"
    arch := utf8 "x64"
    nodeBin := utf8 "node"
    nodeFileName := some [utf8 "home", utf8 "sbx-install123", utf8 "node-install.tar.gz"]
    nodeDir := utf8 "node-v16.13.0-linux-x64" }

/-- The local variables of a sample run that reuses the interpreter on linux and x64. -/
def sampleReuseStaging : Staging :=
  { tmp := [utf8 "home", utf8 "sbx-install123"]
    goos := utf8 "linux"
    arch := utf8 "x64"
    nodeBin := utf8 "node"
    nodeFileName := none
    nodeDir := [] }

/-- A `whisk.NewClient` that succeeds with a client holding the configuration, whose
`Actions.Get` answers with the action of the given name and no response. -/
def sampleWhiskNewClient (config : WhiskConfig) : Option WhiskClient × Option GoError :=
  (some { Config := config
          ActionsGet := fun name _ =>
            (some { Namespace := utf8 "fn-abc", Name := name, Version := utf8 "0.0.1" },
              none, none) }, none)

/-- A `json.Unmarshal` into a `FunctionParameterReparse` that finds no parameters. -/
def sampleReparseUnmarshal (_ : GoString) : FunctionParameterReparse × Option GoError :=
  ({ Parameters := [] }, none)

/-- Three floating IPs, in `nyc1`, `ams3` and `nyc1`. -/
def sampleFloatingIPs : List FloatingIP :=
  [ { IP := utf8 "10.0.0.1", Region := some { Slug := utf8 "nyc1" } },
    { IP := utf8 "10.0.0.2", Region := some { Slug := utf8 "ams3" } },
    { IP := utf8 "10.0.0.3", Region := some { Slug := utf8 "nyc1" } } ]

/-- A displayer that succeeds. -/
def sampleDisplay (_ : List FloatingIP) : Option GoError := none

/-- The filesystem in which `/home` is a regular file. -/
def sampleFileHomeFS : FS := fun p =>
  if p = [] then some (Node.dir 493)
  else if p = [utf8 "home"] then some (Node.file 420 (utf8 "not a directory"))
  else none

/-- The install of the version `4.1.0-1.3.0` under `/home/.sandbox` in which `creds` is a
regular file. -/
def sampleCredsFileFS : FS :=
  (sampleInstalledFS (utf8 "4.1.0-1.3.0")).set [utf8 "home", utf8 ".sandbox", utf8 "creds"]
    (Node.file 420 (utf8 "not a directory"))

/-! ### Facts about the string functions -/

theorem stringsHasPrefix_iff (s pre : GoString) :
    stringsHasPrefix s pre = true ↔ pre <+: s := by
  unfold stringsHasPrefix
  simp only [Bool.and_eq_true, decide_eq_true_eq]
  constructor
  · rintro ⟨_, h⟩
    exact h ▸ List.take_prefix _ _
  · intro h
    refine ⟨h.length_le, ?_⟩
    exact (List.prefix_iff_eq_take.mp h).symm

theorem stringsSplit_ne_nil (s : GoString) (sep : Byte) : stringsSplit s sep ≠ [] := by
  cases s with
  | nil => simp [stringsSplit]
  | cons c cs =>
    unfold stringsSplit
    split
    · simp
    · split <;> simp

theorem stringsSplit_cons_sep (cs : GoString) (sep : Byte) :
    stringsSplit (sep :: cs) sep = [] :: stringsSplit cs sep := by
  simp [stringsSplit]

theorem stringsSplit_cons_ne (c : Byte) (cs : GoString) (sep : Byte) (h : c ≠ sep) :
    ∃ p ps, stringsSplit cs sep = p :: ps ∧ stringsSplit (c :: cs) sep = (c :: p) :: ps := by
  cases hs : stringsSplit cs sep with
  | nil => exact absurd hs (stringsSplit_ne_nil cs sep)
  | cons p ps => exact ⟨p, ps, rfl, by simp [stringsSplit, h, hs]⟩

/-- No piece of a split holds the separator. -/
theorem stringsSplit_not_mem (s : GoString) (sep : Byte) :
    ∀ p ∈ stringsSplit s sep, sep ∉ p := by
  induction s with
  | nil => simp [stringsSplit]
  | cons c cs ih =>
    by_cases h : c = sep
    · subst h
      rw [stringsSplit_cons_sep]
      intro p hp
      rcases List.mem_cons.mp hp with rfl | hp
      · simp
      · exact ih p hp
    · obtain ⟨p, ps, h1, h2⟩ := stringsSplit_cons_ne c cs sep h
      rw [h2]
      rw [h1] at ih
      intro q hq
      rcases List.mem_cons.mp hq with rfl | hq
      · intro hmem
        rcases List.mem_cons.mp hmem with e | e
        · exact h e.symm
        · exact ih p (List.mem_cons_self _ _) e
      · exact ih q (List.mem_cons_of_mem _ hq)

/-- Splitting a string without the separator gives the string alone. -/
theorem stringsSplit_of_not_mem (s : GoString) (sep : Byte) (h : sep ∉ s) :
    stringsSplit s sep = [s] := by
  induction s with
  | nil => rfl
  | cons c cs ih =>
    have hc : c ≠ sep := fun e => h (e ▸ List.mem_cons_self _ _)
    have hcs : sep ∉ cs := fun e => h (List.mem_cons_of_mem _ e)
    simp [stringsSplit, hc, ih hcs]

/-- Splitting `p ++ [sep] ++ rest`, where `p` is free of the separator, splits off `p`. -/
theorem stringsSplit_append_sep (p rest : GoString) (sep : Byte) (h : sep ∉ p) :
    stringsSplit (p ++ sep :: rest) sep = p :: stringsSplit rest sep := by
  induction p with
  | nil => simp [stringsSplit]
  | cons c cs ih =>
    have hc : c ≠ sep := fun e => h (e ▸ List.mem_cons_self _ _)
    have hcs : sep ∉ cs := fun e => h (List.mem_cons_of_mem _ e)
    simp [stringsSplit, hc, ih hcs]

/-- Split undoes join on pieces free of the separator. -/
theorem stringsSplit_stringsJoin (parts : List GoString) (sep : Byte) (hne : parts ≠ [])
    (h : ∀ p ∈ parts, sep ∉ p) : stringsSplit (stringsJoin parts [sep]) sep = parts := by
  induction parts with
  | nil => exact absurd rfl hne
  | cons a rest ih =>
    cases rest with
    | nil =>
      simpa [stringsJoin] using stringsSplit_of_not_mem a sep (h a (List.mem_cons_self _ _))
    | cons b rest =>
      have ha : sep ∉ a := h a (List.mem_cons_self _ _)
      have hrest : ∀ p ∈ b :: rest, sep ∉ p := fun p hp => h p (List.mem_cons_of_mem _ hp)
      simp only [stringsJoin, List.append_assoc, List.singleton_append]
      rw [stringsSplit_append_sep _ _ _ ha, ih (by simp) hrest]

/-- Join undoes split. -/
theorem stringsJoin_stringsSplit (s : GoString) (sep : Byte) :
    stringsJoin (stringsSplit s sep) [sep] = s := by
  induction s with
  | nil => rfl
  | cons c cs ih =>
    by_cases h : c = sep
    · subst h
      rw [stringsSplit_cons_sep]
      cases hs : stringsSplit cs c with
      | nil => exact absurd hs (stringsSplit_ne_nil cs c)
      | cons p ps =>
        rw [hs] at ih
        simp [stringsJoin, ih]
    · obtain ⟨p, ps, h1, h2⟩ := stringsSplit_cons_ne c cs sep h
      rw [h2]
      rw [h1] at ih
      cases ps with
      | nil => simpa [stringsJoin] using ih
      | cons q qs =>
        simp only [stringsJoin, List.cons_append] at ih ⊢
        rw [ih]

/-- Joining with one more piece appends the separator and the piece. -/
theorem stringsJoin_append_singleton (parts : List GoString) (y sep : GoString)
    (hne : parts ≠ []) :
    stringsJoin (parts ++ [y]) sep = stringsJoin parts sep ++ sep ++ y := by
  induction parts with
  | nil => exact absurd rfl hne
  | cons a rest ih =>
    cases rest with
    | nil => simp [stringsJoin]
    | cons b rest =>
      have := ih (by simp)
      rw [List.cons_append] at this
      show a ++ sep ++ stringsJoin (b :: (rest ++ [y])) sep = _
      rw [this]
      simp [stringsJoin]

/-- A string holds the separator iff it splits into at least two pieces. -/
theorem stringsSplit_length_two_le_iff (s : GoString) (sep : Byte) :
    2 ≤ (stringsSplit s sep).length ↔ sep ∈ s := by
  constructor
  · intro h
    by_contra hn
    rw [stringsSplit_of_not_mem s sep hn] at h
    simp at h
  · intro h
    induction s with
    | nil => simp at h
    | cons c cs ih =>
      by_cases hc : c = sep
      · subst hc
        rw [stringsSplit_cons_sep]
        have := List.length_pos.mpr (stringsSplit_ne_nil cs c)
        simp only [List.length_cons]
        omega
      · obtain ⟨p, ps, h1, h2⟩ := stringsSplit_cons_ne c cs sep hc
        have hmem : sep ∈ cs := by
          rcases List.mem_cons.mp h with e | e
          · exact absurd e.symm hc
          · exact e
        have := ih hmem
        rw [h1] at this
        rw [h2]
        simpa using this

theorem sliceTo_length_sub_one {α : Type} (xs : List α) (h : xs ≠ []) :
    sliceTo xs ((xs.length : Int) - 1) = some xs.dropLast := by
  have hpos : 0 < xs.length := List.length_pos.mpr h
  unfold sliceTo
  rw [if_pos (by omega)]
  congr 1
  rw [List.dropLast_eq_take]
  congr 1
  omega

/-- The shape of `assignAPIHost` on a prefixed namespace. -/
theorem assignAPIHost_prefixed (h n : GoString) (hn : utf8 "fn-" <+: n) :
    assignAPIHost h n
      = some (stringsJoin (stringsSplit h dot).dropLast (utf8 ".") ++ utf8 ".co") := by
  unfold assignAPIHost
  rw [if_pos ((stringsHasPrefix_iff _ _).mpr hn)]
  simp only [sliceTo_length_sub_one _ (stringsSplit_ne_nil h dot)]

theorem utf8_dot : utf8 "." = [dot] := by decide

theorem utf8_dot_co : utf8 ".co" = dot :: utf8 "co" := by decide

theorem dot_not_mem_co : dot ∉ utf8 "co" := by decide

/-! ## Claims C1 and C2 -/

/-- C1: for every API host `h` and namespace name `n`, `assignAPIHost h n` is `h` when
`n` does not start with `fn-`, and is the join by `.` of all but the last piece of
`h` split at `.`, followed by `.co`, when `n` starts with `fn-`; on `api.example.io` the
namespace `fn-abc` gives `api.example.co` and the namespace `abc` gives the host unchanged. -/
theorem C1_assignAPIHost_spec :
    (∀ h n : GoString, ¬ utf8 "fn-" <+: n → assignAPIHost h n = some h) ∧
    (∀ h n : GoString, utf8 "fn-" <+: n →
      assignAPIHost h n
        = some (stringsJoin (stringsSplit h dot).dropLast (utf8 ".") ++ utf8 ".co")) ∧
    assignAPIHost (utf8 "api.example.io") (utf8 "fn-abc") = some (utf8 "api.example.co") ∧
    assignAPIHost (utf8 "api.example.io") (utf8 "abc") = some (utf8 "api.example.io") := by
  refine ⟨?_, assignAPIHost_prefixed, by decide, by decide⟩
  intro h n hn
  unfold assignAPIHost
  rw [if_neg]
  rw [stringsHasPrefix_iff]
  exact hn

/-- C2, counterexample: on the dotless host `localhost` and the namespace `fn-abc` the result
is `.co`, whose labels are the empty label and `co`: two labels where the host has one, and
not all-but-the-last label of the host followed by `co`. -/
theorem C2_dotless_host_counterexample :
    utf8 "fn-" <+: utf8 "fn-abc" ∧
    assignAPIHost (utf8 "localhost") (utf8 "fn-abc") = some (utf8 ".co") ∧
    stringsSplit (utf8 ".co") dot
      ≠ (stringsSplit (utf8 "localhost") dot).dropLast ++ [utf8 "co"] ∧
    (stringsSplit (utf8 ".co") dot).length ≠ (stringsSplit (utf8 "localhost") dot).length := by
  decide

/-- C2, amended: for every API host `h` holding at least one dot and every namespace `n`
starting with `fn-`, `assignAPIHost h n` returns a host whose dot-separated labels are those
of `h` without the last one, followed by `co`, so it has exactly as many labels as `h`. -/
theorem C2_assignAPIHost_labels (h n : GoString) (hn : utf8 "fn-" <+: n) (hdot : dot ∈ h) :
    ∃ r, assignAPIHost h n = some r ∧
      stringsSplit r dot = (stringsSplit h dot).dropLast ++ [utf8 "co"] ∧
      (stringsSplit r dot).length = (stringsSplit h dot).length := by
  have hlen := (stringsSplit_length_two_le_iff h dot).mpr hdot
  have hne : (stringsSplit h dot).dropLast ≠ [] := by
    intro e
    have := congrArg List.length e
    simp only [List.length_dropLast, List.length_nil] at this
    omega
  have hfree : ∀ p ∈ (stringsSplit h dot).dropLast ++ [utf8 "co"], dot ∉ p := by
    intro p hp
    rcases List.mem_append.mp hp with hp | hp
    · exact stringsSplit_not_mem h dot p (List.dropLast_subset _ hp)
    · rw [List.mem_singleton.mp hp]
      exact dot_not_mem_co
  have hsplit : stringsSplit
      (stringsJoin (stringsSplit h dot).dropLast (utf8 ".") ++ utf8 ".co") dot
      = (stringsSplit h dot).dropLast ++ [utf8 "co"] := by
    have hj := stringsJoin_append_singleton (stringsSplit h dot).dropLast (utf8 "co") [dot] hne
    rw [utf8_dot, utf8_dot_co]
    have e : stringsJoin (stringsSplit h dot).dropLast [dot] ++ dot :: utf8 "co"
        = stringsJoin ((stringsSplit h dot).dropLast ++ [utf8 "co"]) [dot] := by
      rw [hj]
      simp
    rw [e]
    exact stringsSplit_stringsJoin _ dot (by simp) hfree
  refine ⟨_, assignAPIHost_prefixed h n hn, hsplit, ?_⟩
  rw [hsplit]
  simp only [List.length_append, List.length_dropLast, List.length_singleton]
  omega

/-- C2, amended, at the host `api.example.io` and the namespace `fn-abc`. -/
theorem C2_assignAPIHost_labels_witness :
    ∃ r, assignAPIHost (utf8 "api.example.io") (utf8 "fn-abc") = some r ∧
      stringsSplit r dot = (stringsSplit (utf8 "api.example.io") dot).dropLast ++ [utf8 "co"] ∧
      (stringsSplit r dot).length = (stringsSplit (utf8 "api.example.io") dot).length :=
  C2_assignAPIHost_labels (utf8 "api.example.io") (utf8 "fn-abc") (by decide) (by decide)

/-! ### Facts about the comparison of strings -/

/-- Go's comparison says "smaller" exactly for the lexicographically smaller byte string. -/
theorem goStringCompare_lt_iff (a b : GoString) :
    goStringCompare a b = Ordering.lt ↔ List.Lex (· < ·) a b := by
  induction a generalizing b with
  | nil =>
    cases b with
    | nil => simp [goStringCompare]
    | cons y ys => simp [goStringCompare, List.Lex.nil]
  | cons x xs ih =>
    cases b with
    | nil => simp [goStringCompare]
    | cons y ys =>
      unfold goStringCompare
      by_cases h1 : x < y
      · simp only [h1, if_true, true_iff]
        exact List.Lex.rel h1
      · by_cases h2 : y < x
        · simp only [h1, h2, if_false, if_true]
          constructor
          · intro h
            cases h
          · intro h
            cases h with
            | cons h => exact absurd h2 (lt_irrefl _)
            | rel h => exact absurd h h1
        · have hxy : x = y := le_antisymm (not_lt.mp h2) (not_lt.mp h1)
          subst hxy
          simp only [h1, if_false, ih]
          exact (List.Lex.cons_iff).symm

theorem goStringGe_iff (a b : GoString) :
    goStringGe a b = true ↔ ¬ List.Lex (· < ·) a b := by
  rw [← goStringCompare_lt_iff]
  unfold goStringGe
  cases goStringCompare a b <;> simp

theorem filepathJoin_single (dir : Path) (name : GoString) (h : name ≠ []) :
    filepathJoin dir [name] = dir ++ [name] := by
  simp [filepathJoin, h]

/-! ## Claim C4 -/

/-- C4: for every install directory `d` and every minimum version `m` (the constant
`4.1.0-1.3.0`, or the value of the environment variable `minServerlessVersion` when that is
not empty), `serverlessUptodate d` is true iff `v >= m` in the lexicographic order of byte
strings, `v` being the exact content of `d/version`, or `0` when that file cannot be read.
So when the file cannot be read, `serverlessUptodate d` is false for the default minimum and
for every minimum other than `0` that begins with a decimal digit. -/
theorem C4_serverlessUptodate_lexicographic (env : Env) (fs : FS) (d : Path) :
    (serverlessUptodate env fs d = true ↔
      ¬ List.Lex (· < ·)
        (if (osReadFile fs (d ++ [utf8 "version"])).2 = none
          then (osReadFile fs (d ++ [utf8 "version"])).1 else utf8 "0")
        (if env (utf8 "minServerlessVersion") = [] then utf8 "4.1.0-1.3.0"
          else env (utf8 "minServerlessVersion"))) ∧
    ((osReadFile fs (d ++ [utf8 "version"])).2 ≠ none →
      env (utf8 "minServerlessVersion") = [] →
      serverlessUptodate env fs d = false) ∧
    ((osReadFile fs (d ++ [utf8 "version"])).2 ≠ none →
      env (utf8 "minServerlessVersion") ≠ utf8 "0" →
      (∃ c rest, env (utf8 "minServerlessVersion") = c :: rest ∧ 48 ≤ c.val ∧ c.val ≤ 57) →
      serverlessUptodate env fs d = false) := by
  have hv : GetCurrentServerlessVersion fs d
      = if (osReadFile fs (d ++ [utf8 "version"])).2 = none
          then (osReadFile fs (d ++ [utf8 "version"])).1 else utf8 "0" := by
    unfold GetCurrentServerlessVersion
    rw [filepathJoin_single d (utf8 "version") (by decide)]
    rcases hr : osReadFile fs (d ++ [utf8 "version"]) with ⟨c, _ | e⟩ <;> simp [hr]
  have hm : GetMinServerlessVersion env
      = if env (utf8 "minServerlessVersion") = [] then utf8 "4.1.0-1.3.0"
          else env (utf8 "minServerlessVersion") := by
    unfold GetMinServerlessVersion minServerlessVersion
    by_cases h : env (utf8 "minServerlessVersion") = [] <;> simp [h]
  refine ⟨?_, ?_, ?_⟩
  · unfold serverlessUptodate
    rw [goStringGe_iff, hv, hm]
  · intro hr he
    unfold serverlessUptodate
    rw [hv, hm, if_neg hr, if_pos he]
    decide
  · intro hr h0 hdigit
    obtain ⟨c, rest, hc, hlo, hhi⟩ := hdigit
    have hne : env (utf8 "minServerlessVersion") ≠ [] := by simp [hc]
    have hlt : List.Lex (· < ·) (utf8 "0") (env (utf8 "minServerlessVersion")) := by
      rw [hc]
      have h48 : utf8 "0" = [(48 : Byte)] := by decide
      rw [h48]
      by_cases hc48 : c = 48
      · subst hc48
        cases rest with
        | nil => exact absurd (by rw [hc, h48]) h0
        | cons r rs => exact List.Lex.cons List.Lex.nil
      · apply List.Lex.rel
        rw [Fin.lt_def]
        have : c.val ≠ 48 := fun e => hc48 (Fin.ext e)
        show 48 < c.val
        omega
    unfold serverlessUptodate
    rw [hv, hm, if_neg hr, if_neg hne]
    cases hg : goStringGe (utf8 "0") (env (utf8 "minServerlessVersion")) with
    | false => rfl
    | true => exact absurd hlt ((goStringGe_iff _ _).mp hg)


/-- C4 on an install directory without a version file: not up to date for the default
minimum and for the minimum `0.1`; and on one with the version `4.1.0-1.3.0`: up to date for
the default minimum. -/
theorem C4_serverlessUptodate_lexicographic_witness :
    serverlessUptodate (sampleEnv []) rootOnlyFS sampleService.serverlessDir = false ∧
    serverlessUptodate (sampleEnv (utf8 "0.1")) rootOnlyFS sampleService.serverlessDir
      = false ∧
    serverlessUptodate (sampleEnv []) (sampleInstalledFS (utf8 "4.1.0-1.3.0"))
      sampleService.serverlessDir = true :=
  ⟨(C4_serverlessUptodate_lexicographic (sampleEnv []) rootOnlyFS
      sampleService.serverlessDir).2.1 (by decide) (by decide),
    (C4_serverlessUptodate_lexicographic (sampleEnv (utf8 "0.1")) rootOnlyFS
      sampleService.serverlessDir).2.2 (by decide) (by decide) ⟨48, utf8 ".1", by decide⟩,
    (C4_serverlessUptodate_lexicographic (sampleEnv []) (sampleInstalledFS (utf8 "4.1.0-1.3.0"))
      sampleService.serverlessDir).1.mpr (by decide)⟩

/-! ### Facts about paths and versions -/

theorem FS.walk_append_singleton (fs : FS) (cur : Path) (rest : List GoString) (x : GoString)
    (n : Node) (h : fs.walk cur (rest ++ [x]) = Except.ok n) :
    ∃ perm, fs.walk cur rest = Except.ok (Node.dir perm) := by
  induction rest generalizing cur with
  | nil =>
    simp only [List.nil_append, FS.walk] at h ⊢
    cases hc : fs cur with
    | none => simp [hc] at h
    | some nd =>
      cases nd with
      | file pm da => simp [hc] at h
      | dir pm => exact ⟨pm, rfl⟩
  | cons c rest ih =>
    simp only [List.cons_append, FS.walk] at h ⊢
    cases hc : fs cur with
    | none => simp [hc] at h
    | some nd =>
      cases nd with
      | file pm da => simp [hc] at h
      | dir pm =>
        simp only [hc] at h ⊢
        exact ih _ h

theorem FS.walk_snoc (fs : FS) (cur : Path) (rest : List GoString) (x : GoString)
    (pm : Nat) (h : fs.walk cur rest = Except.ok (Node.dir pm)) :
    fs.walk cur (rest ++ [x])
      = match fs (cur ++ rest ++ [x]) with
        | some n => Except.ok n
        | none => Except.error Errno.ENOENT := by
  induction rest generalizing cur with
  | nil =>
    simp only [FS.walk] at h
    cases hc : fs cur with
    | none => simp [hc] at h
    | some nd =>
      cases nd with
      | file p d => simp [hc] at h
      | dir p => simp [FS.walk, hc]
  | cons c r ih =>
    simp only [FS.walk] at h
    cases hc : fs cur with
    | none => simp [hc] at h
    | some nd =>
      cases nd with
      | file p d => simp [hc] at h
      | dir p =>
        simp only [hc] at h
        have := ih (cur ++ [c]) h
        have e : cur ++ [c] ++ r ++ [x] = cur ++ c :: r ++ [x] := by simp
        rw [e] at this
        simp only [List.cons_append, FS.walk, hc]
        exact this

/-- Below a directory, a name is reported as not existing exactly when it names nothing. -/
theorem osIsNotExist_osStat_iff (fs : FS) (d : Path) (x : GoString) (pm : Nat)
    (h : fs.lookup d = Except.ok (Node.dir pm)) :
    osIsNotExist (osStat fs (d ++ [x])).2 = true ↔ fs (d ++ [x]) = none := by
  have hw := FS.walk_snoc fs [] d x pm h
  simp only [List.nil_append] at hw
  unfold osStat FS.lookup
  rw [hw]
  cases fs (d ++ [x]) with
  | none => simp [osIsNotExist]
  | some n => simp [osIsNotExist]

/-- A directory whose file can be read is not reported as missing. -/
theorem osStat_of_osReadFile (fs : FS) (d : Path) (x v : GoString)
    (h : osReadFile fs (d ++ [x]) = (v, none)) : osIsNotExist (osStat fs d).2 = false := by
  unfold osReadFile at h
  cases hl : fs.lookup (d ++ [x]) with
  | error e => simp [hl] at h
  | ok n =>
    obtain ⟨pm, hd⟩ := FS.walk_append_singleton fs [] d x n hl
    unfold osStat
    have hd1 : fs.lookup d = Except.ok (Node.dir pm) := hd
    rw [hd1]
    rfl

theorem goStringCompare_append (a b x y : GoString) (h : a.length = b.length) :
    goStringCompare (a ++ x) (b ++ y)
      = match goStringCompare a b with
        | Ordering.eq => goStringCompare x y
        | o => o := by
  induction a generalizing b with
  | nil =>
    cases b with
    | nil => simp [goStringCompare]
    | cons c cs => simp at h
  | cons c cs ih =>
    cases b with
    | nil => simp at h
    | cons e es =>
      have hl : cs.length = es.length := by simpa using h
      simp only [List.cons_append, goStringCompare]
      by_cases h1 : c < e
      · simp [h1]
      · by_cases h2 : e < c
        · simp [h1, h2]
        · simp only [h1, h2, if_false]
          exact ih es hl

theorem decimalValue_foldl (s : GoString) (acc : Nat) :
    s.foldl (fun acc b => acc * 10 + (b.val - 48)) acc
      = acc * 10 ^ s.length + decimalValue s := by
  unfold decimalValue
  induction s generalizing acc with
  | nil => simp
  | cons c cs ih =>
    simp only [List.foldl_cons, List.length_cons]
    rw [ih (acc * 10 + (c.val - 48)), ih (0 * 10 + (c.val - 48))]
    ring

theorem decimalValue_cons (c : Byte) (cs : GoString) :
    decimalValue (c :: cs) = (c.val - 48) * 10 ^ cs.length + decimalValue cs := by
  have := decimalValue_foldl cs (0 * 10 + (c.val - 48))
  simp only [Nat.zero_mul, Nat.zero_add] at this
  rw [← this]
  simp [decimalValue]

theorem decimalValue_lt (s : GoString) (h : s.all isDecimalDigit = true) :
    decimalValue s < 10 ^ s.length := by
  induction s with
  | nil => simp [decimalValue]
  | cons c cs ih =>
    simp only [List.all_cons, Bool.and_eq_true] at h
    have hc : 48 ≤ c.val ∧ c.val ≤ 57 := by simpa [isDecimalDigit] using h.1
    have := ih h.2
    rw [decimalValue_cons, List.length_cons, pow_succ]
    have h9 : c.val - 48 ≤ 9 := by omega
    have := Nat.mul_le_mul_right (10 ^ cs.length) h9
    omega

/-- On digit strings of one length, the order of strings is the order of numbers. -/
theorem goStringCompare_digits (a b : GoString) (hl : a.length = b.length)
    (ha : a.all isDecimalDigit = true) (hb : b.all isDecimalDigit = true) :
    goStringCompare a b = natCompare (decimalValue a) (decimalValue b) := by
  induction a generalizing b with
  | nil =>
    cases b with
    | nil => simp [goStringCompare, natCompare, decimalValue]
    | cons c cs => simp at hl
  | cons c cs ih =>
    cases b with
    | nil => simp at hl
    | cons e es =>
      have hl1 : cs.length = es.length := by simpa using hl
      simp only [List.all_cons, Bool.and_eq_true] at ha hb
      have hc : 48 ≤ c.val ∧ c.val ≤ 57 := by simpa [isDecimalDigit] using ha.1
      have he : 48 ≤ e.val ∧ e.val ≤ 57 := by simpa [isDecimalDigit] using hb.1
      have hcs := decimalValue_lt cs ha.2
      have hes := decimalValue_lt es hb.2
      rw [decimalValue_cons, decimalValue_cons, ← hl1]
      rw [← hl1] at hes
      simp only [goStringCompare]
      by_cases h1 : c < e
      · have h1n : c.val - 48 + 1 ≤ e.val - 48 := by
          have : c.val < e.val := h1
          omega
        have := Nat.mul_le_mul_right (10 ^ cs.length) h1n
        have hlt : (c.val - 48) * 10 ^ cs.length + decimalValue cs
            < (e.val - 48) * 10 ^ cs.length + decimalValue es := by
          rw [Nat.add_mul] at this
          omega
        simp [h1, natCompare, hlt]
      · by_cases h2 : e < c
        · have h2n : e.val - 48 + 1 ≤ c.val - 48 := by
            have : e.val < c.val := h2
            omega
          have := Nat.mul_le_mul_right (10 ^ cs.length) h2n
          have hlt : (e.val - 48) * 10 ^ cs.length + decimalValue es
              < (c.val - 48) * 10 ^ cs.length + decimalValue cs := by
            rw [Nat.add_mul] at this
            omega
          have hnlt : ¬ (c.val - 48) * 10 ^ cs.length + decimalValue cs
              < (e.val - 48) * 10 ^ cs.length + decimalValue es := by omega
          simp [h1, h2, natCompare, hlt, hnlt]
        · have hce : c = e := le_antisymm (not_lt.mp h2) (not_lt.mp h1)
          subst hce
          simp only [h1, if_false]
          rw [ih es hl1 ha.2 hb.2]
          unfold natCompare
          simp only [Nat.add_lt_add_iff_left]

/-- On versions of one shape, the order of strings is version precedence. -/
theorem goStringCompare_stringsJoin (cs ds : List GoString)
    (hshape : cs.map List.length = ds.map List.length)
    (hc : cs.all isNumericLabel = true) (hd : ds.all isNumericLabel = true) :
    goStringCompare (stringsJoin cs [dot]) (stringsJoin ds [dot])
      = versionCompare (cs.map decimalValue) (ds.map decimalValue) := by
  induction cs generalizing ds with
  | nil =>
    cases ds with
    | nil => simp [stringsJoin, goStringCompare, versionCompare]
    | cons d ds => simp at hshape
  | cons c cs ih =>
    cases ds with
    | nil => simp at hshape
    | cons d ds =>
      simp only [List.map_cons, List.cons.injEq] at hshape
      simp only [List.all_cons, Bool.and_eq_true] at hc hd
      have hcd : c.all isDecimalDigit = true := by
        have := hc.1
        simp only [isNumericLabel, Bool.and_eq_true] at this
        exact this.2
      have hdd : d.all isDecimalDigit = true := by
        have := hd.1
        simp only [isNumericLabel, Bool.and_eq_true] at this
        exact this.2
      have hhead := goStringCompare_digits c d hshape.1 hcd hdd
      cases cs with
      | nil =>
        cases ds with
        | nil =>
          simp only [stringsJoin, List.map_cons, List.map_nil, versionCompare, hhead]
          cases natCompare (decimalValue c) (decimalValue d) <;> rfl
        | cons d2 ds => simp at hshape
      | cons c2 cs =>
        cases ds with
        | nil => simp at hshape
        | cons d2 ds =>
          have hrec := ih (d2 :: ds) hshape.2 hc.2 hd.2
          simp only [stringsJoin, List.append_assoc, List.map_cons, versionCompare]
          rw [goStringCompare_append c d _ _ hshape.1, hhead]
          have hdotcmp : goStringCompare ([dot] ++ stringsJoin (c2 :: cs) [dot])
              ([dot] ++ stringsJoin (d2 :: ds) [dot])
              = goStringCompare (stringsJoin (c2 :: cs) [dot]) (stringsJoin (d2 :: ds) [dot]) := by
            simp [goStringCompare]
          rw [hdotcmp, hrec]
          cases natCompare (decimalValue c) (decimalValue d) <;>
            simp only [List.map_cons, versionCompare]

theorem goStringGe_wellFormed (v m : GoString) (hwv : wellFormedVersion v = true)
    (hwm : wellFormedVersion m = true) (hshape : sameDigitCounts v m) :
    goStringGe v m = semanticallyAtLeast v m := by
  have hcmp := goStringCompare_stringsJoin (stringsSplit v dot) (stringsSplit m dot)
    hshape hwv hwm
  rw [stringsJoin_stringsSplit, stringsJoin_stringsSplit] at hcmp
  unfold goStringGe semanticallyAtLeast versionNumbers
  rw [hcmp]

/-! ### Facts about UTF-8 and the JSON text of strings -/

theorem runeWidth_le_length (b : Byte) (rest : GoString) (w : Nat)
    (h : runeWidth (b :: rest) = w + 1) : w ≤ rest.length := by
  simp only [runeWidth] at h
  split_ifs at h with h1 h2 h3 h4
  · omega
  · rcases rest with _ | ⟨b1, tl⟩
    · simp at h
    · simp only at h
      split_ifs at h
      simp only [List.length_cons]
      omega
  · rcases rest with _ | ⟨b1, _ | ⟨b2, tl⟩⟩
    · simp at h
    · simp at h
    · simp only at h
      split_ifs at h
      simp only [List.length_cons]
      omega
  · rcases rest with _ | ⟨b1, _ | ⟨b2, _ | ⟨b3, tl⟩⟩⟩
    · simp at h
    · simp at h
    · simp at h
    · simp only at h
      split_ifs at h
      simp only [List.length_cons]
      omega

/-- The width of a valid encoding depends on the bytes of the encoding alone. -/
theorem runeWidth_take_append (b : Byte) (rest t : GoString) (w : Nat)
    (h : runeWidth (b :: rest) = w + 1) : runeWidth (b :: (rest.take w ++ t)) = w + 1 := by
  simp only [runeWidth] at h ⊢
  split_ifs at h with h1 h2 h3 h4
  · have : w = 0 := by omega
    subst this
    simp [h1]
  · rw [if_neg h1, if_pos h2]
    rcases rest with _ | ⟨b1, tl⟩
    · simp at h
    · simp only at h
      split_ifs at h with h5
      have : w = 1 := by omega
      subst this
      simp [h5]
  · rw [if_neg h1, if_neg h2, if_pos h3]
    rcases rest with _ | ⟨b1, _ | ⟨b2, tl⟩⟩
    · simp at h
    · simp at h
    · simp only at h
      split_ifs at h with h5
      have : w = 2 := by omega
      subst this
      simp only [List.take_succ_cons, List.take_zero, List.cons_append, List.nil_append]
      simp [h5]
  · rw [if_neg h1, if_neg h2, if_neg h3, if_pos h4]
    rcases rest with _ | ⟨b1, _ | ⟨b2, _ | ⟨b3, tl⟩⟩⟩
    · simp at h
    · simp at h
    · simp at h
    · simp only at h
      split_ifs at h with h5
      have : w = 3 := by omega
      subst this
      simp only [List.take_succ_cons, List.take_zero, List.cons_append, List.nil_append]
      simp [h5]

theorem utf8ValidFrom_toValidUTF8From (n : Nat) (s : GoString) (hn : s.length ≤ n)
    (h : utf8ValidFrom n s = true) : toValidUTF8From n s = s := by
  induction n generalizing s with
  | zero =>
    cases s with
    | nil => rfl
    | cons b rest => simp at hn
  | succ n ih =>
    cases s with
    | nil => rfl
    | cons b rest =>
      unfold utf8ValidFrom at h
      unfold toValidUTF8From
      cases hw : runeWidth (b :: rest) with
      | zero => simp [hw] at h
      | succ w =>
        simp only [hw] at h ⊢
        have hlen : (rest.drop w).length ≤ n := by
          simp only [List.length_drop, List.length_cons] at hn ⊢
          omega
        rw [ih _ hlen h]
        simp

/-- A valid UTF-8 string is its own coercion to valid UTF-8. -/
theorem toValidUTF8_of_valid (s : GoString) (h : utf8Valid s = true) : toValidUTF8 s = s :=
  utf8ValidFrom_toValidUTF8From s.length s (Nat.le_refl _) h

theorem expectLit_append (lit rest : GoString) : expectLit lit (lit ++ rest) = some rest := by
  unfold expectLit
  have : lit.isPrefixOf (lit ++ rest) = true := by
    rw [List.isPrefixOf_iff_prefix]
    exact List.prefix_append _ _
  simp [this]

theorem expectLit_head_ne (a b : Byte) (lit text : GoString) (h : a ≠ b) :
    expectLit (a :: lit) (b :: text) = none := by
  simp [expectLit, List.isPrefixOf, h]

theorem prependTo_some (p s rest : GoString) :
    prependTo p (some (s, rest)) = some (p ++ s, rest) := rfl

theorem jsonUnquoteFrom_quote (f : Nat) (rest : GoString) :
    jsonUnquoteFrom (f + 1) (34 :: rest) = some ([], rest) := by
  simp [jsonUnquoteFrom]

theorem jsonUnquoteFrom_simple (f : Nat) (e b : Byte) (t : GoString)
    (he : simpleEscape e = some b) (hu : e ≠ 117) :
    jsonUnquoteFrom (f + 1) (92 :: e :: t) = prependTo [b] (jsonUnquoteFrom f t) := by
  simp [jsonUnquoteFrom, he, hu]

theorem jsonUnquoteFrom_unicode (f : Nat) (h1 h2 h3 h4 : Byte) (cp : Nat) (t : GoString)
    (hh : hex4 h1 h2 h3 h4 = some cp) (hs : ¬ (55296 ≤ cp ∧ cp < 57344)) :
    jsonUnquoteFrom (f + 1) (92 :: 117 :: h1 :: h2 :: h3 :: h4 :: t)
      = prependTo (encodeRune cp) (jsonUnquoteFrom f t) := by
  simp only [jsonUnquoteFrom, hh]
  simp [hs]

theorem jsonUnquoteFrom_ascii (f : Nat) (c : Byte) (t : GoString)
    (h1 : c ≠ 34) (h2 : c ≠ 92) (h3 : ¬ c.val < 32) (h4 : c.val < 128) :
    jsonUnquoteFrom (f + 1) (c :: t) = prependTo [c] (jsonUnquoteFrom f t) := by
  simp [jsonUnquoteFrom, h1, h2, h3, h4]

theorem jsonUnquoteFrom_rune (f : Nat) (c : Byte) (t : GoString) (w : Nat)
    (h1 : ¬ c.val < 128) (hw : runeWidth (c :: t) = w + 1) :
    jsonUnquoteFrom (f + 1) (c :: t)
      = prependTo (c :: t.take w) (jsonUnquoteFrom f (t.drop w)) := by
  have h34 : c ≠ 34 := by
    intro e
    subst e
    exact h1 (by decide)
  have h92 : c ≠ 92 := by
    intro e
    subst e
    exact h1 (by decide)
  have h32 : ¬ c.val < 32 := by omega
  simp [jsonUnquoteFrom, h34, h92, h32, h1, hw]

theorem jsonUnquoteFrom_invalid (f : Nat) (c : Byte) (t : GoString)
    (h1 : ¬ c.val < 128) (hw : runeWidth (c :: t) = 0) :
    jsonUnquoteFrom (f + 1) (c :: t) = prependTo replacementChar (jsonUnquoteFrom f t) := by
  have h34 : c ≠ 34 := by
    intro e
    subst e
    exact h1 (by decide)
  have h92 : c ≠ 92 := by
    intro e
    subst e
    exact h1 (by decide)
  have h32 : ¬ c.val < 32 := by omega
  simp [jsonUnquoteFrom, h34, h92, h32, h1, hw]

theorem hexValue_hexDigit (n : Nat) (h : n < 16) : hexValue (hexDigit n) = some n := by
  interval_cases n <;> decide

/-- The decoder reads the escape of a byte below `0x80` as that byte. -/
theorem jsonUnquoteFrom_jsonEscapeByte (f : Nat) (b : Byte) (t : GoString)
    (hb : b.val < 128) :
    jsonUnquoteFrom (f + 1) (jsonEscapeByte b ++ t) = prependTo [b] (jsonUnquoteFrom f t) := by
  unfold jsonEscapeByte
  split_ifs with h1 h2 h3 h4 h5
  · rcases h1 with rfl | rfl
    · exact jsonUnquoteFrom_simple f 34 34 t (by decide) (by decide)
    · exact jsonUnquoteFrom_simple f 92 92 t (by decide) (by decide)
  · subst h2
    exact jsonUnquoteFrom_simple f 110 10 t (by decide) (by decide)
  · subst h3
    exact jsonUnquoteFrom_simple f 114 13 t (by decide) (by decide)
  · subst h4
    exact jsonUnquoteFrom_simple f 116 9 t (by decide) (by decide)
  · have hhex : hex4 48 48 (hexDigit (b.val / 16)) (hexDigit (b.val % 16)) = some b.val := by
      unfold hex4
      rw [hexValue_hexDigit _ (by omega), hexValue_hexDigit _ (Nat.mod_lt _ (by decide))]
      have h48 : hexValue 48 = some 0 := by decide
      simp only [h48]
      congr 1
      omega
    have henc : encodeRune b.val = [b] := by
      unfold encodeRune
      rw [if_pos hb]
      congr 1
      apply Fin.ext
      simp only [Fin.ofNat, Fin.val_mk]
      exact Nat.mod_eq_of_lt b.isLt
    have := jsonUnquoteFrom_unicode f 48 48 (hexDigit (b.val / 16)) (hexDigit (b.val % 16))
      b.val t hhex (by omega)
    rw [henc] at this
    exact this
  · have h34 : b ≠ 34 := fun e => h1 (Or.inl e)
    have h92 : b ≠ 92 := fun e => h1 (Or.inr e)
    have h32 : ¬ b.val < 32 := fun e => h5 (Or.inl e)
    exact jsonUnquoteFrom_ascii f b t h34 h92 h32 hb

theorem jsonEscapeByte_length_pos (b : Byte) : 0 < (jsonEscapeByte b).length := by
  unfold jsonEscapeByte
  split_ifs <;> simp

theorem jsonUnquoteFrom_ufffd (f : Nat) (t : GoString) :
    jsonUnquoteFrom (f + 1) (utf8 "\\ufffd" ++ t)
      = prependTo replacementChar (jsonUnquoteFrom f t) :=
  jsonUnquoteFrom_unicode f 102 102 102 100 65533 t (by decide) (by omega)

theorem jsonUnquoteFrom_u2028 (f : Nat) (t : GoString) :
    jsonUnquoteFrom (f + 1) (utf8 "\\u2028" ++ t)
      = prependTo [226, 128, 168] (jsonUnquoteFrom f t) :=
  jsonUnquoteFrom_unicode f 50 48 50 56 8232 t (by decide) (by omega)

theorem jsonUnquoteFrom_u2029 (f : Nat) (t : GoString) :
    jsonUnquoteFrom (f + 1) (utf8 "\\u2029" ++ t)
      = prependTo [226, 128, 169] (jsonUnquoteFrom f t) :=
  jsonUnquoteFrom_unicode f 50 48 50 57 8233 t (by decide) (by omega)

/-- The decoder reads what the encoder wrote for a string as the string coerced to valid
UTF-8, and stops after the closing quote. -/
theorem jsonUnquoteFrom_jsonEscapeFrom (n : Nat) (s : GoString) (fuel : Nat)
    (rest : GoString) (hn : s.length ≤ n) (hf : (jsonEscapeFrom n s).length < fuel) :
    jsonUnquoteFrom fuel (jsonEscapeFrom n s ++ 34 :: rest)
      = some (toValidUTF8From n s, rest) := by
  induction n generalizing s fuel with
  | zero =>
    cases s with
    | cons b r => simp at hn
    | nil =>
      obtain ⟨f, rfl⟩ : ∃ f, fuel = f + 1 := ⟨fuel - 1, by omega⟩
      simp [jsonEscapeFrom, toValidUTF8From, jsonUnquoteFrom_quote]
  | succ n ih =>
    cases s with
    | nil =>
      obtain ⟨f, rfl⟩ : ∃ f, fuel = f + 1 := ⟨fuel - 1, by omega⟩
      simp [jsonEscapeFrom, toValidUTF8From, jsonUnquoteFrom_quote]
    | cons b r =>
      have hr : r.length ≤ n := by simpa using hn
      simp only [jsonEscapeFrom] at hf ⊢
      simp only [toValidUTF8From]
      by_cases hb : b.val < 128
      · have hw : runeWidth (b :: r) = 1 := by simp [runeWidth, hb]
        rw [if_pos hb] at hf ⊢
        have hpos := jsonEscapeByte_length_pos b
        rw [List.length_append] at hf
        obtain ⟨f, rfl⟩ : ∃ f, fuel = f + 1 := ⟨fuel - 1, by omega⟩
        rw [List.append_assoc, jsonUnquoteFrom_jsonEscapeByte f b _ hb,
          ih r f hr (by omega)]
        simp [hw, prependTo]
      · rw [if_neg hb] at hf ⊢
        cases hw : runeWidth (b :: r) with
        | zero =>
          simp only [hw] at hf ⊢
          rw [List.length_append] at hf
          have h6 : (utf8 "\\ufffd").length = 6 := by decide
          obtain ⟨f, rfl⟩ : ∃ f, fuel = f + 1 := ⟨fuel - 1, by omega⟩
          rw [List.append_assoc, jsonUnquoteFrom_ufffd, ih r f hr (by omega)]
          rfl
        | succ w =>
          simp only [hw] at hf ⊢
          have hwl := runeWidth_le_length b r w hw
          have hd : (r.drop w).length ≤ n := by
            rw [List.length_drop]
            omega
          rw [List.length_append] at hf
          by_cases h28 : b :: r.take w = [226, 128, 168]
          · rw [if_pos h28] at hf ⊢
            have h6 : (utf8 "\\u2028").length = 6 := by decide
            obtain ⟨f, rfl⟩ : ∃ f, fuel = f + 1 := ⟨fuel - 1, by omega⟩
            rw [List.append_assoc, jsonUnquoteFrom_u2028, ih _ f hd (by omega), h28]
            rfl
          · rw [if_neg h28] at hf ⊢
            by_cases h29 : b :: r.take w = [226, 128, 169]
            · rw [if_pos h29] at hf ⊢
              have h6 : (utf8 "\\u2029").length = 6 := by decide
              obtain ⟨f, rfl⟩ : ∃ f, fuel = f + 1 := ⟨fuel - 1, by omega⟩
              rw [List.append_assoc, jsonUnquoteFrom_u2029, ih _ f hd (by omega), h29]
              rfl
            · rw [if_neg h29] at hf ⊢
              simp only [List.length_cons] at hf
              obtain ⟨f, rfl⟩ : ∃ f, fuel = f + 1 := ⟨fuel - 1, by omega⟩
              have hw2 := runeWidth_take_append b r
                (jsonEscapeFrom n (r.drop w) ++ 34 :: rest) w hw
              have htake : (r.take w ++ (jsonEscapeFrom n (r.drop w) ++ 34 :: rest)).take w
                  = r.take w := by
                rw [List.take_append_of_le_length (by simp [hwl])]
                simp
              have hdrop : (r.take w ++ (jsonEscapeFrom n (r.drop w) ++ 34 :: rest)).drop w
                  = jsonEscapeFrom n (r.drop w) ++ 34 :: rest := by
                rw [List.drop_append_of_le_length (by simp [hwl])]
                simp [hwl]
              have hlt : (r.take w).length = w := by simp [hwl]
              rw [List.cons_append, List.cons_append, List.append_assoc,
                jsonUnquoteFrom_rune f b _ w hb hw2, htake, hdrop, ih _ f hd (by omega)]
              rfl

/-- Reading back a quoted string gives the string coerced to valid UTF-8. -/
theorem jsonUnquote_jsonQuote (s rest : GoString) :
    jsonUnquote (jsonQuote s ++ rest) = some (toValidUTF8 s, rest) := by
  unfold jsonQuote jsonUnquote toValidUTF8
  simp only [List.singleton_append, List.cons_append, List.append_assoc, if_true]
  exact jsonUnquoteFrom_jsonEscapeFrom s.length s _ rest (Nat.le_refl _) (by simp)

/-! ### Facts about the JSON text of credentials -/

theorem parseCredential_printCredential (k : Nat) (c : ServerlessCredential)
    (rest : GoString) :
    parseCredential k (printCredential k c ++ rest) = some (credentialImage c, rest) := by
  unfold parseCredential printCredential
  have e1 : utf8 "\x7b\n" ++ indent (k + 1) ++ utf8 "\"api_key\": " ++ jsonQuote c.Auth ++
      utf8 "\n" ++ indent k ++ utf8 "\x7d" ++ rest
      = (utf8 "\x7b\n" ++ indent (k + 1) ++ utf8 "\"api_key\": ") ++
        (jsonQuote c.Auth ++ ((utf8 "\n" ++ indent k ++ utf8 "\x7d") ++ rest)) := by
    simp only [List.append_assoc]
  rw [e1, expectLit_append]
  simp only [jsonUnquote_jsonQuote, expectLit_append]
  rfl

theorem printEntries_cons_cons {V : Type} (printV : Nat → V → GoString) (k : Nat)
    (e e1 : GoString × V) (es : List (GoString × V)) :
    printEntries printV k (e :: e1 :: es)
      = indent k ++ jsonQuote e.1 ++ utf8 ": " ++ printV k e.2 ++ utf8 ",\n" ++
        printEntries printV k (e1 :: es) := rfl

theorem printEntries_length {V : Type} (printV : Nat → V → GoString) (k : Nat)
    (es : List (GoString × V)) : es.length ≤ (printEntries printV k es).length := by
  induction es with
  | nil => simp
  | cons e es ih =>
    cases es with
    | nil =>
      simp only [printEntries, List.length_append, List.length_singleton, jsonQuote]
      omega
    | cons e1 es =>
      rw [printEntries_cons_cons]
      simp only [List.length_append, List.length_cons, jsonQuote] at ih ⊢
      omega

/-- The decoder reads the members written for the entries `es` and stores each in turn. -/
theorem parseEntries_printEntries {V : Type} (printV : Nat → V → GoString)
    (parseV : Nat → GoString → Option (V × GoString)) (imageV : V → V) (k : Nat)
    (hV : ∀ v rest, parseV k (printV k v ++ rest) = some (imageV v, rest))
    (es : List (GoString × V)) (hne : es ≠ []) (fuel : Nat) (acc : List (GoString × V))
    (rest : GoString) (hf : es.length ≤ fuel) (hrest : expectLit (utf8 ",\n") rest = none) :
    parseEntries parseV k fuel (printEntries printV k es ++ rest) acc
      = some (es.foldl (fun acc e => insertEntry (toValidUTF8 e.1) (imageV e.2) acc) acc,
          rest) := by
  induction es generalizing fuel acc with
  | nil => exact absurd rfl hne
  | cons e es ih =>
    obtain ⟨f, rfl⟩ : ∃ f, fuel = f + 1 := ⟨fuel - 1, by simp at hf; omega⟩
    cases es with
    | nil =>
      have e1 : printEntries printV k [e] ++ rest
          = indent k ++ (jsonQuote e.1 ++ (utf8 ": " ++ (printV k e.2 ++ rest))) := by
        simp only [printEntries, List.append_assoc]
      rw [e1]
      simp only [parseEntries, expectLit_append, jsonUnquote_jsonQuote, hV, hrest,
        List.foldl_cons, List.foldl_nil]
    | cons e1 es =>
      have e2 : printEntries printV k (e :: e1 :: es) ++ rest
          = indent k ++ (jsonQuote e.1 ++ (utf8 ": " ++ (printV k e.2 ++
              (utf8 ",\n" ++ (printEntries printV k (e1 :: es) ++ rest))))) := by
        rw [printEntries_cons_cons]
        simp only [List.append_assoc]
      rw [e2]
      simp only [parseEntries, expectLit_append, jsonUnquote_jsonQuote, hV, List.foldl_cons]
      exact ih (by simp) f _ (by simpa using hf)

theorem utf8_null : utf8 "null" = [110, 117, 108, 108] := by decide

theorem utf8_braces : utf8 "\x7b\x7d" = [123, 125] := by decide

theorem utf8_brace_newline : utf8 "\x7b\n" = [123, 10] := by decide

theorem utf8_comma_newline : utf8 ",\n" = [44, 10] := by decide

theorem utf8_newline : utf8 "\n" = [10] := by decide

/-- The decoder reads the JSON text written for a map as the map's image. -/
theorem parseMap_printMap {V : Type} (printV : Nat → V → GoString)
    (parseV : Nat → GoString → Option (V × GoString)) (imageV : V → V)
    (hV : ∀ k v rest, parseV k (printV k v ++ rest) = some (imageV v, rest))
    (k : Nat) (m : GoMap V) (rest : GoString) :
    parseMap parseV k (printMap printV k m ++ rest) = some (mapImage imageV m, rest) := by
  cases m with
  | none =>
    simp only [printMap, parseMap, expectLit_append]
    rfl
  | some l =>
    cases l with
    | nil =>
      have h1 : expectLit (utf8 "null") (utf8 "\x7b\x7d" ++ rest) = none := by
        rw [utf8_null, utf8_braces]
        exact expectLit_head_ne _ _ _ _ (by decide)
      simp only [printMap, parseMap, h1, expectLit_append]
      rfl
    | cons e es =>
      have e0 : printMap printV k (some (e :: es)) ++ rest
          = utf8 "\x7b\n" ++ (printEntries printV (k + 1) (e :: es) ++
              ((utf8 "\n" ++ indent k ++ utf8 "\x7d") ++ rest)) := by
        simp only [printMap, List.append_assoc]
      rw [e0]
      have h1 : expectLit (utf8 "null") (utf8 "\x7b\n" ++ (printEntries printV (k + 1) (e :: es)
          ++ ((utf8 "\n" ++ indent k ++ utf8 "\x7d") ++ rest))) = none := by
        rw [utf8_null, utf8_brace_newline]
        exact expectLit_head_ne _ _ _ _ (by decide)
      have h2 : expectLit (utf8 "\x7b\x7d") (utf8 "\x7b\n" ++
          (printEntries printV (k + 1) (e :: es)
          ++ ((utf8 "\n" ++ indent k ++ utf8 "\x7d") ++ rest))) = none := by
        rw [utf8_braces, utf8_brace_newline]
        simp [expectLit, List.isPrefixOf]
      have h3 : expectLit (utf8 ",\n") ((utf8 "\n" ++ indent k ++ utf8 "\x7d") ++ rest)
          = none := by
        rw [utf8_comma_newline, utf8_newline]
        exact expectLit_head_ne _ _ _ _ (by decide)
      have hlen : (e :: es).length ≤ (utf8 "\x7b\n" ++ (printEntries printV (k + 1) (e :: es)
          ++ ((utf8 "\n" ++ indent k ++ utf8 "\x7d") ++ rest))).length := by
        have := printEntries_length printV (k + 1) (e :: es)
        simp only [List.length_append] at this ⊢
        omega
      have hp := parseEntries_printEntries printV parseV imageV (k + 1) (hV (k + 1))
        (e :: es) (by simp) _ [] _ hlen h3
      simp only [parseMap, h1, h2, expectLit_append, hp]
      rfl

/-- Reading back the JSON text of a record gives the record's image: every string coerced to
valid UTF-8. -/
theorem jsonUnmarshal_jsonMarshalIndent (r : ServerlessCredentials) :
    jsonUnmarshal (jsonMarshalIndent r).1 = (credentialsImage r, none) := by
  have hinner : ∀ k (v : GoMap ServerlessCredential) rest,
      parseMap parseCredential k (printMap printCredential k v ++ rest)
        = some (mapImage credentialImage v, rest) :=
    parseMap_printMap printCredential parseCredential credentialImage
      parseCredential_printCredential
  have houter := parseMap_printMap (printMap printCredential) (parseMap parseCredential)
    (mapImage credentialImage) hinner 1 r.Credentials (utf8 "\n\x7d" ++ [])
  have e0 : (jsonMarshalIndent r).1
      = utf8 "\x7b\n  \"currentHost\": " ++ (jsonQuote r.APIHost ++
          (utf8 ",\n  \"currentNamespace\": " ++ (jsonQuote r.Namespace ++
            (utf8 ",\n  \"credentials\": " ++
              (printMap (printMap printCredential) 1 r.Credentials ++
                (utf8 "\n\x7d" ++ [])))))) := by
    simp only [jsonMarshalIndent, List.append_assoc, List.append_nil]
  have hp : parseCredentials (jsonMarshalIndent r).1 = some (credentialsImage r, []) := by
    rw [e0]
    simp only [parseCredentials, expectLit_append, jsonUnquote_jsonQuote, houter]
    rfl
  unfold jsonUnmarshal
  rw [hp]

/-! ## Claim C5 -/

/-- C5, counterexample: the stored version `10.1.0` and the minimum `4.1.0` are well-formed
dotted numeric versions and `10.1.0` is semantically at least `4.1.0` (in each component,
too), yet `serverlessUptodate` is false and `CheckServerlessStatus` returns
`ErrServerlessNeedsUpgrade`. -/
theorem C5_semantic_order_counterexample :
    wellFormedVersion (utf8 "10.1.0") = true ∧ wellFormedVersion (utf8 "4.1.0") = true ∧
    semanticallyAtLeast (utf8 "10.1.0") (utf8 "4.1.0") = true ∧
    versionNumbers (utf8 "10.1.0") = [10, 1, 0] ∧ versionNumbers (utf8 "4.1.0") = [4, 1, 0] ∧
    serverlessUptodate (sampleEnv (utf8 "4.1.0")) (sampleInstalledFS (utf8 "10.1.0"))
      sampleService.serverlessDir = false ∧
    CheckServerlessStatus sampleService (sampleEnv (utf8 "4.1.0"))
      (sampleInstalledFS (utf8 "10.1.0")) (utf8 "tok") = some ErrServerlessNeedsUpgrade := by
  decide

/-- C5, amended: for every stored version marker `v` and minimum version `m` that are both
well-formed dotted numeric versions with as many components and, component by component, as
many digits, the toolchain is considered usable (`serverlessUptodate` is true, and
`CheckServerlessStatus` does not return `ErrServerlessNeedsUpgrade`) iff `v` is semantically
at least `m`. -/
theorem C5_semantic_order_same_shape (s : serverlessService) (env : Env) (fs : FS)
    (L v m : GoString)
    (hv : osReadFile fs (s.serverlessDir ++ [utf8 "version"]) = (v, none))
    (hm : GetMinServerlessVersion env = m)
    (hwv : wellFormedVersion v = true) (hwm : wellFormedVersion m = true)
    (hshape : sameDigitCounts v m) :
    (serverlessUptodate env fs s.serverlessDir = true ↔ semanticallyAtLeast v m = true) ∧
    (CheckServerlessStatus s env fs L ≠ some ErrServerlessNeedsUpgrade ↔
      semanticallyAtLeast v m = true) := by
  have hcur : GetCurrentServerlessVersion fs s.serverlessDir = v := by
    unfold GetCurrentServerlessVersion
    rw [filepathJoin_single _ (utf8 "version") (by decide)]
    simp [hv]
  have hup : serverlessUptodate env fs s.serverlessDir = semanticallyAtLeast v m := by
    unfold serverlessUptodate
    rw [hcur, hm]
    exact goStringGe_wellFormed v m hwv hwm hshape
  have hstat := osStat_of_osReadFile fs s.serverlessDir (utf8 "version") v hv
  refine ⟨by rw [hup], ?_⟩
  unfold CheckServerlessStatus
  rw [hstat, hup]
  have hne : ErrServerlessNotConnected ≠ ErrServerlessNeedsUpgrade := by decide
  cases semanticallyAtLeast v m
  · simp
  · cases isServerlessConnected fs L s.serverlessDir <;> simp [hne]

/-- C5, amended, at the stored version `4.2.0` and the minimum `4.1.0`. -/
theorem C5_semantic_order_same_shape_witness :
    (serverlessUptodate (sampleEnv (utf8 "4.1.0")) (sampleInstalledFS (utf8 "4.2.0"))
        sampleService.serverlessDir = true ↔
      semanticallyAtLeast (utf8 "4.2.0") (utf8 "4.1.0") = true) ∧
    (CheckServerlessStatus sampleService (sampleEnv (utf8 "4.1.0"))
        (sampleInstalledFS (utf8 "4.2.0")) (utf8 "tok") ≠ some ErrServerlessNeedsUpgrade ↔
      semanticallyAtLeast (utf8 "4.2.0") (utf8 "4.1.0") = true) :=
  C5_semantic_order_same_shape sampleService (sampleEnv (utf8 "4.1.0"))
    (sampleInstalledFS (utf8 "4.2.0")) (utf8 "tok") (utf8 "4.2.0") (utf8 "4.1.0")
    (by decide) (by decide) (by decide) (by decide) (by unfold sameDigitCounts; decide)

/-! ## Claims C6, C7 and C9 -/

/-- C6: for every run of the subprocess that ended (with a zero or a non-zero exit status)
and whose captured standard output deserializes to an envelope `e` with a non-empty error
field, `Exec` returns the full envelope `e` as parsed, not an empty one, together with a
non-nil error whose message is exactly `e.Error`. -/
theorem C6_Exec_envelope_error (jsonUnmarshal : GoString → ServerlessOutput × Option GoError)
    (cmd : CmdRun) (e : ServerlessOutput)
    (hrun : cmd.err = none ∨ ∃ st, cmd.err = some (GoError.exitError st))
    (hparse : jsonUnmarshal cmd.stdout = (e, none)) (herr : e.Error ≠ []) :
    Exec jsonUnmarshal cmd = (e, some (errorsNew e.Error)) := by
  have hlen : e.Error.length > 0 := List.length_pos.mpr herr
  unfold Exec
  rcases hrun with h | ⟨st, h⟩ <;> simp [h, hparse, hlen, isExitError]

/-- C6 at the output `{"error":"boom","table":[{"name":"f"}]}` of a run that exited with
status 1: the error is `boom` and the returned envelope has that non-empty table. -/
theorem C6_Exec_envelope_error_witness :
    sampleEnvelope.Table ≠ [] ∧
    Exec sampleUnmarshal { stdout := sampleOutputText, err := some (GoError.exitError 1) }
      = (sampleEnvelope, some (errorsNew (utf8 "boom"))) :=
  ⟨by simp [sampleEnvelope],
   C6_Exec_envelope_error sampleUnmarshal
    { stdout := sampleOutputText, err := some (GoError.exitError 1) } sampleEnvelope
    (Or.inr ⟨1, rfl⟩) (by simp [sampleUnmarshal]) (by decide)⟩

/-- C7: a non-zero exit status gives exactly the result of a zero exit with the same captured
output; a run that fails in any other way gives that error with an empty envelope; output that
does not deserialize gives the parse error with an empty envelope; and the error is nil iff
the run did not fail in such another way, the output deserializes, and the error field of the
envelope is empty. -/
theorem C7_Exec_failures (jsonUnmarshal : GoString → ServerlessOutput × Option GoError) :
    (∀ out st, Exec jsonUnmarshal { stdout := out, err := some (GoError.exitError st) }
      = Exec jsonUnmarshal { stdout := out, err := none }) ∧
    (∀ out e, isExitError e = false →
      Exec jsonUnmarshal { stdout := out, err := some e } = (ServerlessOutput.zero, some e)) ∧
    (∀ cmd part pe, (cmd.err = none ∨ ∃ st, cmd.err = some (GoError.exitError st)) →
      jsonUnmarshal cmd.stdout = (part, some pe) →
      Exec jsonUnmarshal cmd = (ServerlessOutput.zero, some pe)) ∧
    (∀ cmd, (Exec jsonUnmarshal cmd).2 = none ↔
      ((cmd.err = none ∨ ∃ st, cmd.err = some (GoError.exitError st)) ∧
        (jsonUnmarshal cmd.stdout).2 = none ∧ (jsonUnmarshal cmd.stdout).1.Error = [])) := by
  refine ⟨?_, ?_, ?_, ?_⟩
  · intro out st
    simp [Exec, isExitError]
  · intro out e he
    simp [Exec, he]
  · intro cmd part pe hrun hparse
    unfold Exec
    rcases hrun with h | ⟨st, h⟩ <;> simp [h, hparse, isExitError]
  · intro cmd
    rcases cmd with ⟨out, _ | e⟩
    · rcases hp : jsonUnmarshal out with ⟨r, _ | pe⟩
      · by_cases hl : r.Error = []
        · simp [Exec, hp, hl]
        · have : r.Error.length > 0 := List.length_pos.mpr hl
          simp [Exec, hp, hl, this]
      · simp [Exec, hp]
    · cases e with
      | exitError st =>
        rcases hp : jsonUnmarshal out with ⟨r, _ | pe⟩
        · by_cases hl : r.Error = []
          · simp [Exec, hp, hl, isExitError]
          · have : r.Error.length > 0 := List.length_pos.mpr hl
            simp [Exec, hp, hl, this, isExitError]
        · simp [Exec, hp, isExitError]
      | errorString m => simp [Exec, isExitError]
      | pathError o pa en => simp [Exec, isExitError]
      | linkError o pa pb en => simp [Exec, isExitError]
      | other de => simp [Exec, isExitError]

theorem assignAPIHost_isSome (h n : GoString) : ∃ r, assignAPIHost h n = some r := by
  by_cases hn : utf8 "fn-" <+: n
  · exact ⟨_, assignAPIHost_prefixed h n hn⟩
  · refine ⟨h, ?_⟩
    unfold assignAPIHost
    rw [if_neg]
    rw [stringsHasPrefix_iff]
    exact hn

/-- The record `executeNamespaceRequest` builds from a response decoded without error. -/
theorem executeNamespaceRequest_ok (s : serverlessService) (req : HttpRequest)
    (h : (s.client.Do req).2 = none) :
    ∃ c, executeNamespaceRequest s req = some (c, none) ∧
      connectedTo (s.client.Do req).1.Namespace c := by
  obtain ⟨host, hh⟩ := assignAPIHost_isSome (s.client.Do req).1.Namespace.APIHost
    (s.client.Do req).1.Namespace.Namespace
  unfold executeNamespaceRequest
  rcases hd : s.client.Do req with ⟨d, e⟩
  rw [hd] at h hh
  simp only at h hh
  subst h
  simp only [hh]
  refine ⟨_, rfl, ?_⟩
  refine ⟨hh, rfl, rfl, ?_⟩
  simp [GoMap.get?]

theorem executeNamespaceRequest_err (s : serverlessService) (req : HttpRequest) (e : GoError)
    (h : (s.client.Do req).2 = some e) :
    executeNamespaceRequest s req = some (ServerlessCredentials.zero, some e) := by
  unfold executeNamespaceRequest
  rcases hd : s.client.Do req with ⟨d, e1⟩
  rw [hd] at h
  simp only at h
  subst h
  rfl

/-- What `executeNamespaceRequest` returns with a nil error is connected. -/
theorem executeNamespaceRequest_connected (s : serverlessService) (req : HttpRequest)
    (c : ServerlessCredentials) (h : executeNamespaceRequest s req = some (c, none)) :
    (s.client.Do req).2 = none ∧ connectedTo (s.client.Do req).1.Namespace c := by
  cases he : (s.client.Do req).2 with
  | some e =>
    rw [executeNamespaceRequest_err s req e he] at h
    simp at h
  | none =>
    obtain ⟨c1, h1, h2⟩ := executeNamespaceRequest_ok s req he
    rw [h1] at h
    simp only [Option.some.injEq, Prod.mk.injEq, and_true] at h
    subst h
    exact ⟨rfl, h2⟩

theorem request_or_error_sandbox (s : serverlessService) :
    (∃ e, GetServerlessNamespace s = some (ServerlessCredentials.zero, some e)) ∨
      ∃ req, GetServerlessNamespace s = executeNamespaceRequest s req := by
  unfold GetServerlessNamespace
  dsimp only
  rcases h : s.client.NewRequest (utf8 "POST") (utf8 "v2/functions/sandbox") none
    with ⟨req, _ | e⟩
  · exact Or.inr ⟨req, rfl⟩
  · exact Or.inl ⟨e, rfl⟩

theorem request_or_error_get (s : serverlessService) (name : GoString) :
    (∃ e, GetNamespace s name = some (ServerlessCredentials.zero, some e)) ∨
      ∃ req, GetNamespace s name = executeNamespaceRequest s req := by
  unfold GetNamespace
  dsimp only
  rcases h : s.client.NewRequest (utf8 "GET") (utf8 "v2/functions/namespaces/" ++ name) none
    with ⟨req, _ | e⟩
  · exact Or.inr ⟨req, rfl⟩
  · exact Or.inl ⟨e, rfl⟩

theorem request_or_error_create (s : serverlessService) (label region : GoString) :
    (∃ e, CreateNamespace s label region = some (ServerlessCredentials.zero, some e)) ∨
      ∃ req, CreateNamespace s label region = executeNamespaceRequest s req := by
  unfold CreateNamespace
  dsimp only
  rcases h : s.client.NewRequest (utf8 "POST") (utf8 "v2/functions/namespaces")
      (some { Namespace := { Label := label, Region := region } }) with ⟨req, _ | e⟩
  · exact Or.inr ⟨req, rfl⟩
  · exact Or.inl ⟨e, rfl⟩

/-- C9: `GetServerlessNamespace`, `GetNamespace` and `CreateNamespace` always return, and for
every namespace response (namespace, api host, uuid, key) they decode without error the record
`c` they return is connected: `c.APIHost` is `assignAPIHost` of the api host and the
namespace, `c.Namespace` is the namespace, and `c.Credentials` holds exactly the host key
`c.APIHost`, under it exactly the namespace key `c.Namespace`, and there the key
`uuid:key`; so `c.APIHost`, `c.Namespace` is a key path of the credentials map. -/
theorem C9_namespace_record_connected (s : serverlessService) :
    (∀ req, ∃ res, executeNamespaceRequest s req = some res) ∧
    (∀ req c, executeNamespaceRequest s req = some (c, none) →
      (s.client.Do req).2 = none ∧ connectedTo (s.client.Do req).1.Namespace c) ∧
    (∃ res, GetServerlessNamespace s = some res) ∧
    (∀ c, GetServerlessNamespace s = some (c, none) →
      ∃ req, (s.client.Do req).2 = none ∧ connectedTo (s.client.Do req).1.Namespace c) ∧
    (∀ name, ∃ res, GetNamespace s name = some res) ∧
    (∀ name c, GetNamespace s name = some (c, none) →
      ∃ req, (s.client.Do req).2 = none ∧ connectedTo (s.client.Do req).1.Namespace c) ∧
    (∀ label region, ∃ res, CreateNamespace s label region = some res) ∧
    (∀ label region c, CreateNamespace s label region = some (c, none) →
      ∃ req, (s.client.Do req).2 = none ∧ connectedTo (s.client.Do req).1.Namespace c) := by
  have htotal : ∀ req, ∃ res, executeNamespaceRequest s req = some res := by
    intro req
    cases he : (s.client.Do req).2 with
    | some e => exact ⟨_, executeNamespaceRequest_err s req e he⟩
    | none =>
      obtain ⟨c, hc, _⟩ := executeNamespaceRequest_ok s req he
      exact ⟨_, hc⟩
  have hcase : ∀ (F : Option (ServerlessCredentials × Option GoError)),
      ((∃ e, F = some (ServerlessCredentials.zero, some e)) ∨
        ∃ req, F = executeNamespaceRequest s req) →
      (∃ res, F = some res) ∧
      (∀ c, F = some (c, none) →
        ∃ req, (s.client.Do req).2 = none ∧ connectedTo (s.client.Do req).1.Namespace c) := by
    intro F hF
    rcases hF with ⟨e, rfl⟩ | ⟨req, rfl⟩
    · exact ⟨⟨_, rfl⟩, fun c h => by simp at h⟩
    · exact ⟨htotal req, fun c h => ⟨req, executeNamespaceRequest_connected s req c h⟩⟩
  have h1 := hcase (GetServerlessNamespace s) (request_or_error_sandbox s)
  have h2 := fun name => hcase (GetNamespace s name) (request_or_error_get s name)
  have h3 := fun label region =>
    hcase (CreateNamespace s label region) (request_or_error_create s label region)
  exact ⟨htotal, executeNamespaceRequest_connected s, h1.1, h1.2, fun n => (h2 n).1,
    fun n => (h2 n).2, fun l r => (h3 l r).1, fun l r => (h3 l r).2⟩

/-- C9 on the client that answers with the namespace `fn-abc` on the host
`api.example.io`: each of the three calls returns the record of `fn-abc` on
`api.example.co`, and that record is connected. -/
theorem C9_namespace_record_connected_witness :
    GetServerlessNamespace sampleService = some (sampleCredentials, none) ∧
    GetNamespace sampleService (utf8 "fn-abc") = some (sampleCredentials, none) ∧
    CreateNamespace sampleService (utf8 "l") (utf8 "nyc1") = some (sampleCredentials, none) ∧
    ∃ req, (sampleService.client.Do req).2 = none ∧
      connectedTo (sampleService.client.Do req).1.Namespace sampleCredentials :=
  ⟨by decide, by decide, by decide,
    (C9_namespace_record_connected sampleService).2.2.2.1 sampleCredentials (by decide)⟩

/-! ### Facts about valid records and about writing and reading a file -/

theorem goStringCompare_gt_of_lt (a b : GoString) (h : goStringCompare a b = Ordering.lt) :
    goStringCompare b a = Ordering.gt := by
  induction a generalizing b with
  | nil =>
    cases b with
    | nil => simp [goStringCompare] at h
    | cons y ys => simp [goStringCompare]
  | cons x xs ih =>
    cases b with
    | nil => simp [goStringCompare] at h
    | cons y ys =>
      simp only [goStringCompare] at h ⊢
      by_cases h1 : x < y
      · have h2 : ¬ y < x := not_lt.mpr (le_of_lt h1)
        simp [h1, h2]
      · by_cases h2 : y < x
        · simp [h1, h2] at h
        · simp only [h1, h2, if_false] at h ⊢
          exact ih ys h

/-- An entry whose key is above every key comes last. -/
theorem insertEntry_last {V : Type} (key : GoString) (v : V) (acc : List (GoString × V))
    (h : ∀ e ∈ acc, goStringCompare e.1 key = Ordering.lt) :
    insertEntry key v acc = acc ++ [(key, v)] := by
  induction acc with
  | nil => rfl
  | cons e t ih =>
    have hgt := goStringCompare_gt_of_lt e.1 key (h e (List.mem_cons_self _ _))
    have ht := ih (fun x hx => h x (List.mem_cons_of_mem _ hx))
    rcases e with ⟨k1, v1⟩
    simp only [insertEntry, hgt, ht, List.cons_append]

theorem foldl_insertEntry_sorted {V : Type} (imageV : V → V) (l acc : List (GoString × V))
    (hs : (acc ++ l).Pairwise (fun a b => goStringCompare a.1 b.1 = Ordering.lt))
    (hv : ∀ e ∈ l, toValidUTF8 e.1 = e.1 ∧ imageV e.2 = e.2) :
    l.foldl (fun acc e => insertEntry (toValidUTF8 e.1) (imageV e.2) acc) acc = acc ++ l := by
  induction l generalizing acc with
  | nil => simp
  | cons e l ih =>
    have he := hv e (List.mem_cons_self _ _)
    have hlast : ∀ x ∈ acc, goStringCompare x.1 e.1 = Ordering.lt := by
      intro x hx
      rw [List.pairwise_append] at hs
      exact hs.2.2 x hx e (List.mem_cons_self _ _)
    have hs1 : (acc ++ [e] ++ l).Pairwise
        (fun a b => goStringCompare a.1 b.1 = Ordering.lt) := by
      simpa using hs
    simp only [List.foldl_cons, he.1, he.2]
    rw [insertEntry_last e.1 e.2 acc hlast]
    rw [ih (acc ++ [e]) hs1 (fun x hx => hv x (List.mem_cons_of_mem _ hx))]
    simp

/-- Reading back the JSON text of a map of valid UTF-8 strings gives the map. -/
theorem mapImage_of_valid {V : Type} (sortedV validV : V → Prop) (imageV : V → V)
    (hV : ∀ v, sortedV v → validV v → imageV v = v) (m : GoMap V)
    (hs : sortedMap sortedV m) (hv : utf8ValidMap validV m) :
    mapImage imageV m = m := by
  cases m with
  | none => rfl
  | some l =>
    simp only [mapImage]
    rw [foldl_insertEntry_sorted imageV l [] (by simpa using hs.1)
      (fun e he => ⟨toValidUTF8_of_valid _ (hv e he).1, hV _ (hs.2 e he) (hv e he).2⟩)]
    simp

/-- Reading back the JSON text of a record of valid UTF-8 strings gives the record. -/
theorem credentialsImage_of_valid (r : ServerlessCredentials)
    (hwf : wellFormedCredentials r) (h : utf8ValidCredentials r) :
    credentialsImage r = r := by
  obtain ⟨h1, h2, h3⟩ := h
  have hc : ∀ c : ServerlessCredential, True → utf8Valid c.Auth = true →
      credentialImage c = c := by
    intro c _ hc
    simp [credentialImage, toValidUTF8_of_valid _ hc]
  have hinner : ∀ m : GoMap ServerlessCredential, sortedMap (fun _ => True) m →
      utf8ValidMap (fun c => utf8Valid c.Auth = true) m → mapImage credentialImage m = m :=
    fun m hs hm => mapImage_of_valid _ _ _ hc m hs hm
  have houter := mapImage_of_valid _ _ _ hinner r.Credentials hwf h3
  unfold credentialsImage
  rw [toValidUTF8_of_valid _ h1, toValidUTF8_of_valid _ h2, houter]

theorem sampleCredentials_wellFormed : wellFormedCredentials sampleCredentials := by
  simp [wellFormedCredentials, sampleCredentials, sortedMap]

theorem sampleCredentials_utf8Valid : utf8ValidCredentials sampleCredentials := by
  refine ⟨by decide, by decide, ?_⟩
  simp only [sampleCredentials, utf8ValidMap]
  intro e he
  rw [List.mem_singleton.mp he]
  refine ⟨by decide, ?_⟩
  intro e2 he2
  rw [List.mem_singleton.mp he2]
  exact ⟨by decide, by decide⟩

theorem sampleOtherCredentials_wellFormed : wellFormedCredentials sampleOtherCredentials := by
  simp [wellFormedCredentials, sampleOtherCredentials, sortedMap]

theorem FS.walk_set_last (fs : FS) (cur : Path) (rest : List GoString) (x : GoString)
    (n : Node) (pm : Nat) (h : fs.walk cur rest = Except.ok (Node.dir pm)) :
    (fs.set (cur ++ rest ++ [x]) n).walk cur (rest ++ [x]) = Except.ok n := by
  induction rest generalizing cur with
  | nil =>
    have hc : fs cur = some (Node.dir pm) := by
      simp only [FS.walk] at h
      cases hcur : fs cur with
      | none => simp [hcur] at h
      | some nd =>
        simp only [hcur, Except.ok.injEq] at h
        rw [h]
    have hne : cur ≠ cur ++ [x] := by
      intro e
      have := congrArg List.length e
      simp at this
    simp [FS.walk, FS.set, hne, hc]
  | cons c r ih =>
    simp only [FS.walk] at h
    cases hcur : fs cur with
    | none => simp [hcur] at h
    | some nd =>
      cases nd with
      | file p d => simp [hcur] at h
      | dir p =>
        simp only [hcur] at h
        have hne : cur ≠ cur ++ c :: r ++ [x] := by
          intro e
          have := congrArg List.length e
          simp at this
        have htarget : cur ++ c :: r ++ [x] = cur ++ [c] ++ r ++ [x] := by simp
        have hstep := ih (cur ++ [c]) h
        rw [← htarget] at hstep
        simp only [List.cons_append, FS.walk]
        have hset : (fs.set (cur ++ c :: r ++ [x]) n) cur = some (Node.dir p) := by
          simp [FS.set, hne, hcur]
        rw [hset]
        exact hstep

/-- A file reads back as it was written. -/
theorem osReadFile_osWriteFile (fs fs1 : FS) (path : Path) (data : GoString) (perm : Nat)
    (h : osWriteFile fs path data perm = (fs1, none)) : osReadFile fs1 path = (data, none) := by
  unfold osWriteFile at h
  cases path with
  | nil => simp at h
  | cons a p =>
    simp only at h
    have hlast : (a :: p).dropLast ++ [(a :: p).getLast (by simp)] = a :: p :=
      List.dropLast_append_getLast (by simp)
    cases hl : fs.lookup (a :: p).dropLast with
    | error e => simp [hl] at h
    | ok nd =>
      cases nd with
      | file pm d => simp [hl] at h
      | dir pm =>
        have hw : ∀ n : Node, (fs.set (a :: p) n).lookup (a :: p) = Except.ok n := by
          intro n
          have := FS.walk_set_last fs [] (a :: p).dropLast ((a :: p).getLast (by simp)) n pm hl
          simp only [List.nil_append] at this
          rw [hlast] at this
          exact this
        simp only [hl] at h
        cases hp : fs (a :: p) with
        | none =>
          simp only [hp, Prod.mk.injEq, and_true] at h
          subst h
          simp [osReadFile, hw]
        | some nd =>
          cases nd with
          | dir pm2 => simp [hp] at h
          | file pm2 d2 =>
            simp only [hp, Prod.mk.injEq, and_true] at h
            subst h
            simp [osReadFile, hw]

/-- After a write that succeeds, the read gives the record written as JSON reads it back. -/
theorem ReadCredentials_WriteCredentials (s : serverlessService) (fs fs1 : FS)
    (r : ServerlessCredentials) (h : WriteCredentials s fs r = (fs1, none)) :
    ReadCredentials s fs1 = (credentialsImage r, none) := by
  unfold WriteCredentials at h
  rcases hm : osMkdirAll fs s.credsDir 0o700 with ⟨fs0, _ | e⟩
  · simp only [hm, jsonMarshalIndent] at h
    have hr := osReadFile_osWriteFile _ _ _ _ _ h
    have hj := jsonUnmarshal_jsonMarshalIndent r
    simp only [jsonMarshalIndent] at hj
    unfold ReadCredentials
    simp only [hr, hj]
  · simp [hm] at h

/-! ## Claims C8 and C10 -/

/-- C8, counterexample: the record whose host is the byte `0xFF` is written without error,
and the following read returns, with a nil error, a record whose host is the three bytes of
`U+FFFD`: not the record written. -/
theorem C8_invalid_utf8_counterexample :
    (WriteCredentials sampleService rootOnlyFS sampleInvalidCredentials).2 = none ∧
    ReadCredentials sampleService
        (WriteCredentials sampleService rootOnlyFS sampleInvalidCredentials).1
      = ({ APIHost := [239, 191, 189], Namespace := utf8 "fn-abc", Credentials := none },
          none) ∧
    ReadCredentials sampleService
        (WriteCredentials sampleService rootOnlyFS sampleInvalidCredentials).1
      ≠ (sampleInvalidCredentials, none) := by
  have hw : (WriteCredentials sampleService rootOnlyFS sampleInvalidCredentials).2 = none := by
    decide
  have hr := ReadCredentials_WriteCredentials sampleService rootOnlyFS
    (WriteCredentials sampleService rootOnlyFS sampleInvalidCredentials).1
    sampleInvalidCredentials (Prod.ext rfl hw)
  have hi : credentialsImage sampleInvalidCredentials
      = { APIHost := [239, 191, 189], Namespace := utf8 "fn-abc", Credentials := none } := by
    decide
  rw [hr, hi]
  exact ⟨hw, rfl, by decide⟩

/-- C8, amended: round trip.  For every `ServerlessCredentials` record `r` whose strings
(current host, current namespace, the keys and the api keys of the credential map) are valid
UTF-8, and every filesystem state in which `WriteCredentials r` returns nil, a following
`ReadCredentials` on the same service returns `r` and a nil error.  (`hwf` is the invariant
of the representation of maps, not a condition on the record.) -/
theorem C8_write_read_round_trip (s : serverlessService) (fs fs1 : FS)
    (r : ServerlessCredentials) (hwf : wellFormedCredentials r)
    (hvalid : utf8ValidCredentials r)
    (hw : WriteCredentials s fs r = (fs1, none)) :
    ReadCredentials s fs1 = (r, none) := by
  rw [ReadCredentials_WriteCredentials s fs fs1 r hw, credentialsImage_of_valid r hwf hvalid]

/-- C8, amended, at the record of the namespace `fn-abc` written into the filesystem that
holds the root directory alone. -/
theorem C8_write_read_round_trip_witness :
    ReadCredentials sampleService (WriteCredentials sampleService rootOnlyFS sampleCredentials).1
      = (sampleCredentials, none) :=
  C8_write_read_round_trip sampleService rootOnlyFS
    (WriteCredentials sampleService rootOnlyFS sampleCredentials).1 sampleCredentials
    sampleCredentials_wellFormed sampleCredentials_utf8Valid (Prod.ext rfl (by decide))

/-- C10, counterexample: after the record of `api.example.co` and then the record of
`faas.example.co` are written, both without error, the record read back has no entry for
the host `api.example.co`, which the first record held. -/
theorem C10_not_merged_counterexample :
    (WriteCredentials sampleService rootOnlyFS sampleCredentials).2 = none ∧
    (WriteCredentials sampleService
      (WriteCredentials sampleService rootOnlyFS sampleCredentials).1
      sampleOtherCredentials).2 = none ∧
    sampleCredentials.Credentials.get? (utf8 "api.example.co") ≠ none ∧
    (ReadCredentials sampleService
      (WriteCredentials sampleService
        (WriteCredentials sampleService rootOnlyFS sampleCredentials).1
        sampleOtherCredentials).1).1.Credentials.get? (utf8 "api.example.co") = none := by
  have hw1 : (WriteCredentials sampleService rootOnlyFS sampleCredentials).2 = none := by
    decide
  have hw2 : (WriteCredentials sampleService
      (WriteCredentials sampleService rootOnlyFS sampleCredentials).1
      sampleOtherCredentials).2 = none := by
    decide
  have hr := ReadCredentials_WriteCredentials sampleService _
    (WriteCredentials sampleService
      (WriteCredentials sampleService rootOnlyFS sampleCredentials).1
      sampleOtherCredentials).1 sampleOtherCredentials (Prod.ext rfl hw2)
  rw [hr]
  exact ⟨hw1, hw2, by decide, by decide⟩

/-- C10, amended: the persisted credentials record is replaced wholesale by each write.  For
every pair of records `r1` and `r2`, after `WriteCredentials r1` and then
`WriteCredentials r2` both succeed, `ReadCredentials` returns `r2` as JSON reads it back,
which is `r2` itself when its strings are valid UTF-8: the entries of `r2` and no other,
whatever `r1` held. -/
theorem C10_write_replaces (s : serverlessService) (fs fs1 fs2 : FS)
    (r1 r2 : ServerlessCredentials)
    (hw1 : WriteCredentials s fs r1 = (fs1, none))
    (hw2 : WriteCredentials s fs1 r2 = (fs2, none)) :
    ReadCredentials s fs2 = (credentialsImage r2, none) ∧
    (wellFormedCredentials r2 → utf8ValidCredentials r2 →
      ReadCredentials s fs2 = (r2, none)) := by
  have _ := hw1
  have h := ReadCredentials_WriteCredentials s fs1 fs2 r2 hw2
  refine ⟨h, fun hwf hv => ?_⟩
  rw [h, credentialsImage_of_valid r2 hwf hv]

/-- C10, amended, at the records of `api.example.co` and of `faas.example.co` written one
after the other. -/
theorem C10_write_replaces_witness :
    ReadCredentials sampleService
        (WriteCredentials sampleService
          (WriteCredentials sampleService rootOnlyFS sampleCredentials).1
          sampleOtherCredentials).1
      = (credentialsImage sampleOtherCredentials, none) ∧
    (wellFormedCredentials sampleOtherCredentials →
      utf8ValidCredentials sampleOtherCredentials →
      ReadCredentials sampleService
          (WriteCredentials sampleService
            (WriteCredentials sampleService rootOnlyFS sampleCredentials).1
            sampleOtherCredentials).1
        = (sampleOtherCredentials, none)) :=
  C10_write_replaces sampleService rootOnlyFS
    (WriteCredentials sampleService rootOnlyFS sampleCredentials).1
    (WriteCredentials sampleService
      (WriteCredentials sampleService rootOnlyFS sampleCredentials).1
      sampleOtherCredentials).1
    sampleCredentials sampleOtherCredentials
    (Prod.ext rfl (by decide)) (Prod.ext rfl (by decide))

/-! ### Facts about prefixes of paths -/

theorem prefix_append_drop {α : Type} (a q : List α) (h : a <+: q) :
    a ++ q.drop a.length = q := by
  obtain ⟨t, rfl⟩ := h
  simp

theorem prefix_comparable {α : Type} (a b q : List α) (ha : a <+: q) (hb : b <+: q)
    (hlen : a.length ≤ b.length) : a <+: b :=
  List.prefix_of_prefix_length_le ha hb hlen

theorem not_prefix_append_of_ne {α : Type} (p : List α) (x y : α) (rel : List α) (h : x ≠ y) :
    ¬ (p ++ [x]) <+: (p ++ (y :: rel)) := by
  intro hp
  rw [List.prefix_append_right_inj] at hp
  obtain ⟨t, ht⟩ := hp
  simp only [List.singleton_append, List.cons.injEq] at ht
  exact h ht.1

/-! ### Facts about moving, removing and grafting trees -/

theorem FS.moveTree_new (fs : FS) (a b rel : Path) :
    (fs.moveTree a b) (b ++ rel) = fs (a ++ rel) := by
  simp [FS.moveTree]

theorem FS.moveTree_other (fs : FS) (a b q : Path) (hb : ¬ b <+: q) (ha : ¬ a <+: q) :
    (fs.moveTree a b) q = fs q := by
  simp [FS.moveTree, hb, ha]

theorem FS.moveTree_old (fs : FS) (a b q : Path) (hb : ¬ b <+: q) (ha : a <+: q) :
    (fs.moveTree a b) q = none := by
  simp [FS.moveTree, hb, ha]

theorem FS.moveTree_self (fs : FS) (a : Path) : fs.moveTree a a = fs := by
  funext q
  by_cases h : a <+: q
  · simp [FS.moveTree, h, prefix_append_drop a q h]
  · simp [FS.moveTree, h]

theorem FS.removeTree_other (fs : FS) (p q : Path) (h : ¬ p <+: q) :
    (fs.removeTree p) q = fs q := by
  simp [FS.removeTree, h]

theorem FS.removeTree_under (fs : FS) (p q : Path) (h : p <+: q) :
    (fs.removeTree p) q = none := by
  simp [FS.removeTree, h]

theorem FS.graft_other (fs : FS) (d : Path) (tree : FS) (q : Path) (h : ¬ d <+: q) :
    (fs.graft d tree) q = fs q := by
  simp [FS.graft, h]

theorem FS.set_other (fs : FS) (p q : Path) (n : Node) (h : q ≠ p) : (fs.set p n) q = fs q := by
  simp [FS.set, h]

theorem FS.set_self (fs : FS) (p : Path) (n : Node) : (fs.set p n) p = some n := by
  simp [FS.set]

/-! ### Facts about path resolution -/

theorem FS.walk_congr (fs fs1 : FS) (cur : Path) (rest : List GoString)
    (h : ∀ q, cur <+: q → q <+: cur ++ rest → fs1 q = fs q) :
    fs1.walk cur rest = fs.walk cur rest := by
  induction rest generalizing cur with
  | nil =>
    have := h cur (List.prefix_refl _) (by simp)
    simp [FS.walk, this]
  | cons c r ih =>
    have hc := h cur (List.prefix_refl _) (List.prefix_append _ _)
    have hrec : fs1.walk (cur ++ [c]) r = fs.walk (cur ++ [c]) r := by
      apply ih
      intro q h1 h2
      apply h q
      · exact List.IsPrefix.trans (List.prefix_append _ _) h1
      · simpa using h2
    simp [FS.walk, hc, hrec]

theorem FS.lookup_congr (fs fs1 : FS) (p : Path) (h : ∀ q, q <+: p → fs1 q = fs q) :
    fs1.lookup p = fs.lookup p := by
  unfold FS.lookup
  apply FS.walk_congr
  intro q _ h2
  exact h q (by simpa using h2)

theorem FS.walk_ok_last (fs : FS) (cur : Path) (rest : List GoString) (n : Node)
    (h : fs.walk cur rest = Except.ok n) : fs (cur ++ rest) = some n := by
  induction rest generalizing cur with
  | nil =>
    simp only [FS.walk] at h
    cases hc : fs cur with
    | none => simp [hc] at h
    | some nd =>
      simp only [hc, Except.ok.injEq] at h
      simp [h, hc]
  | cons c r ih =>
    simp only [FS.walk] at h
    cases hc : fs cur with
    | none => simp [hc] at h
    | some nd =>
      cases nd with
      | file p d => simp [hc] at h
      | dir p =>
        simp only [hc] at h
        have := ih (cur ++ [c]) h
        simpa using this

theorem FS.lookup_ok_self (fs : FS) (p : Path) (n : Node) (h : fs.lookup p = Except.ok n) :
    fs p = some n := by
  have := FS.walk_ok_last fs [] p n h
  simpa using this

theorem FS.walk_ok_init (fs : FS) (cur : Path) (a b : List GoString) (n : Node)
    (hb : b ≠ []) (h : fs.walk cur (a ++ b) = Except.ok n) :
    ∃ pm, fs.walk cur a = Except.ok (Node.dir pm) := by
  induction a generalizing cur with
  | nil =>
    cases b with
    | nil => exact absurd rfl hb
    | cons c r =>
      simp only [List.nil_append, FS.walk] at h ⊢
      cases hc : fs cur with
      | none => simp [hc] at h
      | some nd =>
        cases nd with
        | file p d => simp [hc] at h
        | dir p => exact ⟨p, rfl⟩
  | cons c r ih =>
    simp only [List.cons_append, FS.walk] at h ⊢
    cases hc : fs cur with
    | none => simp [hc] at h
    | some nd =>
      cases nd with
      | file p d => simp [hc] at h
      | dir p =>
        simp only [hc] at h ⊢
        exact ih _ h

theorem FS.lookup_ok_init (fs : FS) (a b : Path) (n : Node) (hb : b ≠ [])
    (h : fs.lookup (a ++ b) = Except.ok n) : ∃ pm, fs.lookup a = Except.ok (Node.dir pm) :=
  FS.walk_ok_init fs [] a b n hb h

/-- Resolution below a directory that resolves: the walk goes on from there. -/
theorem FS.walk_append (fs : FS) (cur : Path) (a b : List GoString) (pm : Nat)
    (h : fs.walk cur a = Except.ok (Node.dir pm)) :
    fs.walk cur (a ++ b) = fs.walk (cur ++ a) b := by
  induction a generalizing cur with
  | nil => simp
  | cons c r ih =>
    simp only [FS.walk] at h
    cases hc : fs cur with
    | none => simp [hc] at h
    | some nd =>
      cases nd with
      | file p d => simp [hc] at h
      | dir p =>
        simp only [hc] at h
        have := ih (cur ++ [c]) h
        have e : cur ++ [c] ++ r = cur ++ c :: r := by simp
        rw [e] at this
        simp only [List.cons_append, FS.walk, hc]
        exact this

theorem FS.lookup_append (fs : FS) (a b : Path) (pm : Nat)
    (h : fs.lookup a = Except.ok (Node.dir pm)) : fs.lookup (a ++ b) = fs.walk a b := by
  have := FS.walk_append fs [] a b pm h
  simpa [FS.lookup] using this

theorem FS.walk_none (fs : FS) (cur : Path) (rest : List GoString)
    (h : ∀ rel, rel ≠ [] → fs (cur ++ rel) = none) (hr : rest ≠ [])
    (pm : Nat) (hc : fs cur = some (Node.dir pm)) :
    fs.walk cur rest = Except.error Errno.ENOENT := by
  cases rest with
  | nil => exact absurd rfl hr
  | cons c r =>
    have h1 : fs (cur ++ [c]) = none := h [c] (by simp)
    cases r with
    | nil => simp [FS.walk, hc, h1]
    | cons d r2 => simp [FS.walk, hc, h1]

/-! ### Facts about the filesystem operations of the installer -/

theorem mkdirAllFrom_change (perm : Nat) (fs fs1 : FS) (cur : Path) (rest : List GoString)
    (h : mkdirAllFrom perm fs cur rest = Except.ok fs1) (q : Path) :
    fs1 q = fs q ∨ (fs q = none ∧ q <+: cur ++ rest ∧ fs1 q = some (Node.dir perm)) := by
  induction rest generalizing fs cur with
  | nil =>
    simp only [mkdirAllFrom, Except.ok.injEq] at h
    subst h
    exact Or.inl rfl
  | cons c r ih =>
    have hpre : ∀ q : Path, q <+: cur ++ [c] ++ r → q <+: cur ++ c :: r := by
      intro q hq
      simpa using hq
    simp only [mkdirAllFrom] at h
    cases hc : fs (cur ++ [c]) with
    | none =>
      simp only [hc] at h
      rcases ih _ _ h with h1 | ⟨h1, h2, h3⟩
      · by_cases hq : q = cur ++ [c]
        · right
          subst hq
          refine ⟨hc, ⟨r, by simp⟩, ?_⟩
          rw [h1]
          simp [FS.set]
        · left
          rw [h1]
          simp [FS.set, hq]
      · by_cases hq : q = cur ++ [c]
        · subst hq
          simp [FS.set] at h1
        · right
          simp only [FS.set, hq, if_false] at h1
          exact ⟨h1, hpre q h2, h3⟩
    | some nd =>
      cases nd with
      | file p d => simp [hc] at h
      | dir p =>
        simp only [hc] at h
        rcases ih _ _ h with h1 | ⟨h1, h2, h3⟩
        · exact Or.inl h1
        · exact Or.inr ⟨h1, hpre q h2, h3⟩

theorem mkdirAllFrom_dirs (perm : Nat) (fs fs1 : FS) (cur : Path) (rest : List GoString)
    (h : mkdirAllFrom perm fs cur rest = Except.ok fs1) (q : Path)
    (h1 : cur <+: q) (h2 : q ≠ cur) (h3 : q <+: cur ++ rest) :
    ∃ pm, fs1 q = some (Node.dir pm) := by
  induction rest generalizing fs cur with
  | nil =>
    exfalso
    simp only [List.append_nil] at h3
    exact h2 (List.IsPrefix.eq_of_length h3
      (le_antisymm (List.IsPrefix.length_le h3) (List.IsPrefix.length_le h1)))
  | cons c r ih =>
    have hstep : ∀ fs0 : FS, (∃ pm, fs0 (cur ++ [c]) = some (Node.dir pm)) →
        mkdirAllFrom perm fs0 (cur ++ [c]) r = Except.ok fs1 →
        ∃ pm, fs1 q = some (Node.dir pm) := by
      intro fs0 hdir hrec
      by_cases hq : q = cur ++ [c]
      · obtain ⟨pm, hpm⟩ := hdir
        rcases mkdirAllFrom_change perm fs0 fs1 (cur ++ [c]) r hrec q with e | ⟨e, _, _⟩
        · exact ⟨pm, by rw [e, hq, hpm]⟩
        · rw [hq, hpm] at e
          exact absurd e (by simp)
      · apply ih fs0 (cur ++ [c]) hrec _ hq
        · simpa using h3
        · obtain ⟨t, rfl⟩ := h1
          cases t with
          | nil => simp at h2
          | cons d t2 =>
            have h4 : cur ++ d :: t2 <+: cur ++ c :: r := h3
            rw [List.prefix_append_right_inj] at h4
            obtain ⟨u, hu⟩ := h4
            simp only [List.cons_append, List.cons.injEq] at hu
            rw [hu.1]
            exact ⟨t2, by simp⟩
    simp only [mkdirAllFrom] at h
    cases hc : fs (cur ++ [c]) with
    | none =>
      simp only [hc] at h
      exact hstep _ ⟨perm, by simp [FS.set]⟩ h
    | some nd =>
      cases nd with
      | file p d => simp [hc] at h
      | dir p =>
        simp only [hc] at h
        exact hstep fs ⟨p, hc⟩ h

theorem osMkdirAll_err (fs : FS) (p : Path) (perm : Nat) (e : GoError)
    (h : (osMkdirAll fs p perm).2 = some e) : (osMkdirAll fs p perm).1 = fs := by
  unfold osMkdirAll at h ⊢
  rcases hroot : fs [] with _ | (_ | pm)
  · simp
  · simp
  · simp only [hroot] at h ⊢
    rcases hm : mkdirAllFrom perm fs [] p with e1 | fs1
    · simp
    · simp [hm] at h

theorem osMkdirAll_change (fs : FS) (p : Path) (perm : Nat) (q : Path) :
    (osMkdirAll fs p perm).1 q = fs q ∨
      (fs q = none ∧ q <+: p ∧ (osMkdirAll fs p perm).1 q = some (Node.dir perm)) := by
  unfold osMkdirAll
  rcases hroot : fs [] with _ | (_ | pm)
  · simp
  · simp
  · simp only
    rcases hm : mkdirAllFrom perm fs [] p with e1 | fs1
    · simp
    · simp only
      have := mkdirAllFrom_change perm fs fs1 [] p hm q
      simpa using this

theorem osMkdirAll_ok_dirs (fs : FS) (p : Path) (perm : Nat)
    (h : (osMkdirAll fs p perm).2 = none) (q : Path) (hq : q <+: p) :
    ∃ pm, (osMkdirAll fs p perm).1 q = some (Node.dir pm) := by
  unfold osMkdirAll at h ⊢
  rcases hroot : fs [] with _ | (_ | pm)
  · simp [hroot] at h
  · simp [hroot] at h
  · simp only [hroot] at h ⊢
    rcases hm : mkdirAllFrom perm fs [] p with e1 | fs1
    · simp [hm] at h
    · simp only
      by_cases hq0 : q = []
      · rcases mkdirAllFrom_change perm fs fs1 [] p hm q with e | ⟨e, _, _⟩
        · exact ⟨pm, by rw [e, hq0, hroot]⟩
        · rw [hq0, hroot] at e
          exact absurd e (by simp)
      · exact mkdirAllFrom_dirs perm fs fs1 [] p hm q (by simp) hq0 (by simpa using hq)

theorem FS.walk_of_dirs (fs : FS) (cur : Path) (rest : List GoString)
    (h : ∀ q, cur <+: q → q <+: cur ++ rest → ∃ pm, fs q = some (Node.dir pm)) :
    ∃ pm, fs.walk cur rest = Except.ok (Node.dir pm) := by
  induction rest generalizing cur with
  | nil =>
    obtain ⟨pm, hpm⟩ := h cur (List.prefix_refl _) (by simp)
    exact ⟨pm, by simp [FS.walk, hpm]⟩
  | cons c r ih =>
    obtain ⟨pm, hpm⟩ := h cur (List.prefix_refl _) (List.prefix_append _ _)
    have := ih (cur ++ [c]) (by
      intro q h1 h2
      exact h q (List.IsPrefix.trans (List.prefix_append _ _) h1) (by simpa using h2))
    simpa [FS.walk, hpm] using this

theorem FS.lookup_of_dirs (fs : FS) (p : Path)
    (h : ∀ q, q <+: p → ∃ pm, fs q = some (Node.dir pm)) :
    ∃ pm, fs.lookup p = Except.ok (Node.dir pm) :=
  FS.walk_of_dirs fs [] p (fun q _ h2 => h q (by simpa using h2))

theorem osMkdirAll_ok_lookup (fs : FS) (p : Path) (perm : Nat)
    (h : (osMkdirAll fs p perm).2 = none) :
    ∃ pm, (osMkdirAll fs p perm).1.lookup p = Except.ok (Node.dir pm) :=
  FS.lookup_of_dirs _ p (osMkdirAll_ok_dirs fs p perm h)

theorem osRename_cases (fs : FS) (a b : Path) :
    (osRename fs a b = (fs.moveTree a b, none) ∧ (∃ n, fs.lookup a = Except.ok n) ∧
      (∃ pm, fs.lookup b.dropLast = Except.ok (Node.dir pm)) ∧ a ≠ [] ∧ b ≠ [] ∧
      (a = b ∨ (¬ a <+: b ∧ ¬ b <+: a))) ∨
    (∃ e, osRename fs a b = (fs, some (GoError.linkError (utf8 "rename") a b e)) ∧
      (e = Errno.ENOENT → fs.lookup a = Except.error Errno.ENOENT ∨
        fs.lookup b.dropLast = Except.error Errno.ENOENT)) := by
  unfold osRename
  dsimp only
  rcases hl : fs.lookup a with e1 | src
  · right
    exact ⟨e1, rfl, fun he => Or.inl (by rw [he])⟩
  · dsimp only
    by_cases h0 : fs.isDir b = true
    · right
      rw [if_pos h0]
      exact ⟨Errno.EEXIST, rfl, fun he => absurd he (by decide)⟩
    rw [if_neg h0]
    by_cases h1 : a = [] ∨ b = []
    · right
      rw [if_pos h1]
      exact ⟨Errno.EINVAL, rfl, fun he => absurd he (by decide)⟩
    · rw [if_neg h1]
      push_neg at h1
      rcases hp : fs.lookup b.dropLast with e2 | (_ | pm)
      · right
        exact ⟨e2, rfl, fun he => Or.inr (by rw [he])⟩
      · right
        exact ⟨Errno.ENOTDIR, rfl, fun he => absurd he (by decide)⟩
      · dsimp only
        by_cases h2 : a = b
        · left
          rw [if_pos h2]
          subst h2
          exact ⟨by rw [FS.moveTree_self], ⟨src, rfl⟩, ⟨pm, rfl⟩, h1.1, h1.1, Or.inl rfl⟩
        · rw [if_neg h2]
          by_cases h3 : a <+: b
          · right
            rw [if_pos h3]
            exact ⟨Errno.EINVAL, rfl, fun he => absurd he (by decide)⟩
          · rw [if_neg h3]
            have h4 : ¬ b <+: a := by
              rintro ⟨t, ht⟩
              have htne : t ≠ [] := by
                rintro rfl
                exact h2 (by simpa using ht.symm)
              rw [← ht] at hl
              obtain ⟨pm1, hb1⟩ := FS.lookup_ok_init fs b t src htne hl
              apply h0
              unfold FS.isDir
              rw [hb1]
            have hgood : (fs.moveTree a b, (none : Option GoError)) = (fs.moveTree a b, none) ∧
                (∃ n, (Except.ok src : Except Errno Node) = Except.ok n) ∧
                (∃ pm1, (Except.ok (Node.dir pm) : Except Errno Node) = Except.ok (Node.dir pm1)) ∧
                a ≠ [] ∧ b ≠ [] ∧ (a = b ∨ (¬ a <+: b ∧ ¬ b <+: a)) :=
              ⟨rfl, ⟨src, rfl⟩, ⟨pm, rfl⟩, h1.1, h1.2, Or.inr ⟨h3, h4⟩⟩
            rcases src with ⟨sp, sd⟩ | sp <;> rcases hb : fs b with _ | (⟨tp, td⟩ | tp)
            · left
              exact hgood
            · left
              exact hgood
            · right
              exact ⟨Errno.EEXIST, rfl, fun he => absurd he (by decide)⟩
            · left
              exact hgood
            · right
              exact ⟨Errno.ENOTDIR, rfl, fun he => absurd he (by decide)⟩
            · right
              exact ⟨Errno.EEXIST, rfl, fun he => absurd he (by decide)⟩

/-- A rename that succeeds did not have an existing directory as its new path. -/
theorem osRename_ok_target (fs : FS) (a b : Path) (h : (osRename fs a b).2 = none) :
    fs.isDir b = false := by
  unfold osRename at h
  dsimp only at h
  rcases hl : fs.lookup a with e1 | src
  · rw [hl] at h
    simp at h
  · rw [hl] at h
    dsimp only at h
    by_cases h0 : fs.isDir b = true
    · rw [if_pos h0] at h
      simp at h
    · simpa using h0

/-- A rename onto an existing directory fails with `EEXIST`, when the old path resolves. -/
theorem osRename_onto_dir (fs : FS) (a b : Path) (n : Node) (pm : Nat)
    (ha : fs.lookup a = Except.ok n) (hb : fs.lookup b = Except.ok (Node.dir pm)) :
    osRename fs a b = (fs, some (GoError.linkError (utf8 "rename") a b Errno.EEXIST)) := by
  unfold osRename
  have h0 : fs.isDir b = true := by
    unfold FS.isDir
    rw [hb]
  simp only [ha, h0, if_true]

theorem osRename_err (fs : FS) (a b : Path) (e : GoError)
    (h : (osRename fs a b).2 = some e) : (osRename fs a b).1 = fs := by
  rcases osRename_cases fs a b with ⟨h1, _⟩ | ⟨e1, h1, _⟩
  · rw [h1] at h
    simp at h
  · rw [h1]

theorem osRename_ok (fs : FS) (a b : Path)
    (h : (osRename fs a b).2 = none) :
    (osRename fs a b).1 = fs.moveTree a b ∧ (∃ n, fs.lookup a = Except.ok n) ∧
      (∃ pm, fs.lookup b.dropLast = Except.ok (Node.dir pm)) ∧ a ≠ [] ∧ b ≠ [] ∧
      (a = b ∨ (¬ a <+: b ∧ ¬ b <+: a)) := by
  rcases osRename_cases fs a b with ⟨h1, h2⟩ | ⟨e1, h1, _⟩
  · exact ⟨by rw [h1], h2⟩
  · rw [h1] at h
    simp at h

theorem osRename_lookup_error (fs : FS) (a b : Path) (e : Errno)
    (h : fs.lookup a = Except.error e) :
    osRename fs a b = (fs, some (GoError.linkError (utf8 "rename") a b e)) := by
  unfold osRename
  simp [h]

theorem osRename_notExist (fs : FS) (a b : Path) (e : GoError)
    (h : (osRename fs a b).2 = some e) (hne : errorsIsNotExist e = true) :
    fs.lookup a = Except.error Errno.ENOENT ∨
      fs.lookup b.dropLast = Except.error Errno.ENOENT := by
  rcases osRename_cases fs a b with ⟨h1, _⟩ | ⟨e1, h1, h2⟩
  · rw [h1] at h
    simp at h
  · rw [h1] at h
    simp only [Option.some.injEq] at h
    subst h
    apply h2
    cases e1 <;> simp [errorsIsNotExist] at hne
    rfl

theorem osRemoveAll_fst (fs : FS) (p : Path) :
    (osRemoveAll fs p).1 = fs ∨
      ((osRemoveAll fs p).1 = fs.removeTree p ∧
        ∃ pm, fs.lookup p.dropLast = Except.ok (Node.dir pm)) := by
  unfold osRemoveAll
  cases p with
  | nil => simp
  | cons c r =>
    simp only
    rcases hl : fs.lookup (c :: r).dropLast with e | (_ | pm)
    · cases e <;> simp
    · simp
    · right
      exact ⟨rfl, pm, rfl⟩

theorem osRemoveAll_ok (fs : FS) (p : Path) (h : (osRemoveAll fs p).2 = none) :
    ((osRemoveAll fs p).1 = fs.removeTree p ∧
        ∃ pm, fs.lookup p.dropLast = Except.ok (Node.dir pm)) ∨
      ((osRemoveAll fs p).1 = fs ∧ fs.lookup p.dropLast = Except.error Errno.ENOENT) := by
  unfold osRemoveAll at h ⊢
  cases p with
  | nil => simp at h
  | cons c r =>
    simp only at h ⊢
    rcases hl : fs.lookup (c :: r).dropLast with e | (_ | pm)
    · cases e <;> simp [hl] at h ⊢
    · simp [hl] at h
    · left
      exact ⟨rfl, pm, rfl⟩

theorem ioutilTempDir_err (random : GoString) (fs : FS) (dir : Path) (pattern : GoString)
    (e : GoError) (h : (ioutilTempDir random fs dir pattern).2.2 = some e) :
    (ioutilTempDir random fs dir pattern).1 = fs := by
  unfold ioutilTempDir at h ⊢
  dsimp only at h ⊢
  rcases hl : fs.lookup dir with e1 | (_ | pm)
  · simp
  · simp
  · simp only [hl] at h ⊢
    rcases hn : fs (dir ++ [pattern ++ random]) with _ | n
    · simp [hn] at h
    · simp

theorem ioutilTempDir_ok (random : GoString) (fs : FS) (dir : Path) (pattern : GoString)
    (h : (ioutilTempDir random fs dir pattern).2.2 = none) :
    ioutilTempDir random fs dir pattern
        = (fs.set (dir ++ [pattern ++ random]) (Node.dir 0o700), dir ++ [pattern ++ random],
            none) ∧
      (∃ pm, fs.lookup dir = Except.ok (Node.dir pm)) ∧
      fs (dir ++ [pattern ++ random]) = none := by
  unfold ioutilTempDir at h ⊢
  dsimp only at h ⊢
  rcases hl : fs.lookup dir with e1 | (_ | pm)
  · simp [hl] at h
  · simp [hl] at h
  · simp only [hl] at h ⊢
    rcases hn : fs (dir ++ [pattern ++ random]) with _ | n
    · simp
    · simp [hn] at h

theorem osWriteFile_frame (fs : FS) (p : Path) (data : GoString) (perm : Nat) (q : Path)
    (hq : q ≠ p) : (osWriteFile fs p data perm).1 q = fs q := by
  unfold osWriteFile
  cases p with
  | nil => rfl
  | cons c r =>
    simp only
    rcases hl : fs.lookup (c :: r).dropLast with e | (_ | pm)
    · rfl
    · rfl
    · simp only
      rcases hp : fs (c :: r) with _ | (_ | _)
      · simp [FS.set, hq]
      · simp [FS.set, hq]
      · rfl

theorem fileAppend_frame (fs : FS) (p : Path) (data : GoString) (q : Path) (hq : q ≠ p) :
    (fileAppend fs p data) q = fs q := by
  unfold fileAppend
  rcases hp : fs p with _ | (_ | _)
  · rfl
  · simp [FS.set, hq]
  · rfl

theorem download_frame (w : World) (m : Machine) (URL : GoString) (target : Path) (q : Path)
    (hq : q ≠ target) : (download w m URL target).1.fs q = m.fs q := by
  unfold download osCreate
  dsimp only
  rcases hg : w.httpGet URL with ⟨resp, _ | e⟩
  · dsimp only
    split_ifs with hs
    · rfl
    · rcases hc : osWriteFile m.fs target [] 0o666 with ⟨fs1, _ | e1⟩
      · dsimp only
        have h1 : fs1 q = m.fs q := by
          have := osWriteFile_frame m.fs target [] 0o666 q hq
          rw [hc] at this
          exact this
        rcases resp.bodyErr with _ | e2
        · simp [fileAppend_frame, hq, h1]
        · simp [fileAppend_frame, hq, h1]
      · dsimp only
        have := osWriteFile_frame m.fs target [] 0o666 q hq
        rw [hc] at this
        exact this
  · rfl

theorem download_requests (w : World) (m : Machine) (URL : GoString) (target : Path) :
    (download w m URL target).1.requests = m.requests ++ [URL] := by
  unfold download
  dsimp only
  rcases hg : w.httpGet URL with ⟨resp, _ | e⟩
  · dsimp only
    split_ifs with hs
    · rfl
    · rcases hc : osCreate m.fs target with ⟨fs1, _ | e1⟩
      · dsimp only
        rcases resp.bodyErr with _ | e2 <;> rfl
      · rfl
  · rfl

theorem extractExtract_frame (w : World) (fs : FS) (archive directory : Path) (q : Path)
    (hq : ¬ directory <+: q) : (extractExtract w fs archive directory).1 q = fs q := by
  unfold extractExtract
  rcases hr : osReadFile fs archive with ⟨bytes, _ | e⟩
  · dsimp only
    rcases hu : w.unpack bytes with _ | tree
    · rfl
    · dsimp only
      rcases hl : fs.lookup directory with e1 | (_ | pm)
      · rfl
      · rfl
      · exact FS.graft_other fs directory tree q hq
  · rfl

/-! ## Claims C18, C19 and C20 -/

/-- C18: for every action name `a` and argument list `args`, `Cmd a args` returns a nil error
and a command whose program is the interpreter path, whose argument vector is the interpreter
path, the path of the entry-point script and `a`, followed by `args` in their order, and whose
environment is the environment of the parent followed by the two entries
`NIMBELLA_DIR=<credentials directory of the service>` and `NIM_USER_AGENT=<user agent>`;
standard error is the parent's iff the variable `DEBUG` is not empty.  The argument list of the
caller is a value here, so nothing can change it. -/
theorem C18_Cmd_spec (s : serverlessService) (environ : List GoString) (env : Env)
    (a : GoString) (args : List GoString) :
    (Cmd s environ env a args).2 = none ∧
    (Cmd s environ env a args).1.Path = pathString s.node ∧
    (Cmd s environ env a args).1.Args
      = [pathString s.node, pathString s.serverlessJs, a] ++ args ∧
    (Cmd s environ env a args).1.Env
      = environ ++ [utf8 "NIMBELLA_DIR=" ++ pathString s.credsDir,
          utf8 "NIM_USER_AGENT=" ++ s.userAgent] ∧
    ((Cmd s environ env a args).1.Stderr = true ↔ env (utf8 "DEBUG") ≠ []) := by
  unfold Cmd execCommand
  dsimp only
  by_cases h : env (utf8 "DEBUG") = []
  · simp [h]
  · simp [h]

/-- C19: what `GetHostInfo` does with the three failures.  A failed GET request is returned
as the error.  A body that does not deserialize gives a non-nil error.  But when the GET
request succeeds, the reading of the body ends with an error, and the bytes that arrived
deserialize, `GetHostInfo` returns a nil error: the error of `io.ReadAll` is dropped. -/
theorem C19_GetHostInfo_drops_read_error (w : World)
    (unmarshal : GoString → ServerlessHostInfo × Option GoError) (APIHost : GoString) :
    (∀ e, (w.httpGet (APIHost ++ utf8 "/api/v1")).2 = some e →
      GetHostInfo w unmarshal APIHost = (ServerlessHostInfo.zero, some e)) ∧
    ((w.httpGet (APIHost ++ utf8 "/api/v1")).2 = none →
      (unmarshal (ioReadAll (w.httpGet (APIHost ++ utf8 "/api/v1")).1).1).2 ≠ none →
      (GetHostInfo w unmarshal APIHost).2 ≠ none) ∧
    ((w.httpGet (APIHost ++ utf8 "/api/v1")).2 = none →
      (ioReadAll (w.httpGet (APIHost ++ utf8 "/api/v1")).1).2 ≠ none →
      (unmarshal (ioReadAll (w.httpGet (APIHost ++ utf8 "/api/v1")).1).1).2 = none →
      (GetHostInfo w unmarshal APIHost).2 = none) := by
  unfold GetHostInfo
  dsimp only
  rcases hget : w.httpGet (APIHost ++ utf8 "/api/v1") with ⟨resp, _ | e1⟩
  · refine ⟨fun e he => by simp at he, fun _ hp => hp, fun _ _ hp => hp⟩
  · refine ⟨fun e he => ?_, fun h => by simp at h, fun h => by simp at h⟩
    simp only [Option.some.injEq] at he
    rw [he]

/-- C19 at the failing input: the host answers with the status 200 and the two bytes `{}`,
after which the reading of the body fails with `unexpected EOF`; `GetHostInfo` returns a nil
error. -/
theorem C19_GetHostInfo_drops_read_error_witness :
    (ioReadAll (sampleShortBodyWorld.httpGet
      (utf8 "https://faas.example.co" ++ utf8 "/api/v1")).1).2
      = some (GoError.other (utf8 "unexpected EOF")) ∧
    (GetHostInfo sampleShortBodyWorld sampleHostInfoUnmarshal
      (utf8 "https://faas.example.co")).2 = none :=
  ⟨rfl, (C19_GetHostInfo_drops_read_error sampleShortBodyWorld sampleHostInfoUnmarshal
    (utf8 "https://faas.example.co")).2.2 rfl (by decide) (by decide)⟩

/-- C20: for every service, environment, filesystem state and token scope `L`, a call of
`CheckServerlessStatus L` passes on the fields of the service and the filesystem as it found
them and returns what the state alone determines, so a second call on the state the first one
left behind returns the same classification. -/
theorem C20_CheckServerlessStatus_read_only (s : serverlessService) (env : Env) (fs : FS)
    (L : GoString) :
    (CheckServerlessStatusStep env { service := s, fs := fs } L).1
      = { service := s, fs := fs } ∧
    (CheckServerlessStatusStep env { service := s, fs := fs } L).2
      = CheckServerlessStatus s env fs L ∧
    (CheckServerlessStatusStep env
      (CheckServerlessStatusStep env { service := s, fs := fs } L).1 L).2
      = (CheckServerlessStatusStep env { service := s, fs := fs } L).2 := by
  have hstep : CheckServerlessStatusStep env { service := s, fs := fs } L
      = ({ service := s, fs := fs }, CheckServerlessStatus s env fs L) := by
    unfold CheckServerlessStatusStep CheckServerlessStatus serverlessUptodateStep
      isServerlessConnectedStep serverlessUptodate isServerlessConnected
      GetCurrentServerlessVersion statStep readFileStep
    dsimp only
    rcases h1 : osIsNotExist (osStat fs s.serverlessDir).2 with _ | _
    · rcases h2 : osReadFile fs (filepathJoin s.serverlessDir [utf8 "version"])
        with ⟨contents, _ | err⟩
      · dsimp only
        rcases h3 : goStringGe contents (GetMinServerlessVersion env) with _ | _
        · simp
        · dsimp only
          rcases h4 : osIsNotExist (osStat fs (filepathJoin
            (GetCredentialDirectory L s.serverlessDir) [CredentialsFile])).2 with _ | _
          · simp
          · simp
      · dsimp only
        rcases h3 : goStringGe (utf8 "0") (GetMinServerlessVersion env) with _ | _
        · simp
        · dsimp only
          rcases h4 : osIsNotExist (osStat fs (filepathJoin
            (GetCredentialDirectory L s.serverlessDir) [CredentialsFile])).2 with _ | _
          · simp
          · simp
    · simp
  refine ⟨by rw [hstep], by rw [hstep], ?_⟩
  simp only [hstep]

/-! ### Facts about the first part of the installer -/

theorem filepathJoin_extends (dir : Path) (elems : List GoString) :
    dir <+: filepathJoin dir elems :=
  List.prefix_append _ _

theorem ne_of_not_prefixed (tmp p q : Path) (hp : tmp <+: p) (hq : ¬ tmp <+: q) :
    q ≠ p := by
  intro e
  exact hq (e ▸ hp)

/-- The first part of the installer changes nothing outside the temporary directory. -/
theorem installFetch_frame (s : serverlessService) (w : World) (env : Env) (m : Machine)
    (upgrading : Bool) (q : Path) (hq : ¬ stagingPath s w <+: q) :
    (installFetch s w env m upgrading).1.fs q = m.fs q := by
  unfold installFetch
  dsimp only
  rcases ht : ioutilTempDir w.random m.fs (filepathDir s.serverlessDir) (utf8 "sbx-install")
    with ⟨fs0, tmp, _ | e⟩
  · have hok := ioutilTempDir_ok w.random m.fs (filepathDir s.serverlessDir)
      (utf8 "sbx-install") (by rw [ht])
    rw [ht] at hok
    obtain ⟨heq, _, _⟩ := hok
    simp only [Prod.mk.injEq, and_true] at heq
    obtain ⟨hfs0, htmp⟩ := heq
    have hq1 : ¬ tmp <+: q := by
      rw [htmp]
      exact hq
    have h0 : fs0 q = m.fs q := by
      rw [hfs0]
      apply FS.set_other
      exact ne_of_not_prefixed _ _ _ (List.prefix_refl _) hq
    dsimp only
    rcases targetNames w.GOOS w.GOARCH with err | ⟨goos, arch, nodeBin⟩
    · exact h0
    · dsimp only
      have hdl : ∀ (m1 : Machine) (URL : GoString) (name : List GoString), m1.fs q = m.fs q →
          (download w m1 URL (filepathJoin tmp name)).1.fs q = m.fs q := by
        intro m1 URL name h1
        rw [download_frame w m1 URL _ q
          (ne_of_not_prefixed tmp _ q (filepathJoin_extends _ _) hq1)]
        exact h1
      have htail : ∀ (m1 : Machine) (nodeFileName : Option Path) (nodeDir : GoString),
          m1.fs q = m.fs q →
          (match download w m1 (sandboxURL env) (filepathJoin tmp [utf8 "doctl-sandbox.tar.gz"])
            with
            | (m2, some err) => (m2, (Except.error err : Except GoError Staging))
            | (m2, none) =>
              match extractExtract w m2.fs (filepathJoin tmp [utf8 "doctl-sandbox.tar.gz"]) tmp
                with
              | (fs3, some err) => ({ fs := fs3, requests := m2.requests }, Except.error err)
              | (fs3, none) =>
                match nodeFileName with
                | none =>
                  ({ fs := fs3, requests := m2.requests },
                    Except.ok { tmp := tmp, goos := goos, arch := arch, nodeBin := nodeBin,
                                nodeFileName := nodeFileName, nodeDir := nodeDir })
                | some file =>
                  match extractExtract w fs3 file tmp with
                  | (fs4, some err) => ({ fs := fs4, requests := m2.requests }, Except.error err)
                  | (fs4, none) =>
                    ({ fs := fs4, requests := m2.requests },
                      Except.ok { tmp := tmp, goos := goos, arch := arch, nodeBin := nodeBin,
                                  nodeFileName := nodeFileName, nodeDir := nodeDir })).1.fs q
            = m.fs q := by
        intro m1 nodeFileName nodeDir h1
        have h2 := hdl m1 (sandboxURL env) [utf8 "doctl-sandbox.tar.gz"] h1
        rcases hd : download w m1 (sandboxURL env)
          (filepathJoin tmp [utf8 "doctl-sandbox.tar.gz"]) with ⟨m2, _ | e2⟩
        · rw [hd] at h2
          dsimp only at h2 ⊢
          have h3 := extractExtract_frame w m2.fs
            (filepathJoin tmp [utf8 "doctl-sandbox.tar.gz"]) tmp q hq1
          rcases hx : extractExtract w m2.fs (filepathJoin tmp [utf8 "doctl-sandbox.tar.gz"]) tmp
            with ⟨fs3, _ | e3⟩
          · rw [hx] at h3
            dsimp only at h3 ⊢
            rcases nodeFileName with _ | file
            · dsimp only
              rw [h3, h2]
            · dsimp only
              have h4 := extractExtract_frame w fs3 file tmp q hq1
              rcases hy : extractExtract w fs3 file tmp with ⟨fs4, _ | e4⟩
              · rw [hy] at h4
                dsimp only at h4 ⊢
                rw [h4, h3, h2]
              · rw [hy] at h4
                dsimp only at h4 ⊢
                rw [h4, h3, h2]
          · rw [hx] at h3
            dsimp only at h3 ⊢
            rw [h3, h2]
        · rw [hd] at h2
          exact h2
      by_cases hc : (!upgrading || !canReuseNode w fs0 s.serverlessDir nodeBin) = true
      · rw [if_pos hc]
        have h1 := hdl { fs := fs0, requests := m.requests } (nodeArchiveURL goos arch)
          (if goos = utf8 "win" then [utf8 "node-install.zip"] else [utf8 "node-install.tar.gz"])
          h0
        have hfile : filepathJoin tmp
            (if goos = utf8 "win" then [utf8 "node-install.zip"] else [utf8 "node-install.tar.gz"])
            = nodeArchiveFile goos tmp := by
          unfold nodeArchiveFile
          split_ifs <;> rfl
        rw [hfile] at h1
        rcases hd : download w { fs := fs0, requests := m.requests } (nodeArchiveURL goos arch)
          (nodeArchiveFile goos tmp) with ⟨m1, _ | e1⟩
        · rw [hd] at h1
          dsimp only at h1 ⊢
          exact htail m1 (some (nodeArchiveFile goos tmp)) (nodeDirName goos arch) h1
        · rw [hd] at h1
          exact h1
      · rw [if_neg hc]
        dsimp only
        exact htail { fs := fs0, requests := m.requests } none [] h0
  · have herr := ioutilTempDir_err w.random m.fs (filepathDir s.serverlessDir)
      (utf8 "sbx-install") e (by rw [ht])
    rw [ht] at herr
    dsimp only at herr ⊢
    rw [herr]

theorem targetNames_ok (goos0 arch0 goos arch nodeBin : GoString)
    (h : targetNames goos0 arch0 = Except.ok (goos, arch, nodeBin)) :
    nodeBin = (if goos0 = utf8 "windows" then utf8 "node.exe" else utf8 "node") ∧
    goos = (if goos0 = utf8 "windows" then utf8 "win" else goos0) ∧
    arch = (if arch0 = utf8 "amd64" then utf8 "x64"
      else if arch0 = utf8 "386" then utf8 "x86" else arch0) := by
  unfold targetNames at h
  dsimp only at h
  by_cases ha : arch0 = utf8 "amd64"
  · have hx : ¬ (utf8 "x64" = utf8 "386") := by decide
    rw [if_pos ha] at h
    rw [if_neg (fun hh => hx hh.1), if_neg hx] at h
    simp only [Except.ok.injEq, Prod.mk.injEq] at h
    obtain ⟨h1, h2, h3⟩ := h
    exact ⟨h3.symm, h1.symm, by rw [if_pos ha, h2]⟩
  · rw [if_neg ha] at h
    by_cases hb : arch0 = utf8 "386"
    · by_cases hl : goos0 = utf8 "linux"
      · rw [if_pos ⟨hb, hl⟩] at h
        simp at h
      · rw [if_neg (fun hh => hl hh.2), if_pos hb] at h
        simp only [Except.ok.injEq, Prod.mk.injEq] at h
        obtain ⟨h1, h2, h3⟩ := h
        exact ⟨h3.symm, h1.symm, by rw [if_neg ha, if_pos hb, h2]⟩
    · rw [if_neg (fun hh => hb hh.1), if_neg hb] at h
      simp only [Except.ok.injEq, Prod.mk.injEq] at h
      obtain ⟨h1, h2, h3⟩ := h
      exact ⟨h3.symm, h1.symm, by rw [if_neg ha, if_neg hb, h2]⟩

/-- What a successful first part of the installer leaves in its local variables. -/
theorem installFetch_ok (s : serverlessService) (w : World) (env : Env) (m : Machine)
    (upgrading : Bool) (st : Staging)
    (h : (installFetch s w env m upgrading).2 = Except.ok st) :
    st.tmp = stagingPath s w ∧
    targetNames w.GOOS w.GOARCH = Except.ok (st.goos, st.arch, st.nodeBin) ∧
    (∃ pm, m.fs.lookup (filepathDir s.serverlessDir) = Except.ok (Node.dir pm)) ∧
    m.fs (stagingPath s w) = none ∧
    ((st.nodeFileName = none ∧ upgrading = true ∧
        canReuseNode w (m.fs.set (stagingPath s w) (Node.dir 0o700)) s.serverlessDir st.nodeBin
          = true) ∨
      (st.nodeFileName = some (nodeArchiveFile st.goos st.tmp) ∧
        st.nodeDir = nodeDirName st.goos st.arch)) := by
  unfold installFetch at h
  dsimp only at h
  rcases ht : ioutilTempDir w.random m.fs (filepathDir s.serverlessDir) (utf8 "sbx-install")
    with ⟨fs0, tmp, _ | e⟩
  · have hok := ioutilTempDir_ok w.random m.fs (filepathDir s.serverlessDir)
      (utf8 "sbx-install") (by rw [ht])
    rw [ht] at hok
    obtain ⟨heq, hdir, hfree⟩ := hok
    simp only [Prod.mk.injEq, and_true] at heq
    obtain ⟨hfs0, htmp⟩ := heq
    rw [ht] at h
    dsimp only at h
    rcases hn : targetNames w.GOOS w.GOARCH with err | ⟨goos, arch, nodeBin⟩
    · rw [hn] at h
      simp at h
    · rw [hn] at h
      dsimp only at h
      have htail : ∀ (m1 : Machine) (nodeFileName : Option Path) (nodeDir : GoString),
          (match download w m1 (sandboxURL env) (filepathJoin tmp [utf8 "doctl-sandbox.tar.gz"])
            with
            | (m2, some err) => (m2, (Except.error err : Except GoError Staging))
            | (m2, none) =>
              match extractExtract w m2.fs (filepathJoin tmp [utf8 "doctl-sandbox.tar.gz"]) tmp
                with
              | (fs3, some err) => ({ fs := fs3, requests := m2.requests }, Except.error err)
              | (fs3, none) =>
                match nodeFileName with
                | none =>
                  ({ fs := fs3, requests := m2.requests },
                    Except.ok { tmp := tmp, goos := goos, arch := arch, nodeBin := nodeBin,
                                nodeFileName := nodeFileName, nodeDir := nodeDir })
                | some file =>
                  match extractExtract w fs3 file tmp with
                  | (fs4, some err) => ({ fs := fs4, requests := m2.requests }, Except.error err)
                  | (fs4, none) =>
                    ({ fs := fs4, requests := m2.requests },
                      Except.ok { tmp := tmp, goos := goos, arch := arch, nodeBin := nodeBin,
                                  nodeFileName := nodeFileName, nodeDir := nodeDir })).2
            = Except.ok st →
          st = { tmp := tmp, goos := goos, arch := arch, nodeBin := nodeBin,
                 nodeFileName := nodeFileName, nodeDir := nodeDir } := by
        intro m1 nodeFileName nodeDir h1
        rcases hd : download w m1 (sandboxURL env)
          (filepathJoin tmp [utf8 "doctl-sandbox.tar.gz"]) with ⟨m2, _ | e2⟩
        · rw [hd] at h1
          dsimp only at h1
          rcases hx : extractExtract w m2.fs (filepathJoin tmp [utf8 "doctl-sandbox.tar.gz"]) tmp
            with ⟨fs3, _ | e3⟩
          · rw [hx] at h1
            dsimp only at h1
            rcases nodeFileName with _ | file
            · dsimp only at h1
              simp only [Except.ok.injEq] at h1
              exact h1.symm
            · dsimp only at h1
              rcases hy : extractExtract w fs3 file tmp with ⟨fs4, _ | e4⟩
              · rw [hy] at h1
                dsimp only at h1
                simp only [Except.ok.injEq] at h1
                exact h1.symm
              · rw [hy] at h1
                simp at h1
          · rw [hx] at h1
            simp at h1
        · rw [hd] at h1
          simp at h1
      by_cases hc : (!upgrading || !canReuseNode w fs0 s.serverlessDir nodeBin) = true
      · rw [if_pos hc] at h
        rcases hd : download w { fs := fs0, requests := m.requests } (nodeArchiveURL goos arch)
          (nodeArchiveFile goos tmp) with ⟨m1, _ | e1⟩
        · rw [hd] at h
          dsimp only at h
          have hst := htail m1 (some (nodeArchiveFile goos tmp)) (nodeDirName goos arch) h
          subst hst
          exact ⟨htmp, rfl, hdir, hfree, Or.inr ⟨rfl, rfl⟩⟩
        · rw [hd] at h
          simp at h
      · rw [if_neg hc] at h
        dsimp only at h
        have hst := htail { fs := fs0, requests := m.requests } none [] h
        subst hst
        simp only [Bool.or_eq_true, Bool.not_eq_true', not_or, Bool.not_eq_false] at hc
        refine ⟨htmp, rfl, hdir, hfree, Or.inl ⟨rfl, hc.1, ?_⟩⟩
        have h2 := hc.2
        rw [hfs0] at h2
        exact h2
  · rw [ht] at h
    simp at h

theorem InstallServerless_requests (s : serverlessService) (w : World) (env : Env)
    (m : Machine) (L : GoString) (upgrading : Bool) :
    (InstallServerless s w env m L upgrading).1.requests
      = (installFetch s w env m upgrading).1.requests := by
  unfold InstallServerless
  rcases installFetch s w env m upgrading with ⟨m1, e | st⟩
  · rfl
  · dsimp only
    rcases installRelocate s m1.fs L upgrading st with ⟨fs2, e | _ | _⟩ <;> rfl

theorem InstallServerless_fetch_error (s : serverlessService) (w : World) (env : Env)
    (m : Machine) (L : GoString) (upgrading : Bool) (e : GoError)
    (h : (installFetch s w env m upgrading).2 = Except.error e) :
    InstallServerless s w env m L upgrading = ((installFetch s w env m upgrading).1, some e) := by
  unfold InstallServerless
  rcases hf : installFetch s w env m upgrading with ⟨m1, e1 | st⟩
  · rw [hf] at h
    simp only [Except.error.injEq] at h
    subst h
    rfl
  · rw [hf] at h
    simp at h

theorem targetNames_unsupported :
    targetNames (utf8 "linux") (utf8 "386")
      = Except.error (errorsNew (utf8 "serverless support is not available for 32-bit linux")) := by
  unfold targetNames
  dsimp only
  rw [if_pos (by decide)]

/-- On 32-bit linux the first part of the installer ends at the check of the target. -/
theorem installFetch_unsupported (s : serverlessService) (w : World) (env : Env) (m : Machine)
    (upgrading : Bool) (hos : w.GOOS = utf8 "linux") (harch : w.GOARCH = utf8 "386") :
    (installFetch s w env m upgrading).1.requests = m.requests ∧
    ((ioutilTempDir w.random m.fs (filepathDir s.serverlessDir) (utf8 "sbx-install")).2.2 = none →
      (installFetch s w env m upgrading).2 = Except.error
        (errorsNew (utf8 "serverless support is not available for 32-bit linux"))) := by
  unfold installFetch
  dsimp only
  rw [hos, harch, targetNames_unsupported]
  rcases ioutilTempDir w.random m.fs (filepathDir s.serverlessDir) (utf8 "sbx-install")
    with ⟨fs0, tmp, _ | e⟩
  · exact ⟨rfl, fun _ => rfl⟩
  · exact ⟨rfl, fun h => by simp at h⟩

/-- When the interpreter is downloaded, the first request goes to its archive. -/
theorem installFetch_node_request (s : serverlessService) (w : World) (env : Env) (m : Machine)
    (upgrading : Bool) (goos arch nodeBin : GoString)
    (htmp : (ioutilTempDir w.random m.fs (filepathDir s.serverlessDir)
      (utf8 "sbx-install")).2.2 = none)
    (hn : targetNames w.GOOS w.GOARCH = Except.ok (goos, arch, nodeBin))
    (hc : (!upgrading || !canReuseNode w (m.fs.set (stagingPath s w) (Node.dir 0o700))
      s.serverlessDir nodeBin) = true) :
    m.requests ++ [nodeArchiveURL goos arch] <+: (installFetch s w env m upgrading).1.requests := by
  have hok := ioutilTempDir_ok w.random m.fs (filepathDir s.serverlessDir)
    (utf8 "sbx-install") htmp
  unfold installFetch
  dsimp only
  rw [hok.1, hn]
  dsimp only
  have hc1 : (!upgrading || !canReuseNode w
      (m.fs.set (filepathDir s.serverlessDir ++ [utf8 "sbx-install" ++ w.random]) (Node.dir 0o700))
      s.serverlessDir nodeBin) = true := hc
  rw [if_pos hc1]
  have hreq := download_requests w
    { fs := m.fs.set (filepathDir s.serverlessDir ++ [utf8 "sbx-install" ++ w.random])
        (Node.dir 0o700), requests := m.requests }
    (nodeArchiveURL goos arch)
    (nodeArchiveFile goos (filepathDir s.serverlessDir ++ [utf8 "sbx-install" ++ w.random]))
  rcases hd : download w
    { fs := m.fs.set (filepathDir s.serverlessDir ++ [utf8 "sbx-install" ++ w.random])
        (Node.dir 0o700), requests := m.requests }
    (nodeArchiveURL goos arch)
    (nodeArchiveFile goos (filepathDir s.serverlessDir ++ [utf8 "sbx-install" ++ w.random]))
    with ⟨m1, _ | e1⟩
  · rw [hd] at hreq
    dsimp only at hreq ⊢
    have hreq2 := download_requests w m1 (sandboxURL env)
      (filepathJoin (filepathDir s.serverlessDir ++ [utf8 "sbx-install" ++ w.random])
        [utf8 "doctl-sandbox.tar.gz"])
    rcases hd2 : download w m1 (sandboxURL env)
      (filepathJoin (filepathDir s.serverlessDir ++ [utf8 "sbx-install" ++ w.random])
        [utf8 "doctl-sandbox.tar.gz"]) with ⟨m2, _ | e2⟩
    · rw [hd2] at hreq2
      dsimp only at hreq2 ⊢
      have hpre : m.requests ++ [nodeArchiveURL goos arch] <+: m2.requests := by
        rw [hreq2, hreq]
        exact List.prefix_append _ _
      rcases extractExtract w m2.fs
        (filepathJoin (filepathDir s.serverlessDir ++ [utf8 "sbx-install" ++ w.random])
          [utf8 "doctl-sandbox.tar.gz"])
        (filepathDir s.serverlessDir ++ [utf8 "sbx-install" ++ w.random]) with ⟨fs3, _ | e3⟩
      · dsimp only
        rcases extractExtract w fs3
          (nodeArchiveFile goos (filepathDir s.serverlessDir ++ [utf8 "sbx-install" ++ w.random]))
          (filepathDir s.serverlessDir ++ [utf8 "sbx-install" ++ w.random]) with ⟨fs4, _ | e4⟩
        · exact hpre
        · exact hpre
      · exact hpre
    · rw [hd2] at hreq2
      dsimp only at hreq2 ⊢
      rw [hreq2, hreq]
      exact List.prefix_append _ _
  · rw [hd] at hreq
    dsimp only at hreq ⊢
    rw [hreq]

theorem not_prefix_staging (s : serverlessService) (w : World) (q : Path)
    (hstaging : ¬ s.serverlessDir <+: stagingPath s w) (hq : s.serverlessDir <+: q) :
    ¬ stagingPath s w <+: q := by
  intro h
  apply hstaging
  apply List.prefix_of_prefix_length_le hq h
  unfold stagingPath filepathDir
  simp only [List.length_append, List.length_dropLast, List.length_singleton]
  omega

/-! ## Claim C17 -/

/-- On 32-bit linux with the temporary directory made, the first part of the installer
leaves the filesystem with that directory added and nothing else. -/
theorem installFetch_unsupported_fs (s : serverlessService) (w : World) (env : Env)
    (m : Machine) (upgrading : Bool) (hos : w.GOOS = utf8 "linux")
    (harch : w.GOARCH = utf8 "386")
    (ht : (ioutilTempDir w.random m.fs (filepathDir s.serverlessDir)
      (utf8 "sbx-install")).2.2 = none) :
    (installFetch s w env m upgrading).1.fs = m.fs.set (stagingPath s w) (Node.dir 0o700) := by
  have hok := ioutilTempDir_ok w.random m.fs (filepathDir s.serverlessDir)
    (utf8 "sbx-install") ht
  unfold installFetch
  dsimp only
  rw [hok.1, hos, harch, targetNames_unsupported]
  rfl

/-- When the temporary directory cannot be made, the first part of the installer ends with
the error of `ioutil.TempDir`. -/
theorem installFetch_tempdir_error (s : serverlessService) (w : World) (env : Env)
    (m : Machine) (upgrading : Bool) (e : GoError)
    (ht : (ioutilTempDir w.random m.fs (filepathDir s.serverlessDir)
      (utf8 "sbx-install")).2.2 = some e) :
    (installFetch s w env m upgrading).2 = Except.error e := by
  unfold installFetch
  dsimp only
  rcases hd : ioutilTempDir w.random m.fs (filepathDir s.serverlessDir) (utf8 "sbx-install")
    with ⟨fs0, tmp, _ | e1⟩
  · rw [hd] at ht
    simp at ht
  · rw [hd] at ht
    simp only [Option.some.injEq] at ht
    rw [ht]

/-- C17, counterexample: on linux and `386`, for the install directory `/home/.sandbox` on a
filesystem that has no `/home`, the temporary directory cannot be made beside the install
directory, and `InstallServerless` returns the error of `ioutil.TempDir`, not the error for
32-bit linux: the temporary directory is made before the target is checked. -/
theorem C17_tempdir_error_counterexample :
    sampleWorld386.GOOS = utf8 "linux" ∧ sampleWorld386.GOARCH = utf8 "386" ∧
    (InstallServerless sampleService sampleWorld386 (sampleEnv [])
      { fs := rootOnlyFS, requests := [] } (utf8 "tok") false).2
      = some (GoError.pathError (utf8 "mkdir") [utf8 "home", utf8 "sbx-install123"]
          Errno.ENOENT) ∧
    (InstallServerless sampleService sampleWorld386 (sampleEnv [])
      { fs := rootOnlyFS, requests := [] } (utf8 "tok") false).2
      ≠ some (errorsNew (utf8 "serverless support is not available for 32-bit linux")) := by
  refine ⟨by decide, by decide, by decide, by decide⟩

/-- C17, amended: for every target and both values of `upgrading`.  On linux and `386`,
`InstallServerless` issues no request and changes nothing outside the temporary directory (so
nothing in the install directory, when the temporary directory is not inside it); when the
temporary directory can be made it returns the error `serverless support is not available for
32-bit linux`, leaving the temporary directory behind, and when it cannot, it returns the
error of making it.  On any other target the names are mapped: `amd64` to `x64`, `386` to
`x86`, any other architecture to itself, `windows` to `win`, any other operating system to
itself; the URL of the interpreter archive is
`https://nodejs.org/dist/<nodeVersion>/node-<nodeVersion>-<os>-<arch>` followed by `.zip` on
windows and by `.tar.gz` otherwise (`win` itself is no value of `runtime.GOOS`); and when the
interpreter is downloaded, the first request of the run goes to that URL. -/
theorem C17_target_names (s : serverlessService) (w : World) (env : Env) (m : Machine)
    (L : GoString) (upgrading : Bool) :
    (w.GOOS = utf8 "linux" → w.GOARCH = utf8 "386" →
      (InstallServerless s w env m L upgrading).1.requests = m.requests ∧
      (∀ q, ¬ stagingPath s w <+: q →
        (InstallServerless s w env m L upgrading).1.fs q = m.fs q) ∧
      (¬ s.serverlessDir <+: stagingPath s w → ∀ q, s.serverlessDir <+: q →
        (InstallServerless s w env m L upgrading).1.fs q = m.fs q) ∧
      ((ioutilTempDir w.random m.fs (filepathDir s.serverlessDir)
          (utf8 "sbx-install")).2.2 = none →
        (InstallServerless s w env m L upgrading).2
          = some (errorsNew (utf8 "serverless support is not available for 32-bit linux")) ∧
        (InstallServerless s w env m L upgrading).1.fs (stagingPath s w)
          = some (Node.dir 0o700)) ∧
      (∀ e, (ioutilTempDir w.random m.fs (filepathDir s.serverlessDir)
          (utf8 "sbx-install")).2.2 = some e →
        (InstallServerless s w env m L upgrading).2 = some e)) ∧
    (¬ (w.GOOS = utf8 "linux" ∧ w.GOARCH = utf8 "386") →
      targetNames w.GOOS w.GOARCH = Except.ok
        (if w.GOOS = utf8 "windows" then utf8 "win" else w.GOOS,
         if w.GOARCH = utf8 "amd64" then utf8 "x64"
           else if w.GOARCH = utf8 "386" then utf8 "x86" else w.GOARCH,
         if w.GOOS = utf8 "windows" then utf8 "node.exe" else utf8 "node") ∧
      (w.GOOS ≠ utf8 "win" →
        nodeArchiveURL (if w.GOOS = utf8 "windows" then utf8 "win" else w.GOOS)
            (if w.GOARCH = utf8 "amd64" then utf8 "x64"
              else if w.GOARCH = utf8 "386" then utf8 "x86" else w.GOARCH)
          = utf8 "https://nodejs.org/dist/" ++ nodeVersion ++ utf8 "/node-" ++ nodeVersion ++
              utf8 "-" ++ (if w.GOOS = utf8 "windows" then utf8 "win" else w.GOOS) ++
              utf8 "-" ++ (if w.GOARCH = utf8 "amd64" then utf8 "x64"
                else if w.GOARCH = utf8 "386" then utf8 "x86" else w.GOARCH) ++
              (if w.GOOS = utf8 "windows" then utf8 ".zip" else utf8 ".tar.gz")) ∧
      ((ioutilTempDir w.random m.fs (filepathDir s.serverlessDir)
          (utf8 "sbx-install")).2.2 = none →
        (!upgrading || !canReuseNode w (m.fs.set (stagingPath s w) (Node.dir 0o700))
          s.serverlessDir (if w.GOOS = utf8 "windows" then utf8 "node.exe" else utf8 "node"))
          = true →
        m.requests ++
          [nodeArchiveURL (if w.GOOS = utf8 "windows" then utf8 "win" else w.GOOS)
            (if w.GOARCH = utf8 "amd64" then utf8 "x64"
              else if w.GOARCH = utf8 "386" then utf8 "x86" else w.GOARCH)]
          <+: (InstallServerless s w env m L upgrading).1.requests)) := by
  constructor
  · intro hos harch
    obtain ⟨hreq, herr⟩ := installFetch_unsupported s w env m upgrading hos harch
    have hframe : ∀ q, ¬ stagingPath s w <+: q →
        (InstallServerless s w env m L upgrading).1.fs q = m.fs q := by
      intro q hq
      by_cases ht : (ioutilTempDir w.random m.fs (filepathDir s.serverlessDir)
          (utf8 "sbx-install")).2.2 = none
      · rw [InstallServerless_fetch_error s w env m L upgrading _ (herr ht)]
        exact installFetch_frame s w env m upgrading q hq
      · rcases hf : (installFetch s w env m upgrading).2 with e | st
        · rw [InstallServerless_fetch_error s w env m L upgrading e hf]
          exact installFetch_frame s w env m upgrading q hq
        · exfalso
          obtain ⟨_, hn, _⟩ := installFetch_ok s w env m upgrading st hf
          rw [hos, harch, targetNames_unsupported] at hn
          simp at hn
    refine ⟨?_, hframe, ?_, ?_, ?_⟩
    · rw [InstallServerless_requests, hreq]
    · intro hstaging q hq
      exact hframe q (not_prefix_staging s w q hstaging hq)
    · intro ht
      rw [InstallServerless_fetch_error s w env m L upgrading _ (herr ht)]
      refine ⟨rfl, ?_⟩
      rw [installFetch_unsupported_fs s w env m upgrading hos harch ht]
      exact FS.set_self _ _ _
    · intro e ht
      rw [InstallServerless_fetch_error s w env m L upgrading e
        (installFetch_tempdir_error s w env m upgrading e ht)]
  · intro hsup
    have hnames : targetNames w.GOOS w.GOARCH = Except.ok
        (if w.GOOS = utf8 "windows" then utf8 "win" else w.GOOS,
         if w.GOARCH = utf8 "amd64" then utf8 "x64"
           else if w.GOARCH = utf8 "386" then utf8 "x86" else w.GOARCH,
         if w.GOOS = utf8 "windows" then utf8 "node.exe" else utf8 "node") := by
      unfold targetNames
      dsimp only
      by_cases ha : w.GOARCH = utf8 "amd64"
      · have hx : ¬ (utf8 "x64" = utf8 "386") := by decide
        rw [if_pos ha, if_neg (fun hh => hx hh.1), if_neg hx, if_pos ha]
      · rw [if_neg ha]
        by_cases hb : w.GOARCH = utf8 "386"
        · rw [if_neg (fun hh => hsup ⟨hh.2, hb⟩), if_pos hb, if_neg ha]
        · rw [if_neg (fun hh => hb hh.1), if_neg hb, if_neg ha]
    refine ⟨hnames, ?_, ?_⟩
    · intro hwin
      have hslash : ∀ x : GoString, utf8 "/" ++ (utf8 "node-" ++ x) = utf8 "/node-" ++ x := by
        intro x
        rw [← List.append_assoc]
        rfl
      unfold nodeArchiveURL nodeDirName
      by_cases hw : w.GOOS = utf8 "windows"
      · rw [if_pos hw, if_pos rfl, if_pos hw]
        simp only [List.append_assoc, hslash]
      · rw [if_neg hw, if_neg hwin, if_neg hw]
        simp only [List.append_assoc, hslash]
    · intro ht hc
      rw [InstallServerless_requests]
      exact installFetch_node_request s w env m upgrading _ _ _ ht hnames hc

/-- C17 on two targets, for an install under `/home/.sandbox` on a filesystem holding `/home`
alone: on linux and `386` the run returns the error for 32-bit linux and issues no request;
on windows and `amd64` the first request goes to
`https://nodejs.org/dist/v16.13.0/node-v16.13.0-win-x64.zip`. -/
theorem C17_target_names_witness :
    (InstallServerless sampleService sampleWorld386 (sampleEnv [])
      { fs := sampleHomeFS, requests := [] } (utf8 "tok") false).2
      = some (errorsNew (utf8 "serverless support is not available for 32-bit linux")) ∧
    (InstallServerless sampleService sampleWorld386 (sampleEnv [])
      { fs := sampleHomeFS, requests := [] } (utf8 "tok") false).1.requests = [] ∧
    [] ++ [nodeArchiveURL
        (if sampleWindowsWorld.GOOS = utf8 "windows" then utf8 "win" else sampleWindowsWorld.GOOS)
        (if sampleWindowsWorld.GOARCH = utf8 "amd64" then utf8 "x64"
          else if sampleWindowsWorld.GOARCH = utf8 "386" then utf8 "x86"
          else sampleWindowsWorld.GOARCH)]
      <+: (InstallServerless sampleService sampleWindowsWorld (sampleEnv [])
        { fs := sampleHomeFS, requests := [] } (utf8 "tok") false).1.requests ∧
    nodeArchiveURL (utf8 "win") (utf8 "x64")
      = utf8 "https://nodejs.org/dist/v16.13.0/node-v16.13.0-win-x64.zip" :=
  ⟨(((C17_target_names sampleService sampleWorld386 (sampleEnv [])
      { fs := sampleHomeFS, requests := [] } (utf8 "tok") false).1 rfl rfl).2.2.2.1
        (by decide)).1,
    ((C17_target_names sampleService sampleWorld386 (sampleEnv [])
      { fs := sampleHomeFS, requests := [] } (utf8 "tok") false).1 rfl rfl).1,
    ((C17_target_names sampleService sampleWindowsWorld (sampleEnv [])
      { fs := sampleHomeFS, requests := [] } (utf8 "tok") false).2 (by decide)).2.2
      (by decide) (by decide),
    by decide⟩

/-! ### Facts about the last parts of the installer -/

theorem not_prefix_of_length_lt {α : Type} (p q : List α) (h : q.length < p.length) :
    ¬ p <+: q := by
  intro hp
  have := List.IsPrefix.length_le hp
  omega

theorem stagingPath_length (s : serverlessService) (w : World) :
    s.serverlessDir.length ≤ (stagingPath s w).length := by
  unfold stagingPath filepathDir
  simp only [List.length_append, List.length_dropLast, List.length_singleton]
  omega

theorem stagingPath_length_eq (s : serverlessService) (w : World) (h : s.serverlessDir ≠ []) :
    (stagingPath s w).length = s.serverlessDir.length := by
  have : 0 < s.serverlessDir.length := List.length_pos.mpr h
  unfold stagingPath filepathDir
  simp only [List.length_append, List.length_dropLast, List.length_singleton]
  omega

/-- A path in the install directory is no prefix of a path in the temporary directory. -/
theorem not_prefix_staging_append (s : serverlessService) (w : World) (q rel : Path)
    (hstaging : ¬ s.serverlessDir <+: stagingPath s w) (hq : s.serverlessDir <+: q) :
    ¬ q <+: stagingPath s w ++ rel := by
  intro h
  apply hstaging
  exact List.prefix_of_prefix_length_le (List.IsPrefix.trans hq h) (List.prefix_append _ _)
    (stagingPath_length s w)

/-- A path in the temporary directory is no prefix of a path in the install directory. -/
theorem not_staging_prefix_install (s : serverlessService) (w : World) (rel rel1 : Path)
    (hstaging : ¬ s.serverlessDir <+: stagingPath s w) :
    ¬ stagingPath s w ++ rel <+: s.serverlessDir ++ rel1 := by
  intro h
  apply hstaging
  exact List.prefix_of_prefix_length_le (List.prefix_append _ _)
    (List.IsPrefix.trans (List.prefix_append _ _) h) (stagingPath_length s w)

/-- A path in the install directory is no prefix of a path in the temporary directory, in
the form with both written as extensions. -/
theorem not_install_prefix_staging (s : serverlessService) (w : World) (rel rel1 : Path)
    (hstaging : ¬ s.serverlessDir <+: stagingPath s w) :
    ¬ s.serverlessDir ++ rel1 <+: stagingPath s w ++ rel :=
  not_prefix_staging_append s w _ rel hstaging (List.prefix_append _ _)

theorem nodeDirName_cons (goos arch : GoString) :
    ∃ t, nodeDirName goos arch = (110 : Byte) :: t := by
  have h : utf8 "node-" = [110, 111, 100, 101, 45] := by decide
  unfold nodeDirName
  rw [h]
  simp only [List.cons_append, List.append_assoc]
  exact ⟨_, rfl⟩

theorem nodeDirName_ne_nil (goos arch : GoString) : nodeDirName goos arch ≠ [] := by
  obtain ⟨t, ht⟩ := nodeDirName_cons goos arch
  rw [ht]
  simp

theorem nodeDirName_ne_sandbox (goos arch : GoString) : utf8 "sandbox" ≠ nodeDirName goos arch := by
  obtain ⟨t, ht⟩ := nodeDirName_cons goos arch
  have h : utf8 "sandbox" = [115, 97, 110, 100, 98, 111, 120] := by decide
  rw [ht, h]
  intro e
  simp only [List.cons.injEq] at e
  exact absurd e.1 (by decide)

theorem filepathJoin_cons (dir : Path) (x : GoString) (l : List GoString) (h : x ≠ []) :
    filepathJoin dir (x :: l) = dir ++ x :: l.filter (fun e => e ≠ []) := by
  unfold filepathJoin
  rw [List.filter_cons_of_pos (by simpa using h)]

/-- Where `InstallServerless` takes a downloaded interpreter from: a path below the
temporary directory, outside the staged `sandbox`. -/
theorem nodeSource_eq (st : Staging) (hdir : st.nodeDir = nodeDirName st.goos st.arch) :
    ∃ t, (if st.goos = utf8 "win" then filepathJoin st.tmp [st.nodeDir, st.nodeBin]
      else filepathJoin st.tmp [st.nodeDir, utf8 "bin", st.nodeBin])
      = st.tmp ++ st.nodeDir :: t := by
  have hne : st.nodeDir ≠ [] := by
    rw [hdir]
    exact nodeDirName_ne_nil _ _
  split_ifs
  · exact ⟨_, filepathJoin_cons _ _ _ hne⟩
  · exact ⟨_, filepathJoin_cons _ _ _ hne⟩

/-- What a successful activation leaves: the install directory holds the staged tree, with a
downloaded interpreter moved in, and its ancestors resolve as before. -/
theorem installActivate_ok (s : serverlessService) (w : World) (fs : FS) (st : Staging)
    (htmp : st.tmp = stagingPath s w) (hbin : st.nodeBin ≠ [])
    (h : (installActivate s fs st).2 = none) :
    ¬ s.serverlessDir <+: stagingPath s w ∧ s.serverlessDir ≠ [] ∧
    (∃ pm, (installActivate s fs st).1.lookup s.serverlessDir.dropLast
      = Except.ok (Node.dir pm)) ∧
    (∃ n, fs (stagingPath s w ++ [utf8 "sandbox"]) = some n) ∧
    (∀ rel, (st.nodeFileName = none ∨ ¬ [st.nodeBin] <+: rel) →
      (installActivate s fs st).1 (s.serverlessDir ++ rel)
        = fs (stagingPath s w ++ [utf8 "sandbox"] ++ rel)) ∧
    (st.nodeFileName ≠ none → st.nodeDir = nodeDirName st.goos st.arch → ∀ rel,
      (installActivate s fs st).1 (s.serverlessDir ++ [st.nodeBin] ++ rel)
        = fs ((if st.goos = utf8 "win" then filepathJoin st.tmp [st.nodeDir, st.nodeBin]
            else filepathJoin st.tmp [st.nodeDir, utf8 "bin", st.nodeBin]) ++ rel)) := by
  have hsb : filepathJoin st.tmp [utf8 "sandbox"] = stagingPath s w ++ [utf8 "sandbox"] := by
    rw [htmp]
    exact filepathJoin_single _ _ (by decide)
  have hdest : filepathJoin s.serverlessDir [st.nodeBin] = s.serverlessDir ++ [st.nodeBin] :=
    filepathJoin_single _ _ hbin
  unfold installActivate at h ⊢
  dsimp only at h ⊢
  rw [hsb, hdest] at h ⊢
  have hrm := osRemoveAll_ok fs s.serverlessDir
  rcases hr : osRemoveAll fs s.serverlessDir with ⟨fsC, _ | e⟩
  swap
  · rw [hr] at h
    simp at h
  rw [hr] at h hrm
  dsimp only at h hrm ⊢
  have hrn := osRename_ok fsC (stagingPath s w ++ [utf8 "sandbox"]) s.serverlessDir
  rcases hn : osRename fsC (stagingPath s w ++ [utf8 "sandbox"]) s.serverlessDir
    with ⟨fsD, _ | e⟩
  swap
  · rw [hn] at h
    simp at h
  rw [hn] at h hrn
  dsimp only at h hrn ⊢
  obtain ⟨hfsD, ⟨n0, hsrc⟩, ⟨pm, hparent⟩, _, hsd, hcmp⟩ := hrn rfl
  have hlen := stagingPath_length_eq s w hsd
  -- the removal went through
  have hfsC : fsC = fs.removeTree s.serverlessDir := by
    rcases hrm rfl with ⟨h1, _⟩ | ⟨h1, h2⟩
    · exact h1
    · rw [h1] at hparent
      rw [h2] at hparent
      simp at hparent
  have hns : ¬ s.serverlessDir <+: stagingPath s w ++ [utf8 "sandbox"] := by
    rcases hcmp with e | ⟨_, h2⟩
    · exfalso
      have := congrArg List.length e
      simp only [List.length_append, List.length_singleton] at this
      omega
    · exact h2
  have hstaging : ¬ s.serverlessDir <+: stagingPath s w := fun hp =>
    hns (List.IsPrefix.trans hp (List.prefix_append _ _))
  have hA : ∀ rel, ¬ stagingPath s w <+: s.serverlessDir ++ rel := by
    intro rel hp
    have := not_staging_prefix_install s w [] rel hstaging
    simp only [List.append_nil] at this
    exact this hp
  -- the state after the interpreter is moved in
  have hmove : ∃ fsE : FS,
      (match (match st.nodeFileName with
          | some _ =>
            osRename fsD
              (if st.goos = utf8 "win" then filepathJoin st.tmp [st.nodeDir, st.nodeBin]
                else filepathJoin st.tmp [st.nodeDir, utf8 "bin", st.nodeBin])
              (s.serverlessDir ++ [st.nodeBin])
          | none => (fsD, none)) with
        | (fs3, some err) => (fs3, some err)
        | (fs3, none) => ((osRemoveAll fs3 st.tmp).1, none))
        = ((osRemoveAll fsE st.tmp).1, none) ∧
      ((st.nodeFileName = none ∧ fsE = fsD) ∨
        (st.nodeFileName ≠ none ∧ fsE = fsD.moveTree
          (if st.goos = utf8 "win" then filepathJoin st.tmp [st.nodeDir, st.nodeBin]
            else filepathJoin st.tmp [st.nodeDir, utf8 "bin", st.nodeBin])
          (s.serverlessDir ++ [st.nodeBin]))) := by
    rcases hnf : st.nodeFileName with _ | file
    · exact ⟨fsD, rfl, Or.inl ⟨rfl, rfl⟩⟩
    · rw [hnf] at h
      dsimp only at h ⊢
      have hrn2 := osRename_ok fsD
        (if st.goos = utf8 "win" then filepathJoin st.tmp [st.nodeDir, st.nodeBin]
          else filepathJoin st.tmp [st.nodeDir, utf8 "bin", st.nodeBin])
        (s.serverlessDir ++ [st.nodeBin])
      rcases hn2 : osRename fsD
        (if st.goos = utf8 "win" then filepathJoin st.tmp [st.nodeDir, st.nodeBin]
          else filepathJoin st.tmp [st.nodeDir, utf8 "bin", st.nodeBin])
        (s.serverlessDir ++ [st.nodeBin]) with ⟨fsE, _ | e⟩
      · rw [hn2] at hrn2
        exact ⟨fsE, rfl, Or.inr ⟨by simp, (hrn2 rfl).1⟩⟩
      · rw [hn2] at h
        simp at h
  obtain ⟨fsE, hres, hfsE⟩ := hmove
  rw [hres]
  dsimp only
  have hsrcpre : stagingPath s w <+:
      (if st.goos = utf8 "win" then filepathJoin st.tmp [st.nodeDir, st.nodeBin]
        else filepathJoin st.tmp [st.nodeDir, utf8 "bin", st.nodeBin]) := by
    rw [htmp]
    split_ifs <;> exact filepathJoin_extends _ _
  -- outside the temporary directory the final removal changes nothing
  have hfinal : ∀ q, ¬ stagingPath s w <+: q → (osRemoveAll fsE st.tmp).1 q = fsE q := by
    intro q hq
    rcases osRemoveAll_fst fsE st.tmp with h1 | ⟨h1, _⟩
    · rw [h1]
    · rw [h1, htmp]
      exact FS.removeTree_other _ _ _ hq
  -- a path that is neither in the install directory nor in the temporary directory
  have hshort : ∀ q, q.length < s.serverlessDir.length →
      (osRemoveAll fsE st.tmp).1 q = fsC q := by
    intro q hq
    rw [hfinal q (not_prefix_of_length_lt _ _ (by omega))]
    have hD : fsD q = fsC q := by
      rw [hfsD]
      apply FS.moveTree_other
      · exact not_prefix_of_length_lt _ _ hq
      · apply not_prefix_of_length_lt
        simp only [List.length_append, List.length_singleton]
        omega
    rcases hfsE with ⟨_, h2⟩ | ⟨_, h2⟩
    · rw [h2, hD]
    · rw [h2, FS.moveTree_other, hD]
      · apply not_prefix_of_length_lt
        simp only [List.length_append, List.length_singleton]
        omega
      · apply not_prefix_of_length_lt
        have := List.IsPrefix.length_le hsrcpre
        omega
  have hstaged : ∀ rel, fsC (stagingPath s w ++ [utf8 "sandbox"] ++ rel)
      = fs (stagingPath s w ++ [utf8 "sandbox"] ++ rel) := by
    intro rel
    rw [hfsC]
    apply FS.removeTree_other
    rw [List.append_assoc]
    have := not_install_prefix_staging s w ([utf8 "sandbox"] ++ rel) [] hstaging
    simpa using this
  refine ⟨hstaging, hsd, ⟨pm, ?_⟩, ⟨n0, ?_⟩, ?_, ?_⟩
  · rw [← hparent]
    apply FS.lookup_congr
    intro q hq
    apply hshort
    have := List.IsPrefix.length_le hq
    have h0 : 0 < s.serverlessDir.length := List.length_pos.mpr hsd
    simp only [List.length_dropLast] at this
    omega
  · have := FS.lookup_ok_self _ _ _ hsrc
    have h2 := hstaged []
    simp only [List.append_nil] at h2
    rw [← h2]
    exact this
  · intro rel hrel
    rw [hfinal _ (hA rel)]
    have hD : fsD (s.serverlessDir ++ rel) = fs (stagingPath s w ++ [utf8 "sandbox"] ++ rel) := by
      rw [hfsD, FS.moveTree_new, hstaged]
    rcases hfsE with ⟨_, h2⟩ | ⟨h1, h2⟩
    · rw [h2, hD]
    · rw [h2, FS.moveTree_other, hD]
      · rcases hrel with h3 | h3
        · exact absurd h3 h1
        · intro hp
          rw [List.prefix_append_right_inj] at hp
          exact h3 hp
      · intro hp
        exact hA rel (List.IsPrefix.trans hsrcpre hp)
  · intro hnf hdir rel
    rcases hfsE with ⟨h1, _⟩ | ⟨_, h2⟩
    · exact absurd h1 hnf
    · have hq := hA ([st.nodeBin] ++ rel)
      rw [← List.append_assoc] at hq
      rw [hfinal _ hq, h2, FS.moveTree_new, hfsD]
      obtain ⟨t, ht⟩ := nodeSource_eq st hdir
      rw [ht, htmp]
      rw [FS.moveTree_other, hfsC, FS.removeTree_other]
      · have := not_install_prefix_staging s w (st.nodeDir :: t ++ rel) [] hstaging
        simpa using this
      · have := not_install_prefix_staging s w (st.nodeDir :: t ++ rel) [] hstaging
        simpa using this
      · rw [List.append_assoc]
        have hne : utf8 "sandbox" ≠ st.nodeDir := by
          rw [hdir]
          exact nodeDirName_ne_sandbox _ _
        have := not_prefix_append_of_ne (stagingPath s w) (utf8 "sandbox") st.nodeDir
          (t ++ rel) hne
        simpa using this

theorem mkdirAllFrom_of_walk (perm : Nat) (fs : FS) (cur : Path) (rest : List GoString)
    (pm : Nat) (h : fs.walk cur rest = Except.ok (Node.dir pm)) :
    mkdirAllFrom perm fs cur rest = Except.ok fs := by
  induction rest generalizing cur with
  | nil => rfl
  | cons c r ih =>
    simp only [FS.walk] at h
    rcases hc : fs cur with _ | (_ | p)
    · simp [hc] at h
    · simp [hc] at h
    · simp only [hc] at h
      have hnext : ∃ p1, fs (cur ++ [c]) = some (Node.dir p1) := by
        cases r with
        | nil =>
          simp only [FS.walk] at h
          rcases hx : fs (cur ++ [c]) with _ | n
          · simp [hx] at h
          · simp only [hx, Except.ok.injEq] at h
            exact ⟨pm, by rw [h]⟩
        | cons d r2 =>
          simp only [FS.walk] at h
          rcases hx : fs (cur ++ [c]) with _ | (_ | p1)
          · simp [hx] at h
          · simp [hx] at h
          · exact ⟨p1, rfl⟩
      obtain ⟨p1, hp1⟩ := hnext
      simp only [mkdirAllFrom, hp1]
      exact ih _ h

theorem mkdirAllFrom_append (perm : Nat) (fs : FS) (cur : Path) (a b : List GoString)
    (pm : Nat) (h : fs.walk cur a = Except.ok (Node.dir pm)) :
    mkdirAllFrom perm fs cur (a ++ b) = mkdirAllFrom perm fs (cur ++ a) b := by
  induction a generalizing cur with
  | nil => simp
  | cons c r ih =>
    simp only [FS.walk] at h
    rcases hc : fs cur with _ | (_ | p)
    · simp [hc] at h
    · simp [hc] at h
    · simp only [hc] at h
      have hnext : ∃ p1, fs (cur ++ [c]) = some (Node.dir p1) := by
        cases r with
        | nil =>
          simp only [FS.walk] at h
          rcases hx : fs (cur ++ [c]) with _ | n
          · simp [hx] at h
          · simp only [hx, Except.ok.injEq] at h
            exact ⟨pm, by rw [h]⟩
        | cons d r2 =>
          simp only [FS.walk] at h
          rcases hx : fs (cur ++ [c]) with _ | (_ | p1)
          · simp [hx] at h
          · simp [hx] at h
          · exact ⟨p1, rfl⟩
      obtain ⟨p1, hp1⟩ := hnext
      simp only [List.cons_append, mkdirAllFrom, hp1]
      have := ih (cur ++ [c]) h
      have e : cur ++ [c] ++ r = cur ++ c :: r := by simp
      rw [e] at this
      exact this

/-- Making a directory that is missing in a directory that resolves adds just that one. -/
theorem osMkdirAll_new_leaf (fs : FS) (d : Path) (x : GoString) (perm pm : Nat)
    (hd : fs.lookup d = Except.ok (Node.dir pm)) (hx : fs (d ++ [x]) = none) :
    osMkdirAll fs (d ++ [x]) perm = (fs.set (d ++ [x]) (Node.dir perm), none) := by
  have hroot : ∃ p0, fs [] = some (Node.dir p0) := by
    cases d with
    | nil =>
      exact ⟨pm, FS.lookup_ok_self fs [] _ hd⟩
    | cons c r =>
      unfold FS.lookup at hd
      simp only [FS.walk] at hd
      rcases h0 : fs [] with _ | (_ | p0)
      · simp [h0] at hd
      · simp [h0] at hd
      · exact ⟨p0, rfl⟩
  obtain ⟨p0, hp0⟩ := hroot
  unfold osMkdirAll
  simp only [hp0]
  have := mkdirAllFrom_append perm fs [] d [x] pm hd
  simp only [List.nil_append] at this
  rw [this]
  simp [mkdirAllFrom, hx]

theorem InstallServerless_fetch_ok (s : serverlessService) (w : World) (env : Env)
    (m : Machine) (L : GoString) (upgrading : Bool) (st : Staging)
    (h : (installFetch s w env m upgrading).2 = Except.ok st) :
    InstallServerless s w env m L upgrading
      = match installRelocate s (installFetch s w env m upgrading).1.fs L upgrading st with
        | (fs2, Relocated.failed err) =>
          ({ fs := fs2, requests := (installFetch s w env m upgrading).1.requests }, some err)
        | (fs2, Relocated.returnedNil) =>
          ({ fs := fs2, requests := (installFetch s w env m upgrading).1.requests }, none)
        | (fs2, Relocated.ready) =>
          match installActivate s fs2 st with
          | (fs3, err) =>
            ({ fs := fs3, requests := (installFetch s w env m upgrading).1.requests }, err) := by
  unfold InstallServerless
  rcases hf : installFetch s w env m upgrading with ⟨m1, e1 | st1⟩
  · rw [hf] at h
    simp at h
  · rw [hf] at h
    simp only [Except.ok.injEq] at h
    subst h
    rfl

theorem InstallServerless_nil_fetch (s : serverlessService) (w : World) (env : Env)
    (m : Machine) (L : GoString) (upgrading : Bool)
    (h : (InstallServerless s w env m L upgrading).2 = none) :
    ∃ st, (installFetch s w env m upgrading).2 = Except.ok st := by
  rcases hf : (installFetch s w env m upgrading).2 with e | st
  · rw [InstallServerless_fetch_error s w env m L upgrading e hf] at h
    simp at h
  · exact ⟨st, rfl⟩

theorem targetNames_nodeBin_ne (goos0 arch0 goos arch nodeBin : GoString)
    (h : targetNames goos0 arch0 = Except.ok (goos, arch, nodeBin)) :
    nodeBin ≠ [] ∧ nodeBin ≠ credsDir ∧ nodeBin ≠ utf8 "version" := by
  obtain ⟨h1, _, _⟩ := targetNames_ok _ _ _ _ _ h
  rw [h1]
  split_ifs
  · exact ⟨by decide, by decide, by decide⟩
  · exact ⟨by decide, by decide, by decide⟩

theorem not_singleton_prefix_cons {α : Type} (x y : α) (rel : List α) (h : x ≠ y) :
    ¬ [x] <+: y :: rel := by
  intro hp
  obtain ⟨t, ht⟩ := hp
  simp only [List.singleton_append, List.cons.injEq] at ht
  exact h ht.1

/-- Resolution of a name in a directory that resolves. -/
theorem FS.lookup_snoc (fs : FS) (d : Path) (x : GoString) (pm : Nat)
    (h : fs.lookup d = Except.ok (Node.dir pm)) :
    fs.lookup (d ++ [x])
      = match fs (d ++ [x]) with
        | some n => Except.ok n
        | none => Except.error Errno.ENOENT := by
  have := FS.walk_snoc fs [] d x pm h
  simpa [FS.lookup] using this

theorem FS.lookup_of_parent (fs : FS) (p : Path) (pm : Nat) (n : Node) (hp : p ≠ [])
    (h : fs.lookup p.dropLast = Except.ok (Node.dir pm)) (hn : fs p = some n) :
    fs.lookup p = Except.ok n := by
  have e : p.dropLast ++ [p.getLast hp] = p := List.dropLast_append_getLast hp
  have := FS.lookup_snoc fs p.dropLast (p.getLast hp) pm h
  rw [e, hn] at this
  exact this

/-! ### Facts about the sample install -/

theorem sampleStaged_eq :
    (installFetch sampleService sampleWorld (sampleEnv [])
      { fs := sampleHomeFS, requests := [] } false).1.fs = sampleStagedFS := by
  rfl

theorem sampleStaged_no_creds (rel : Path) :
    (installFetch sampleService sampleWorld (sampleEnv [])
      { fs := sampleHomeFS, requests := [] } false).1.fs
      (stagingPath sampleService sampleWorld ++ [utf8 "sandbox", credsDir] ++ rel) = none := by
  rw [sampleStaged_eq]
  have hp : stagingPath sampleService sampleWorld = [utf8 "home", utf8 "sbx-install123"] := by
    decide
  rw [hp]
  have h1 : utf8 "sandbox" ≠ utf8 "node-v16.13.0-linux-x64" := by decide
  have h2 : utf8 "sandbox" ≠ utf8 "node-install.tar.gz" := by decide
  have h3 : utf8 "sandbox" ≠ utf8 "doctl-sandbox.tar.gz" := by decide
  have h4 : credsDir ≠ utf8 "version" := by decide
  have h5 : credsDir ≠ utf8 "sandbox.js" := by decide
  have h6 : utf8 "sbx-install123" ≠ utf8 "home" := by decide
  simp [sampleStagedFS, FS.graft, FS.set, sampleNodeTree, sampleBundleTree, sampleHomeFS,
    h1, h2, h3, h4, h5]

/-! ## Claim C15 -/

/-- C15: the install directory is reported as not existing, so `CheckServerlessStatus`
returns `ErrServerlessNotInstalled` for every token scope.  The bundle, as it lies unpacked in
the temporary directory, has in `sandbox` a version file whose content is at or above the
minimum, and nothing at or below `sandbox/creds`.  Then, after `InstallServerless L false`
has returned nil, the install directory resolves to a directory, its `creds` resolves to a
directory with nothing below it, and `CheckServerlessStatus` returns
`ErrServerlessNotConnected` for every token scope. -/
theorem C15_fresh_install (s : serverlessService) (w : World) (env : Env) (m : Machine)
    (L v : GoString)
    (hnone : osIsNotExist (osStat m.fs s.serverlessDir).2 = true)
    (hversion : osReadFile (installFetch s w env m false).1.fs
      (stagingPath s w ++ [utf8 "sandbox", utf8 "version"]) = (v, none))
    (hmin : goStringGe v (GetMinServerlessVersion env) = true)
    (hnocreds : ∀ rel, (installFetch s w env m false).1.fs
      (stagingPath s w ++ [utf8 "sandbox", credsDir] ++ rel) = none)
    (hrun : (InstallServerless s w env m L false).2 = none) :
    (∀ L1, CheckServerlessStatus s env m.fs L1 = some ErrServerlessNotInstalled) ∧
    (∃ pm, (InstallServerless s w env m L false).1.fs.lookup s.serverlessDir
      = Except.ok (Node.dir pm)) ∧
    (∃ pm, (InstallServerless s w env m L false).1.fs.lookup (s.serverlessDir ++ [credsDir])
      = Except.ok (Node.dir pm)) ∧
    (∀ rel, rel ≠ [] →
      (InstallServerless s w env m L false).1.fs (s.serverlessDir ++ [credsDir] ++ rel) = none) ∧
    (∀ L1, CheckServerlessStatus s env (InstallServerless s w env m L false).1.fs L1
      = some ErrServerlessNotConnected) := by
  refine ⟨?_, ?_⟩
  · intro L1
    unfold CheckServerlessStatus
    rw [if_pos hnone]
  obtain ⟨st, hf⟩ := InstallServerless_nil_fetch s w env m L false hrun
  obtain ⟨htmp, hnames, _, _, hnode⟩ := installFetch_ok s w env m false st hf
  obtain ⟨hbin, hbinc, hbinv⟩ := targetNames_nodeBin_ne _ _ _ _ _ hnames
  have hcreds_ne : credsDir ≠ [] := by decide
  -- the staged sandbox is a directory holding the version file
  have hlookv : ∃ pv, (installFetch s w env m false).1.fs.lookup
      (stagingPath s w ++ [utf8 "sandbox"] ++ [utf8 "version"]) = Except.ok (Node.file pv v) := by
    unfold osReadFile at hversion
    have e : stagingPath s w ++ [utf8 "sandbox", utf8 "version"]
        = stagingPath s w ++ [utf8 "sandbox"] ++ [utf8 "version"] := by simp
    rw [e] at hversion
    rcases hl : (installFetch s w env m false).1.fs.lookup
      (stagingPath s w ++ [utf8 "sandbox"] ++ [utf8 "version"]) with e1 | (⟨pv, d⟩ | pd)
    · rw [hl] at hversion
      simp at hversion
    · rw [hl] at hversion
      simp only [Prod.mk.injEq, and_true] at hversion
      exact ⟨pv, by rw [hversion]⟩
    · rw [hl] at hversion
      simp at hversion
  obtain ⟨pv, hlookv⟩ := hlookv
  obtain ⟨psb, hsbdir⟩ := FS.lookup_ok_init _ (stagingPath s w ++ [utf8 "sandbox"])
    [utf8 "version"] _ (by simp) hlookv
  have hnc0 : (installFetch s w env m false).1.fs
      (stagingPath s w ++ [utf8 "sandbox"] ++ [credsDir]) = none := by
    have := hnocreds []
    simpa using this
  have hmk1 := osMkdirAll_new_leaf (installFetch s w env m false).1.fs
    (stagingPath s w ++ [utf8 "sandbox"]) credsDir 0o700 psb hsbdir hnc0
  -- the run, step by step
  have hIS := InstallServerless_fetch_ok s w env m L false st hf
  have hp1 : filepathJoin (filepathJoin st.tmp [utf8 "sandbox"]) [credsDir]
      = stagingPath s w ++ [utf8 "sandbox"] ++ [credsDir] := by
    rw [htmp, filepathJoin_single _ (utf8 "sandbox") (by decide),
      filepathJoin_single _ credsDir hcreds_ne]
  unfold installRelocate at hIS
  dsimp only at hIS
  rw [hp1, hmk1] at hIS
  simp only [Bool.false_eq_true, if_false] at hIS
  have hchange := osMkdirAll_change
    ((installFetch s w env m false).1.fs.set
      (stagingPath s w ++ [utf8 "sandbox"] ++ [credsDir]) (Node.dir 0o700))
    s.serverlessDir 0o755
  rcases hmk2 : osMkdirAll
    ((installFetch s w env m false).1.fs.set
      (stagingPath s w ++ [utf8 "sandbox"] ++ [credsDir]) (Node.dir 0o700))
    s.serverlessDir 0o755 with ⟨fsB, _ | e2⟩
  swap
  · rw [hmk2] at hIS
    rw [hIS] at hrun
    simp at hrun
  rw [hmk2] at hIS hchange
  dsimp only at hIS hchange
  rw [hIS] at hrun ⊢
  dsimp only at hrun ⊢
  obtain ⟨hstaging, hsd, ⟨pp, hparent⟩, _, hin, _⟩ :=
    installActivate_ok s w fsB st htmp hbin hrun
  -- the staged tree when the activation starts
  have hB : ∀ rel, fsB (stagingPath s w ++ [utf8 "sandbox"] ++ rel)
      = ((installFetch s w env m false).1.fs.set
          (stagingPath s w ++ [utf8 "sandbox"] ++ [credsDir]) (Node.dir 0o700))
          (stagingPath s w ++ [utf8 "sandbox"] ++ rel) := by
    intro rel
    rcases hchange (stagingPath s w ++ [utf8 "sandbox"] ++ rel) with h1 | ⟨_, h2, _⟩
    · exact h1
    · exfalso
      have h3 := List.IsPrefix.length_le h2
      have h4 := stagingPath_length_eq s w hsd
      simp only [List.length_append, List.length_singleton] at h3
      omega
  have hroot : (installActivate s fsB st).1 s.serverlessDir = some (Node.dir psb) := by
    have h1 := hin [] (Or.inr (by simp))
    have h2 := hB []
    simp only [List.append_nil] at h1 h2
    rw [h1, h2, FS.set_other, FS.lookup_ok_self _ _ _ hsbdir]
    intro e
    have := congrArg List.length e
    simp at this
  have hlsd : (installActivate s fsB st).1.lookup s.serverlessDir
      = Except.ok (Node.dir psb) :=
    FS.lookup_of_parent _ _ pp _ hsd hparent hroot
  have hcr : (installActivate s fsB st).1 (s.serverlessDir ++ [credsDir])
      = some (Node.dir 0o700) := by
    rw [hin [credsDir] (Or.inr (fun hp => hbinc (by simpa using hp))), hB [credsDir],
      FS.set_self]
  have hlcr : (installActivate s fsB st).1.lookup (s.serverlessDir ++ [credsDir])
      = Except.ok (Node.dir 0o700) := by
    rw [FS.lookup_snoc _ _ _ psb hlsd, hcr]
  have hbelow : ∀ rel, rel ≠ [] →
      (installActivate s fsB st).1 (s.serverlessDir ++ [credsDir] ++ rel) = none := by
    intro rel hrel
    have h1 := hin ([credsDir] ++ rel)
      (Or.inr (not_singleton_prefix_cons _ _ _ hbinc))
    have h2 := hB ([credsDir] ++ rel)
    simp only [← List.append_assoc] at h1 h2
    rw [h1, h2, FS.set_other]
    · have := hnocreds rel
      simpa using this
    · intro e
      have := congrArg List.length e
      simp only [List.length_append, List.length_singleton] at this
      have : rel.length = 0 := by omega
      exact hrel (List.length_eq_zero.mp this)
  have hver : (installActivate s fsB st).1 (s.serverlessDir ++ [utf8 "version"])
      = some (Node.file pv v) := by
    rw [hin [utf8 "version"] (Or.inr (fun hp => hbinv (by simpa using hp))),
      hB [utf8 "version"], FS.set_other, FS.lookup_ok_self _ _ _ hlookv]
    intro e
    have h1 := List.append_cancel_left e
    simp only [List.cons.injEq, and_true] at h1
    exact absurd h1 (by decide)
  refine ⟨⟨psb, hlsd⟩, ⟨_, hlcr⟩, hbelow, ?_⟩
  intro L1
  have hstat : osIsNotExist (osStat (installActivate s fsB st).1 s.serverlessDir).2 = false := by
    unfold osStat
    rw [hlsd]
    rfl
  have hup : serverlessUptodate env (installActivate s fsB st).1 s.serverlessDir = true := by
    unfold serverlessUptodate GetCurrentServerlessVersion osReadFile
    dsimp only
    rw [filepathJoin_single _ _ (by decide), FS.lookup_snoc _ _ _ psb hlsd, hver]
    exact hmin
  have hconn : isServerlessConnected (installActivate s fsB st).1 L1 s.serverlessDir
      = false := by
    unfold isServerlessConnected GetCredentialDirectory
    dsimp only
    have hpath : filepathJoin (filepathJoin s.serverlessDir [credsDir, L1]) [CredentialsFile]
        = s.serverlessDir ++ [credsDir] ++
            ([L1].filter (fun e => e ≠ []) ++ [CredentialsFile]) := by
      rw [filepathJoin_cons _ _ _ hcreds_ne, filepathJoin_single _ _ (by decide)]
      simp
    rw [hpath]
    unfold osStat
    rw [FS.lookup_append _ _ _ 0o700 hlcr,
      FS.walk_none _ _ _ (fun rel hrel => hbelow rel hrel) (by simp) 0o700 hcr]
    rfl
  unfold CheckServerlessStatus
  rw [hstat, hup, hconn]
  rfl

/-- C15 on the sample world, for an install under `/home/.sandbox` on a filesystem holding
`/home` alone, with the bundle of the version `4.1.0-1.3.0`. -/
theorem C15_fresh_install_witness :
    (∀ L1, CheckServerlessStatus sampleService (sampleEnv []) sampleHomeFS L1
      = some ErrServerlessNotInstalled) ∧
    (∃ pm, (InstallServerless sampleService sampleWorld (sampleEnv [])
      { fs := sampleHomeFS, requests := [] } (utf8 "tok") false).1.fs.lookup
        sampleService.serverlessDir = Except.ok (Node.dir pm)) ∧
    (∃ pm, (InstallServerless sampleService sampleWorld (sampleEnv [])
      { fs := sampleHomeFS, requests := [] } (utf8 "tok") false).1.fs.lookup
        (sampleService.serverlessDir ++ [credsDir]) = Except.ok (Node.dir pm)) ∧
    (∀ rel, rel ≠ [] →
      (InstallServerless sampleService sampleWorld (sampleEnv [])
        { fs := sampleHomeFS, requests := [] } (utf8 "tok") false).1.fs
        (sampleService.serverlessDir ++ [credsDir] ++ rel) = none) ∧
    (∀ L1, CheckServerlessStatus sampleService (sampleEnv [])
      (InstallServerless sampleService sampleWorld (sampleEnv [])
        { fs := sampleHomeFS, requests := [] } (utf8 "tok") false).1.fs L1
      = some ErrServerlessNotConnected) :=
  C15_fresh_install sampleService sampleWorld (sampleEnv [])
    { fs := sampleHomeFS, requests := [] } (utf8 "tok") (utf8 "4.1.0-1.3.0")
    (by decide) (by decide) (by decide) sampleStaged_no_creds (by decide)

/-! ## Claim C12 -/

/-- C12, the failing case in general: not upgrading, the first part of the installer has
succeeded, and `os.MkdirAll` of the empty credentials directory in the staged tree fails.
Then `InstallServerless` returns nil, with the filesystem as the first part left it: the
error is dropped and nothing is installed. -/
theorem C12_mkdir_error_returns_nil (s : serverlessService) (w : World) (env : Env)
    (m : Machine) (L : GoString) (st : Staging)
    (hfetch : (installFetch s w env m false).2 = Except.ok st)
    (hmk : (osMkdirAll (installFetch s w env m false).1.fs
      (filepathJoin (filepathJoin st.tmp [utf8 "sandbox"]) [credsDir]) 0o700).2 ≠ none) :
    InstallServerless s w env m L false = ((installFetch s w env m false).1, none) := by
  rw [InstallServerless_fetch_ok s w env m L false st hfetch]
  unfold installRelocate
  dsimp only
  simp only [Bool.false_eq_true, if_false]
  rcases hr : osMkdirAll (installFetch s w env m false).1.fs
    (filepathJoin (filepathJoin st.tmp [utf8 "sandbox"]) [credsDir]) 0o700 with ⟨fs1, _ | e⟩
  · rw [hr] at hmk
    exact absurd rfl hmk
  · have h1 := osMkdirAll_err (installFetch s w env m false).1.fs
      (filepathJoin (filepathJoin st.tmp [utf8 "sandbox"]) [credsDir]) 0o700 e (by rw [hr])
    rw [hr] at h1
    dsimp only at h1 ⊢
    rw [h1]

/-- C12 at the failing input: a fresh install under `/home/.sandbox` on a filesystem holding
`/home` alone, with a bundle in which `sandbox/creds` is a regular file.  `os.MkdirAll` of
the empty credentials directory fails with `ENOTDIR`; `InstallServerless` returns nil; there
is no install directory afterwards, and `CheckServerlessStatus` returns
`ErrServerlessNotInstalled`. -/
theorem C12_mkdir_error_returns_nil_witness :
    (osMkdirAll (installFetch sampleService sampleBadBundleWorld (sampleEnv [])
        { fs := sampleHomeFS, requests := [] } false).1.fs
      [utf8 "home", utf8 "sbx-install123", utf8 "sandbox", utf8 "creds"] 0o700).2
      = some (GoError.pathError (utf8 "mkdir")
          [utf8 "home", utf8 "sbx-install123", utf8 "sandbox", utf8 "creds"] Errno.ENOTDIR) ∧
    (InstallServerless sampleService sampleBadBundleWorld (sampleEnv [])
      { fs := sampleHomeFS, requests := [] } (utf8 "tok") false).2 = none ∧
    (InstallServerless sampleService sampleBadBundleWorld (sampleEnv [])
      { fs := sampleHomeFS, requests := [] } (utf8 "tok") false).1.fs
      [utf8 "home", utf8 ".sandbox"] = none ∧
    CheckServerlessStatus sampleService (sampleEnv [])
      (InstallServerless sampleService sampleBadBundleWorld (sampleEnv [])
        { fs := sampleHomeFS, requests := [] } (utf8 "tok") false).1.fs (utf8 "tok")
      = some ErrServerlessNotInstalled :=
  ⟨by decide,
    congrArg Prod.snd (C12_mkdir_error_returns_nil sampleService sampleBadBundleWorld
      (sampleEnv []) { fs := sampleHomeFS, requests := [] } (utf8 "tok") sampleStaging rfl
      (by decide)),
    by decide, by decide⟩

/-! ### Facts about the relocation of credentials -/

/-- When `PreserveCreds` returns an error, it has changed nothing, except for directories it
may have made on the way to the credentials directory of the staged tree. -/
theorem PreserveCreds_err_frame (fs : FS) (L : GoString) (stagingDir sd : Path)
    (h : (PreserveCreds fs L stagingDir sd).2 ≠ none) (q : Path)
    (hq : ¬ q <+: filepathJoin stagingDir [credsDir]) :
    (PreserveCreds fs L stagingDir sd).1 q = fs q := by
  unfold PreserveCreds at h ⊢
  dsimp only at h ⊢
  have h1 := osRename_err fs (filepathJoin sd [credsDir])
    (filepathJoin stagingDir [credsDir])
  rcases hr : osRename fs (filepathJoin sd [credsDir])
    (filepathJoin stagingDir [credsDir]) with ⟨fs1, _ | e⟩
  · rw [hr] at h
    exact absurd rfl h
  · rw [hr] at h h1
    have hfs1 : fs1 = fs := h1 e rfl
    subst hfs1
    dsimp only at h ⊢
    by_cases hne : (!errorsIsNotExist e) = true
    · rw [if_pos hne]
    · rw [if_neg hne] at h ⊢
      have hch := osMkdirAll_change fs1 (filepathJoin stagingDir [credsDir]) 0o700 q
      rcases hm : osMkdirAll fs1 (filepathJoin stagingDir [credsDir]) 0o700 with ⟨fs2, _ | e2⟩
      · rw [hm] at h hch
        dsimp only at h hch ⊢
        have hfs2 : fs2 q = fs1 q := by
          rcases hch with h2 | ⟨_, h2, _⟩
          · exact h2
          · exact absurd h2 hq
        have h3 := osRename_err fs2 (filepathJoin sd [utf8 ".nimbella"])
          (GetCredentialDirectory L stagingDir)
        rcases hr2 : osRename fs2 (filepathJoin sd [utf8 ".nimbella"])
          (GetCredentialDirectory L stagingDir) with ⟨fs3, _ | e3⟩
        · rw [hr2] at h
          exact absurd rfl h
        · rw [hr2] at h3
          have : fs3 = fs2 := h3 e3 rfl
          rw [this]
          exact hfs2
      · rw [hm] at hch
        dsimp only at hch ⊢
        rcases hch with h2 | ⟨_, h2, _⟩
        · exact h2
        · exact absurd h2 hq

/-! ### Facts about an upgrade that returns nil -/

theorem dropLast_filepathJoin_single (dir : Path) (name : GoString) (h : name ≠ []) :
    (filepathJoin dir [name]).dropLast = dir := by
  rw [filepathJoin_single dir name h]
  simp

/-- With credentials at the new-style location and a staged tree to take them, a
`PreserveCreds` that returns nil has moved the credentials directory as a whole. -/
theorem PreserveCreds_new_style (fs : FS) (L : GoString) (stagingDir sd : Path)
    (n nb : Node) (hc : fs.lookup (filepathJoin sd [credsDir]) = Except.ok n)
    (hs : fs.lookup stagingDir = Except.ok nb)
    (h : (PreserveCreds fs L stagingDir sd).2 = none) :
    (PreserveCreds fs L stagingDir sd).1
      = fs.moveTree (filepathJoin sd [credsDir]) (filepathJoin stagingDir [credsDir]) := by
  unfold PreserveCreds at h ⊢
  dsimp only at h ⊢
  have hok := osRename_ok fs (filepathJoin sd [credsDir])
    (filepathJoin stagingDir [credsDir])
  have hne := osRename_notExist fs (filepathJoin sd [credsDir])
    (filepathJoin stagingDir [credsDir])
  rcases hr : osRename fs (filepathJoin sd [credsDir])
    (filepathJoin stagingDir [credsDir]) with ⟨fs1, _ | e⟩
  · rw [hr] at hok
    exact (hok rfl).1
  · exfalso
    rw [hr] at h hne
    dsimp only at h
    by_cases hx : (!errorsIsNotExist e) = true
    · rw [if_pos hx] at h
      simp at h
    · simp only [Bool.not_eq_true', Bool.not_eq_false] at hx
      rcases hne e rfl hx with h1 | h1
      · rw [hc] at h1
        simp at h1
      · rw [dropLast_filepathJoin_single _ _ (by decide), hs] at h1
        simp at h1

/-- Without credentials at the new-style location, a `PreserveCreds` that returns nil has
made the credentials directory of the staged tree and moved the legacy directory, which
existed, to the leaf of the token scope. -/
theorem PreserveCreds_legacy (fs : FS) (L : GoString) (stagingDir sd : Path)
    (e : Errno) (hc : fs.lookup (filepathJoin sd [credsDir]) = Except.error e)
    (h : (PreserveCreds fs L stagingDir sd).2 = none) :
    ∃ fsM : FS,
      (∀ q, fsM q = fs q ∨ (fs q = none ∧ q <+: filepathJoin stagingDir [credsDir])) ∧
      (∃ n, fsM (filepathJoin sd [utf8 ".nimbella"]) = some n) ∧
      (PreserveCreds fs L stagingDir sd).1
        = fsM.moveTree (filepathJoin sd [utf8 ".nimbella"])
            (GetCredentialDirectory L stagingDir) := by
  unfold PreserveCreds at h ⊢
  dsimp only at h ⊢
  rw [osRename_lookup_error fs _ _ e hc] at h ⊢
  dsimp only at h ⊢
  by_cases hx : (!errorsIsNotExist (GoError.linkError (utf8 "rename")
      (filepathJoin sd [credsDir]) (filepathJoin stagingDir [credsDir]) e)) = true
  · rw [if_pos hx] at h
    simp at h
  · rw [if_neg hx] at h ⊢
    have hch := osMkdirAll_change fs (filepathJoin stagingDir [credsDir]) 0o700
    rcases hm : osMkdirAll fs (filepathJoin stagingDir [credsDir]) 0o700 with ⟨fsM, _ | e2⟩
    · rw [hm] at h hch
      dsimp only at h hch ⊢
      obtain ⟨h1, ⟨n, h2⟩, _⟩ := osRename_ok fsM
        (filepathJoin sd [utf8 ".nimbella"]) (GetCredentialDirectory L stagingDir) h
      refine ⟨fsM, ?_, ⟨n, FS.lookup_ok_self _ _ _ h2⟩, h1⟩
      intro q
      rcases hch q with h3 | ⟨h3, h4, _⟩
      · exact Or.inl h3
      · exact Or.inr ⟨h3, h4⟩
    · rw [hm] at h
      simp at h

/-- An upgrade that returns nil has gone through the activation. -/
theorem InstallServerless_nil_upgrade (s : serverlessService) (w : World) (env : Env)
    (m : Machine) (L : GoString) (st : Staging)
    (hf : (installFetch s w env m true).2 = Except.ok st)
    (h : (InstallServerless s w env m L true).2 = none) :
    ∃ fsP fs2 : FS,
      PreserveCreds (installFetch s w env m true).1.fs L
        (filepathJoin st.tmp [utf8 "sandbox"]) s.serverlessDir = (fsP, none) ∧
      ((st.nodeFileName = none ∧
          fs2 = fsP.moveTree (filepathJoin s.serverlessDir [st.nodeBin])
            (filepathJoin (filepathJoin st.tmp [utf8 "sandbox"]) [st.nodeBin])) ∨
        (st.nodeFileName ≠ none ∧ fs2 = fsP)) ∧
      (installActivate s fs2 st).2 = none ∧
      (InstallServerless s w env m L true).1.fs = (installActivate s fs2 st).1 := by
  rw [InstallServerless_fetch_ok s w env m L true st hf] at h ⊢
  unfold installRelocate at h ⊢
  dsimp only at h ⊢
  simp only [if_true] at h ⊢
  rcases hp : PreserveCreds (installFetch s w env m true).1.fs L
    (filepathJoin st.tmp [utf8 "sandbox"]) s.serverlessDir with ⟨fsP, _ | e1⟩
  · rw [hp] at h
    dsimp only at h ⊢
    rcases hnf : st.nodeFileName with _ | file
    · rw [hnf] at h
      dsimp only at h ⊢
      unfold moveExistingNode at h ⊢
      dsimp only at h ⊢
      have hok := osRename_ok fsP (filepathJoin s.serverlessDir [st.nodeBin])
        (filepathJoin (filepathJoin st.tmp [utf8 "sandbox"]) [st.nodeBin])
      rcases hr : osRename fsP (filepathJoin s.serverlessDir [st.nodeBin])
        (filepathJoin (filepathJoin st.tmp [utf8 "sandbox"]) [st.nodeBin]) with ⟨fsN, _ | e2⟩
      · rw [hr] at h hok
        dsimp only at h ⊢
        exact ⟨fsP, fsN, rfl, Or.inl ⟨rfl, (hok rfl).1⟩, h, rfl⟩
      · rw [hr] at h
        simp at h
    · rw [hnf] at h
      dsimp only at h ⊢
      exact ⟨fsP, fsP, rfl, Or.inr ⟨by simp, rfl⟩, h, rfl⟩
  · rw [hp] at h
    simp at h

/-! ## Claim C13 -/

/-- C13, counterexample, in two parts.  First, the upgrade of the install under
`/home/.sandbox`, whose credentials are under `creds` and whose interpreter `node16` can be
reused, returns nil; afterwards the interpreter binary in the install directory is the one
the old install had, while the staged bundle holds no `node` at all.  Second, when the
bundle unpacks no `sandbox` and the install also has a legacy directory `.nimbella`, the
upgrade returns nil as well, but the credentials of the token scope `other` are gone and the
leaf `creds/tok` holds the legacy file. -/
theorem C13_reused_interpreter_counterexample :
    (sampleUpgradeFS.lookup [utf8 "home", utf8 ".sandbox", utf8 "creds"]
        = Except.ok (Node.dir 448) ∧
      (InstallServerless sampleService sampleWorld (sampleEnv [])
        { fs := sampleUpgradeFS, requests := [] } (utf8 "tok") true).2 = none ∧
      (InstallServerless sampleService sampleWorld (sampleEnv [])
        { fs := sampleUpgradeFS, requests := [] } (utf8 "tok") true).1.fs
        [utf8 "home", utf8 ".sandbox", utf8 "node"] = some (Node.file 493 (utf8 "node16")) ∧
      sampleUpgradeFS [utf8 "home", utf8 ".sandbox", utf8 "node"]
        = some (Node.file 493 (utf8 "node16")) ∧
      sampleBundleTree [utf8 "sandbox", utf8 "node"] = none ∧
      (installFetch sampleService sampleWorld (sampleEnv [])
        { fs := sampleUpgradeFS, requests := [] } true).1.fs
        [utf8 "home", utf8 "sbx-install123", utf8 "sandbox", utf8 "node"] = none) ∧
    (sampleBothFS.lookup [utf8 "home", utf8 ".sandbox", utf8 "creds"]
        = Except.ok (Node.dir 448) ∧
      (InstallServerless sampleService sampleNoSandboxWorld (sampleEnv [])
        { fs := sampleBothFS, requests := [] } (utf8 "tok") true).2 = none ∧
      sampleBothFS [utf8 "home", utf8 ".sandbox", utf8 "creds", utf8 "other",
        utf8 "credentials.json"] = some (Node.file 384 (utf8 "other-credentials")) ∧
      (InstallServerless sampleService sampleNoSandboxWorld (sampleEnv [])
        { fs := sampleBothFS, requests := [] } (utf8 "tok") true).1.fs
        [utf8 "home", utf8 ".sandbox", utf8 "creds", utf8 "other", utf8 "credentials.json"]
        = none ∧
      (InstallServerless sampleService sampleNoSandboxWorld (sampleEnv [])
        { fs := sampleBothFS, requests := [] } (utf8 "tok") true).1.fs
        [utf8 "home", utf8 ".sandbox", utf8 "creds", utf8 "tok", utf8 "credentials.json"]
        = some (Node.file 384 (utf8 "legacy-credentials"))) := by
  refine ⟨⟨by rfl, by decide, by decide, by decide, by decide, by decide⟩,
    ⟨by rfl, by decide, by decide, by decide, by decide⟩⟩

/-- C13, amended: the credentials subtree exists at `<serverlessDir>/creds`, the bundle has
unpacked a `sandbox` in the temporary directory, and `InstallServerless L true` returns nil.
Then the install directory holds under `creds` exactly what it held there before the upgrade,
at every path; the interpreter binary is the one of the old install when it is reused, and
the one of the unpacked interpreter archive when one was downloaded; and every other path of
the install directory holds what the staged bundle holds at it. -/
theorem C13_upgrade_keeps_credentials (s : serverlessService) (w : World) (env : Env)
    (m : Machine) (L : GoString) (st : Staging) (n nb : Node)
    (hfetch : (installFetch s w env m true).2 = Except.ok st)
    (hcreds : m.fs.lookup (s.serverlessDir ++ [credsDir]) = Except.ok n)
    (hbundle : (installFetch s w env m true).1.fs.lookup (stagingPath s w ++ [utf8 "sandbox"])
      = Except.ok nb)
    (hrun : (InstallServerless s w env m L true).2 = none) :
    (∀ rel, (InstallServerless s w env m L true).1.fs (s.serverlessDir ++ [credsDir] ++ rel)
      = m.fs (s.serverlessDir ++ [credsDir] ++ rel)) ∧
    (∀ rel, ¬ [credsDir] <+: rel → ¬ [st.nodeBin] <+: rel →
      (InstallServerless s w env m L true).1.fs (s.serverlessDir ++ rel)
        = (installFetch s w env m true).1.fs (stagingPath s w ++ [utf8 "sandbox"] ++ rel)) ∧
    (st.nodeFileName = none → ∀ rel,
      (InstallServerless s w env m L true).1.fs (s.serverlessDir ++ [st.nodeBin] ++ rel)
        = m.fs (s.serverlessDir ++ [st.nodeBin] ++ rel)) ∧
    (st.nodeFileName ≠ none → ∀ rel,
      (InstallServerless s w env m L true).1.fs (s.serverlessDir ++ [st.nodeBin] ++ rel)
        = (installFetch s w env m true).1.fs
            ((if st.goos = utf8 "win" then filepathJoin st.tmp [st.nodeDir, st.nodeBin]
              else filepathJoin st.tmp [st.nodeDir, utf8 "bin", st.nodeBin]) ++ rel)) := by
  obtain ⟨htmp, hnames, _, _, hnode⟩ := installFetch_ok s w env m true st hfetch
  obtain ⟨hbin, hbinc, _⟩ := targetNames_nodeBin_ne _ _ _ _ _ hnames
  have hcreds_ne : credsDir ≠ [] := by decide
  obtain ⟨fsP, fs2, hP, hfs2, hact, hres⟩ := InstallServerless_nil_upgrade s w env m L st hfetch hrun
  obtain ⟨hstaging, hsd, _, _, hin, hdl⟩ := installActivate_ok s w fs2 st htmp hbin hact
  rw [hres]
  have hframe : ∀ q, s.serverlessDir <+: q → (installFetch s w env m true).1.fs q = m.fs q :=
    fun q hq => installFetch_frame s w env m true q (not_prefix_staging s w q hstaging hq)
  have hsb : filepathJoin st.tmp [utf8 "sandbox"] = stagingPath s w ++ [utf8 "sandbox"] := by
    rw [htmp]
    exact filepathJoin_single _ _ (by decide)
  have hcp : filepathJoin s.serverlessDir [credsDir] = s.serverlessDir ++ [credsDir] :=
    filepathJoin_single _ _ hcreds_ne
  have hrp : filepathJoin (stagingPath s w ++ [utf8 "sandbox"]) [credsDir]
      = stagingPath s w ++ [utf8 "sandbox"] ++ [credsDir] :=
    filepathJoin_single _ _ hcreds_ne
  -- the credentials resolve in the state the first part left
  have hc1 : (installFetch s w env m true).1.fs.lookup (filepathJoin s.serverlessDir [credsDir])
      = Except.ok n := by
    rw [hcp, ← hcreds]
    apply FS.lookup_congr
    intro q hq
    apply installFetch_frame
    intro hp
    have := not_staging_prefix_install s w [] [credsDir] hstaging
    simp only [List.append_nil] at this
    exact this (List.IsPrefix.trans hp hq)
  have hfsP : fsP = (installFetch s w env m true).1.fs.moveTree
      (s.serverlessDir ++ [credsDir]) (stagingPath s w ++ [utf8 "sandbox"] ++ [credsDir]) := by
    have := PreserveCreds_new_style (installFetch s w env m true).1.fs L
      (filepathJoin st.tmp [utf8 "sandbox"]) s.serverlessDir n nb hc1
      (by rw [hsb]; exact hbundle) (by rw [hP])
    rw [hP, hsb, hcp, hrp] at this
    exact this
  -- the staged tree when the activation starts, away from a reused interpreter
  have hfs2P : ∀ rel, ¬ [st.nodeBin] <+: rel →
      fs2 (stagingPath s w ++ [utf8 "sandbox"] ++ rel)
        = fsP (stagingPath s w ++ [utf8 "sandbox"] ++ rel) := by
    intro rel hrel
    rcases hfs2 with ⟨_, h2⟩ | ⟨_, h2⟩
    · rw [h2, hsb, filepathJoin_single _ _ hbin, filepathJoin_single _ _ hbin]
      apply FS.moveTree_other
      · intro hp
        rw [List.prefix_append_right_inj] at hp
        exact hrel hp
      · rw [List.append_assoc]
        exact not_install_prefix_staging s w _ _ hstaging
    · rw [h2]
  refine ⟨?_, ?_, ?_, ?_⟩
  · intro rel
    have hnb : ¬ [st.nodeBin] <+: [credsDir] ++ rel :=
      not_singleton_prefix_cons _ _ _ hbinc
    have h1 := hin ([credsDir] ++ rel) (Or.inr hnb)
    have h2 := hfs2P ([credsDir] ++ rel) hnb
    simp only [← List.append_assoc] at h1 h2
    rw [h1, h2, hfsP, FS.moveTree_new]
    exact hframe _ ⟨[credsDir] ++ rel, by simp⟩
  · intro rel hc hb
    rw [hin rel (Or.inr hb), hfs2P rel hb, hfsP]
    apply FS.moveTree_other
    · intro hp
      rw [List.prefix_append_right_inj] at hp
      exact hc hp
    · rw [List.append_assoc]
      exact not_install_prefix_staging s w _ _ hstaging
  · intro hnf rel
    have h1 := hin ([st.nodeBin] ++ rel) (Or.inl hnf)
    simp only [← List.append_assoc] at h1
    rw [h1]
    rcases hfs2 with ⟨_, h2⟩ | ⟨h3, _⟩
    · rw [h2, hsb, filepathJoin_single _ _ hbin, filepathJoin_single _ _ hbin,
        FS.moveTree_new, hfsP, FS.moveTree_other]
      · exact hframe _ ⟨[st.nodeBin] ++ rel, by simp⟩
      · have := not_staging_prefix_install s w ([utf8 "sandbox"] ++ [credsDir])
          ([st.nodeBin] ++ rel) hstaging
        simpa using this
      · have := not_prefix_append_of_ne s.serverlessDir credsDir st.nodeBin rel
          (fun e => hbinc e.symm)
        simpa using this
    · exact absurd hnf h3
  · intro hnf rel
    have hdir : st.nodeDir = nodeDirName st.goos st.arch := by
      rcases hnode with ⟨h1, _⟩ | ⟨_, h2⟩
      · exact absurd h1 hnf
      · exact h2
    rw [hdl hnf hdir rel]
    have hfs2eq : fs2 = fsP := by
      rcases hfs2 with ⟨h1, _⟩ | ⟨_, h2⟩
      · exact absurd h1 hnf
      · exact h2
    obtain ⟨t, ht⟩ := nodeSource_eq st hdir
    rw [hfs2eq, hfsP, ht, htmp]
    apply FS.moveTree_other
    · intro hp
      have hne : utf8 "sandbox" ≠ st.nodeDir := by
        rw [hdir]
        exact nodeDirName_ne_sandbox _ _
      have h1 : stagingPath s w ++ [utf8 "sandbox"] <+:
          stagingPath s w ++ st.nodeDir :: (t ++ rel) := by
        have h0 : stagingPath s w ++ [utf8 "sandbox"] <+:
            stagingPath s w ++ [utf8 "sandbox"] ++ [credsDir] := List.prefix_append _ _
        have h2 := List.IsPrefix.trans h0 hp
        simpa using h2
      exact not_prefix_append_of_ne _ _ _ _ hne h1
    · have := not_install_prefix_staging s w (st.nodeDir :: t ++ rel) [credsDir] hstaging
      simpa using this

/-- C13, amended, on the sample upgrade: the install under `/home/.sandbox` with the
credentials of two token scopes and an interpreter that is reused. -/
theorem C13_upgrade_keeps_credentials_witness :
    (∀ rel, (InstallServerless sampleService sampleWorld (sampleEnv [])
        { fs := sampleUpgradeFS, requests := [] } (utf8 "tok") true).1.fs
        (sampleService.serverlessDir ++ [credsDir] ++ rel)
      = sampleUpgradeFS (sampleService.serverlessDir ++ [credsDir] ++ rel)) ∧
    (∀ rel, (InstallServerless sampleService sampleWorld (sampleEnv [])
        { fs := sampleUpgradeFS, requests := [] } (utf8 "tok") true).1.fs
        (sampleService.serverlessDir ++ [utf8 "node"] ++ rel)
      = sampleUpgradeFS (sampleService.serverlessDir ++ [utf8 "node"] ++ rel)) :=
  ⟨(C13_upgrade_keeps_credentials sampleService sampleWorld (sampleEnv [])
      { fs := sampleUpgradeFS, requests := [] } (utf8 "tok") sampleReuseStaging
      (Node.dir 448) (Node.dir 493) rfl rfl rfl (by decide)).1,
    (C13_upgrade_keeps_credentials sampleService sampleWorld (sampleEnv [])
      { fs := sampleUpgradeFS, requests := [] } (utf8 "tok") sampleReuseStaging
      (Node.dir 448) (Node.dir 493) rfl rfl rfl (by decide)).2.2.1 rfl⟩

/-! ## Claim C14 -/

/-- C14, counterexample: the upgrade of the install under `/home/.sandbox` that has no
`creds` but the legacy directory `.nimbella` with the leaf `tok` and its credentials file
returns nil.  Afterwards there is no `creds/tok/credentials.json` in the install directory:
the file that was at `.nimbella/tok/credentials.json` is at
`creds/tok/tok/credentials.json`. -/
theorem C14_legacy_leaf_counterexample :
    sampleLegacyFS [utf8 "home", utf8 ".sandbox", utf8 "creds"] = none ∧
    sampleLegacyFS [utf8 "home", utf8 ".sandbox", utf8 ".nimbella", utf8 "tok",
      utf8 "credentials.json"] = some (Node.file 384 (utf8 "tok-credentials")) ∧
    (InstallServerless sampleService sampleWorld (sampleEnv [])
      { fs := sampleLegacyFS, requests := [] } (utf8 "tok") true).2 = none ∧
    (InstallServerless sampleService sampleWorld (sampleEnv [])
      { fs := sampleLegacyFS, requests := [] } (utf8 "tok") true).1.fs
      [utf8 "home", utf8 ".sandbox", utf8 "creds", utf8 "tok", utf8 "credentials.json"]
      = none ∧
    (InstallServerless sampleService sampleWorld (sampleEnv [])
      { fs := sampleLegacyFS, requests := [] } (utf8 "tok") true).1.fs
      [utf8 "home", utf8 ".sandbox", utf8 "creds", utf8 "tok", utf8 "tok",
        utf8 "credentials.json"] = some (Node.file 384 (utf8 "tok-credentials")) := by
  refine ⟨by decide, by decide, by decide, by decide, by decide⟩

/-- C14, amended: the install directory has no `creds` subtree (the path does not resolve)
and `InstallServerless L true` returns nil.  Then the legacy directory
`<serverlessDir>/.nimbella` existed before the upgrade, and the new install holds under the
leaf `<serverlessDir>/creds/L` exactly what the legacy directory itself held: at every
relative path, the leaf holds afterwards what `.nimbella` held at it before.  So the file that
was at `.nimbella/credentials.json` is the file at `creds/L/credentials.json`. -/
theorem C14_legacy_directory_becomes_leaf (s : serverlessService) (w : World) (env : Env)
    (m : Machine) (L : GoString) (e : Errno)
    (hnocreds : m.fs.lookup (s.serverlessDir ++ [credsDir]) = Except.error e)
    (hrun : (InstallServerless s w env m L true).2 = none) :
    (∃ n, m.fs (s.serverlessDir ++ [utf8 ".nimbella"]) = some n) ∧
    (∀ rel, (InstallServerless s w env m L true).1.fs
        (GetCredentialDirectory L s.serverlessDir ++ rel)
      = m.fs (s.serverlessDir ++ [utf8 ".nimbella"] ++ rel)) ∧
    (InstallServerless s w env m L true).1.fs
        (filepathJoin (GetCredentialDirectory L s.serverlessDir) [CredentialsFile])
      = m.fs (s.serverlessDir ++ [utf8 ".nimbella", CredentialsFile]) := by
  obtain ⟨st, hfetch⟩ := InstallServerless_nil_fetch s w env m L true hrun
  obtain ⟨htmp, hnames, _, _, _⟩ := installFetch_ok s w env m true st hfetch
  obtain ⟨hbin, hbinc, _⟩ := targetNames_nodeBin_ne _ _ _ _ _ hnames
  have hcreds_ne : credsDir ≠ [] := by decide
  obtain ⟨fsP, fs2, hP, hfs2, hact, hres⟩ := InstallServerless_nil_upgrade s w env m L st hfetch hrun
  obtain ⟨hstaging, hsd, _, _, hin, _⟩ := installActivate_ok s w fs2 st htmp hbin hact
  rw [hres]
  have hframe : ∀ q, s.serverlessDir <+: q → (installFetch s w env m true).1.fs q = m.fs q :=
    fun q hq => installFetch_frame s w env m true q (not_prefix_staging s w q hstaging hq)
  have hsb : filepathJoin st.tmp [utf8 "sandbox"] = stagingPath s w ++ [utf8 "sandbox"] := by
    rw [htmp]
    exact filepathJoin_single _ _ (by decide)
  have hcp : filepathJoin s.serverlessDir [credsDir] = s.serverlessDir ++ [credsDir] :=
    filepathJoin_single _ _ hcreds_ne
  have hlp : filepathJoin s.serverlessDir [utf8 ".nimbella"]
      = s.serverlessDir ++ [utf8 ".nimbella"] := filepathJoin_single _ _ (by decide)
  -- the credentials do not resolve in the state the first part left
  have hc1 : (installFetch s w env m true).1.fs.lookup (filepathJoin s.serverlessDir [credsDir])
      = Except.error e := by
    rw [hcp, ← hnocreds]
    apply FS.lookup_congr
    intro q hq
    apply installFetch_frame
    intro hp
    have := not_staging_prefix_install s w [] [credsDir] hstaging
    simp only [List.append_nil] at this
    exact this (List.IsPrefix.trans hp hq)
  obtain ⟨fsM, hM, ⟨n, hleg⟩, hmoved⟩ := PreserveCreds_legacy
    (installFetch s w env m true).1.fs L (filepathJoin st.tmp [utf8 "sandbox"])
    s.serverlessDir e hc1 (by rw [hP])
  rw [hP, hsb, hlp] at hmoved
  dsimp only at hmoved
  rw [hlp] at hleg
  rw [hsb, filepathJoin_single _ credsDir hcreds_ne] at hM
  -- in the install directory, making the staged credentials directory changed nothing
  have hMfs : ∀ rel, fsM (s.serverlessDir ++ rel) = m.fs (s.serverlessDir ++ rel) := by
    intro rel
    rcases hM (s.serverlessDir ++ rel) with h1 | ⟨_, h1⟩
    · rw [h1]
      exact hframe _ (List.prefix_append _ _)
    · exfalso
      rw [List.append_assoc] at h1
      exact not_install_prefix_staging s w _ rel hstaging h1
  have hleaf : ∀ dir : Path, GetCredentialDirectory L dir
      = dir ++ credsDir :: [L].filter (fun x => x ≠ []) := by
    intro dir
    unfold GetCredentialDirectory
    exact filepathJoin_cons _ _ _ hcreds_ne
  have hmain : ∀ rel, (installActivate s fs2 st).1
      (GetCredentialDirectory L s.serverlessDir ++ rel)
      = m.fs (s.serverlessDir ++ [utf8 ".nimbella"] ++ rel) := by
    intro rel
    have hnb : ¬ [st.nodeBin] <+: credsDir :: ([L].filter (fun x => x ≠ []) ++ rel) :=
      not_singleton_prefix_cons _ _ _ hbinc
    have h1 := hin (credsDir :: ([L].filter (fun x => x ≠ []) ++ rel)) (Or.inr hnb)
    have e1 : GetCredentialDirectory L s.serverlessDir ++ rel
        = s.serverlessDir ++ credsDir :: ([L].filter (fun x => x ≠ []) ++ rel) := by
      rw [hleaf]
      simp
    have e2 : stagingPath s w ++ [utf8 "sandbox"] ++
          credsDir :: ([L].filter (fun x => x ≠ []) ++ rel)
        = GetCredentialDirectory L (stagingPath s w ++ [utf8 "sandbox"]) ++ rel := by
      rw [hleaf]
      simp
    rw [e1, h1, e2]
    have hfs2P : fs2 (GetCredentialDirectory L (stagingPath s w ++ [utf8 "sandbox"]) ++ rel)
        = fsP (GetCredentialDirectory L (stagingPath s w ++ [utf8 "sandbox"]) ++ rel) := by
      rcases hfs2 with ⟨_, h2⟩ | ⟨_, h2⟩
      · rw [h2, hsb, filepathJoin_single _ _ hbin, filepathJoin_single _ _ hbin]
        apply FS.moveTree_other
        · rw [← e2]
          intro hp
          rw [List.prefix_append_right_inj] at hp
          exact hnb hp
        · rw [← e2, List.append_assoc]
          exact not_install_prefix_staging s w _ _ hstaging
      · rw [h2]
    rw [hfs2P, hmoved, FS.moveTree_new]
    have := hMfs ([utf8 ".nimbella"] ++ rel)
    simpa using this
  refine ⟨⟨n, ?_⟩, hmain, ?_⟩
  · have := hMfs [utf8 ".nimbella"]
    rw [← this]
    exact hleg
  · rw [filepathJoin_single _ _ (by decide)]
    have := hmain [CredentialsFile]
    simpa using this

/-- C14, amended, on the upgrade of an install under `/home/.sandbox` whose legacy
directory holds `credentials.json` itself: the legacy directory becomes the leaf
`creds/tok`. -/
theorem C14_legacy_directory_becomes_leaf_witness :
    (∃ n, sampleFlatLegacyFS (sampleService.serverlessDir ++ [utf8 ".nimbella"]) = some n) ∧
    (∀ rel, (InstallServerless sampleService sampleWorld (sampleEnv [])
        { fs := sampleFlatLegacyFS, requests := [] } (utf8 "tok") true).1.fs
        (GetCredentialDirectory (utf8 "tok") sampleService.serverlessDir ++ rel)
      = sampleFlatLegacyFS (sampleService.serverlessDir ++ [utf8 ".nimbella"] ++ rel)) ∧
    (InstallServerless sampleService sampleWorld (sampleEnv [])
        { fs := sampleFlatLegacyFS, requests := [] } (utf8 "tok") true).1.fs
        (filepathJoin (GetCredentialDirectory (utf8 "tok") sampleService.serverlessDir)
          [CredentialsFile])
      = sampleFlatLegacyFS (sampleService.serverlessDir ++ [utf8 ".nimbella", CredentialsFile]) :=
  C14_legacy_directory_becomes_leaf sampleService sampleWorld (sampleEnv [])
    { fs := sampleFlatLegacyFS, requests := [] } (utf8 "tok") Errno.ENOENT rfl (by decide)

/-! ### The status check after a write, when the two directories agree -/

theorem FS.walk_dir_or_missing (fs : FS) (cur : Path) (rest : List GoString)
    (h : ∀ q, cur <+: q → q <+: cur ++ rest → (∃ pm, fs q = some (Node.dir pm)) ∨ fs q = none) :
    (∃ pm, fs.walk cur rest = Except.ok (Node.dir pm)) ∨
      fs.walk cur rest = Except.error Errno.ENOENT := by
  induction rest generalizing cur with
  | nil =>
    rcases h cur (List.prefix_refl _) (by simp) with ⟨pm, hpm⟩ | hn
    · exact Or.inl ⟨pm, by simp [FS.walk, hpm]⟩
    · exact Or.inr (by simp [FS.walk, hn])
  | cons c r ih =>
    rcases h cur (List.prefix_refl _) (List.prefix_append _ _) with ⟨pm, hpm⟩ | hn
    · have := ih (cur ++ [c]) (by
        intro q h1 h2
        exact h q (List.IsPrefix.trans (List.prefix_append _ _) h1) (by simpa using h2))
      simpa [FS.walk, hpm] using this
    · exact Or.inr (by simp [FS.walk, hn])

theorem WriteCredentials_eq (s : serverlessService) (fs : FS) (r : ServerlessCredentials)
    (hw : (WriteCredentials s fs r).2 = none) :
    (osMkdirAll fs s.credsDir 0o700).2 = none ∧
    WriteCredentials s fs r
      = osWriteFile (osMkdirAll fs s.credsDir 0o700).1 (s.credsDir ++ [CredentialsFile])
          (jsonMarshalIndent r).1 0o600 := by
  unfold WriteCredentials at hw ⊢
  rcases hm : osMkdirAll fs s.credsDir 0o700 with ⟨fs1, _ | e⟩
  · rw [hm] at hw
    refine ⟨rfl, ?_⟩
    simp only [jsonMarshalIndent]
    rw [filepathJoin_single _ _ (by decide)]
  · rw [hm] at hw
    simp at hw

/-- When the credentials directory of the service lies in its install directory, as it does
without an override, an installed and up-to-date service is connected after
`WriteCredentials` has returned nil: `CheckServerlessStatus` returns nil. -/
theorem CheckServerlessStatus_WriteCredentials (s : serverlessService) (env : Env) (fs : FS)
    (L : GoString) (r : ServerlessCredentials)
    (hcd : s.credsDir = GetCredentialDirectory L s.serverlessDir)
    (hinst : osIsNotExist (osStat fs s.serverlessDir).2 = false)
    (hup : serverlessUptodate env fs s.serverlessDir = true)
    (hw : (WriteCredentials s fs r).2 = none) :
    CheckServerlessStatus s env (WriteCredentials s fs r).1 L = none := by
  have hcreds_ne : credsDir ≠ [] := by decide
  have hleaf : s.credsDir
      = s.serverlessDir ++ credsDir :: [L].filter (fun x => x ≠ []) := by
    rw [hcd]
    unfold GetCredentialDirectory
    exact filepathJoin_cons _ _ _ hcreds_ne
  have hcv : credsDir ≠ utf8 "version" := by decide
  obtain ⟨hmk, hWC⟩ := WriteCredentials_eq s fs r hw
  have hA := osMkdirAll_ok_dirs fs s.credsDir 0o700 hmk
  have hB := osMkdirAll_change fs s.credsDir 0o700
  have hC := osWriteFile_frame (osMkdirAll fs s.credsDir 0o700).1
    (s.credsDir ++ [CredentialsFile]) (jsonMarshalIndent r).1 0o600
  have hD := osReadFile_osWriteFile (osMkdirAll fs s.credsDir 0o700).1
    (WriteCredentials s fs r).1 (s.credsDir ++ [CredentialsFile]) (jsonMarshalIndent r).1 0o600
    (by rw [← hWC]; exact Prod.ext rfl hw)
  rw [← hWC] at hC
  have hsdcd : s.serverlessDir <+: s.credsDir := by
    rw [hleaf]
    exact List.prefix_append _ _
  -- a path no longer than the install directory is not the credentials file
  have hshort : ∀ q : Path, q.length ≤ s.serverlessDir.length + 1 →
      q ≠ s.serverlessDir ++ [credsDir] → q ≠ s.credsDir ++ [CredentialsFile] := by
    intro q hq hne e
    rw [hleaf] at e
    rw [e] at hq hne
    simp only [List.length_append, List.length_cons, List.length_singleton] at hq
    omega
  -- the prefixes of the install directory are directories before and after
  have hpre1 : ∀ q, q <+: s.serverlessDir →
      ∃ pm, (osMkdirAll fs s.credsDir 0o700).1 q = some (Node.dir pm) :=
    fun q hq => hA q (List.IsPrefix.trans hq hsdcd)
  have hlook0 : ∃ pm, fs.lookup s.serverlessDir = Except.ok (Node.dir pm) := by
    have := FS.walk_dir_or_missing fs [] s.serverlessDir (by
      intro q _ hq
      have hq1 : q <+: s.serverlessDir := by simpa using hq
      obtain ⟨pm, hpm⟩ := hpre1 q hq1
      rcases hB q with h1 | ⟨h1, _⟩
      · exact Or.inl ⟨pm, by rw [← h1, hpm]⟩
      · exact Or.inr h1)
    rcases this with h1 | h1
    · exact h1
    · exfalso
      unfold osStat at hinst
      have h2 : fs.lookup s.serverlessDir = Except.error Errno.ENOENT := h1
      rw [h2] at hinst
      simp [osIsNotExist] at hinst
  obtain ⟨pm0, hlook0⟩ := hlook0
  have hfs' : ∀ q, q.length ≤ s.serverlessDir.length + 1 → q ≠ s.serverlessDir ++ [credsDir] →
      ¬ q <+: s.credsDir ∨ fs q ≠ none → (WriteCredentials s fs r).1 q = fs q := by
    intro q hq hne hq2
    rw [hC q (hshort q hq hne)]
    rcases hB q with h1 | ⟨h1, h2, _⟩
    · exact h1
    · rcases hq2 with h3 | h3
      · exact absurd h2 h3
      · exact absurd h1 h3
  have hlook1 : (WriteCredentials s fs r).1.lookup s.serverlessDir
      = Except.ok (Node.dir pm0) := by
    rw [← hlook0]
    apply FS.lookup_congr
    intro q hq
    have hlen := List.IsPrefix.length_le hq
    apply hfs' q (by omega)
    · intro e
      rw [e] at hlen
      simp at hlen
    · right
      obtain ⟨t, ht⟩ := hq
      rw [← ht] at hlook0
      cases t with
      | nil =>
        simp only [List.append_nil] at hlook0
        rw [FS.lookup_ok_self _ _ _ hlook0]
        simp
      | cons c t2 =>
        obtain ⟨pm, hpm⟩ := FS.lookup_ok_init fs q (c :: t2) _ (by simp) hlook0
        rw [FS.lookup_ok_self _ _ _ hpm]
        simp
  have hver : (WriteCredentials s fs r).1 (s.serverlessDir ++ [utf8 "version"])
      = fs (s.serverlessDir ++ [utf8 "version"]) := by
    apply hfs' _ (by simp)
    · intro e
      have := List.append_cancel_left e
      simp only [List.cons.injEq, and_true] at this
      exact hcv this.symm
    · left
      rw [hleaf]
      exact not_prefix_append_of_ne _ _ _ _ (fun e => hcv e.symm)
  have hstat : osIsNotExist (osStat (WriteCredentials s fs r).1 s.serverlessDir).2 = false := by
    unfold osStat
    rw [hlook1]
    rfl
  have hup1 : serverlessUptodate env (WriteCredentials s fs r).1 s.serverlessDir = true := by
    rw [← hup]
    unfold serverlessUptodate GetCurrentServerlessVersion osReadFile
    dsimp only
    rw [filepathJoin_single _ _ (by decide), FS.lookup_snoc _ _ _ pm0 hlook1,
      FS.lookup_snoc _ _ _ pm0 hlook0, hver]
  have hconn : isServerlessConnected (WriteCredentials s fs r).1 L s.serverlessDir = true := by
    unfold isServerlessConnected
    dsimp only
    rw [← hcd, filepathJoin_single _ _ (by decide)]
    unfold osReadFile at hD
    unfold osStat
    rcases hl : (WriteCredentials s fs r).1.lookup (s.credsDir ++ [CredentialsFile])
      with e1 | n
    · rw [hl] at hD
      simp at hD
    · rfl
  unfold CheckServerlessStatus
  rw [hstat, hup1, hconn]
  rfl

/-- Without an override, `NewServerlessService` puts the credentials directory in the install
directory. -/
theorem NewServerlessService_credsDir (env : Env) (GOOS doitVersion : GoString)
    (client : GodoClient) (usualServerlessDir : Path) (credsToken : GoString)
    (h : env (utf8 "OVERRIDE_SANDBOX_DIR") = []) :
    (NewServerlessService env GOOS doitVersion client usualServerlessDir credsToken).credsDir
      = GetCredentialDirectory credsToken
          (NewServerlessService env GOOS doitVersion client usualServerlessDir
            credsToken).serverlessDir := by
  unfold NewServerlessService
  simp [h]

/-! ## Claim C16 -/

/-- C16: without an override the claim holds: for every service built by
`NewServerlessService` while `OVERRIDE_SANDBOX_DIR` is empty, whose install directory is not
reported missing and is up to date, `CheckServerlessStatus L` returns nil after
`WriteCredentials` has returned nil.  At the failing input it does not: the service is built
on linux for the usual directory `/home/.sandbox` and the token scope `tok` while
`OVERRIDE_SANDBOX_DIR` is `/snap/sandbox`, and `/snap/sandbox` is installed with the version
`4.1.0-1.3.0`.  The install directory of the service is `/snap/sandbox` and its credentials
directory `/home/.sandbox/creds/tok`; `WriteCredentials` returns nil and
`/home/.sandbox/creds/tok/credentials.json` exists afterwards,
`/snap/sandbox/creds/tok/credentials.json` does not, and `CheckServerlessStatus` for `tok`
returns `ErrServerlessNotConnected`, not nil. -/
theorem C16_override_dir_not_connected :
    (∀ (env : Env) (GOOS doitVersion : GoString) (client : GodoClient) (usualDir : Path)
      (L : GoString) (fs : FS) (r : ServerlessCredentials),
      env (utf8 "OVERRIDE_SANDBOX_DIR") = [] →
      osIsNotExist (osStat fs
        (NewServerlessService env GOOS doitVersion client usualDir L).serverlessDir).2 = false →
      serverlessUptodate env fs
        (NewServerlessService env GOOS doitVersion client usualDir L).serverlessDir = true →
      (WriteCredentials (NewServerlessService env GOOS doitVersion client usualDir L)
        fs r).2 = none →
      CheckServerlessStatus (NewServerlessService env GOOS doitVersion client usualDir L) env
        (WriteCredentials (NewServerlessService env GOOS doitVersion client usualDir L)
          fs r).1 L = none) ∧
    sampleOverrideService.serverlessDir = [utf8 "snap", utf8 "sandbox"] ∧
    sampleOverrideService.credsDir = [utf8 "home", utf8 ".sandbox", utf8 "creds", utf8 "tok"] ∧
    osIsNotExist (osStat sampleOverrideFS sampleOverrideService.serverlessDir).2 = false ∧
    serverlessUptodate sampleOverrideEnv sampleOverrideFS sampleOverrideService.serverlessDir
      = true ∧
    (WriteCredentials sampleOverrideService sampleOverrideFS sampleCredentials).2 = none ∧
    (osStat (WriteCredentials sampleOverrideService sampleOverrideFS sampleCredentials).1
      [utf8 "home", utf8 ".sandbox", utf8 "creds", utf8 "tok", utf8 "credentials.json"]).2
      = none ∧
    osIsNotExist
      (osStat (WriteCredentials sampleOverrideService sampleOverrideFS sampleCredentials).1
        [utf8 "snap", utf8 "sandbox", utf8 "creds", utf8 "tok", utf8 "credentials.json"]).2
      = true ∧
    CheckServerlessStatus sampleOverrideService sampleOverrideEnv
      (WriteCredentials sampleOverrideService sampleOverrideFS sampleCredentials).1
      (utf8 "tok") = some ErrServerlessNotConnected := by
  refine ⟨?_, by decide, by decide, by decide, by decide, by decide, by decide, by decide,
    by decide⟩
  intro env GOOS doitVersion client usualDir L fs r hov hinst hup hw
  exact CheckServerlessStatus_WriteCredentials _ env fs L r
    (NewServerlessService_credsDir env GOOS doitVersion client usualDir L hov) hinst hup hw

/-! ## Claim C24 -/

/-- Splitting a migrated host at the dots gives back the labels it was joined from, followed
by `co`; a host joined from no label at all has the one empty label. -/
theorem stringsSplit_migrated (parts : List GoString) (hp : ∀ p ∈ parts, dot ∉ p) :
    (stringsSplit (stringsJoin parts (utf8 ".") ++ utf8 ".co") dot).dropLast
      = if parts = [] then [[]] else parts := by
  by_cases hne : parts = []
  · subst hne
    rw [if_pos rfl]
    have e : stringsJoin [] (utf8 ".") ++ utf8 ".co" = dot :: utf8 "co" := by decide
    rw [e, stringsSplit_cons_sep, stringsSplit_of_not_mem _ _ dot_not_mem_co]
    rfl
  · rw [if_neg hne]
    have e : stringsJoin parts (utf8 ".") ++ utf8 ".co"
        = stringsJoin (parts ++ [utf8 "co"]) [dot] := by
      rw [stringsJoin_append_singleton parts (utf8 "co") [dot] hne, utf8_dot, utf8_dot_co]
      simp
    rw [e, stringsSplit_stringsJoin _ dot (by simp)]
    · simp
    · intro p hmem
      rw [List.mem_append] at hmem
      rcases hmem with hmem | hmem
      · exact hp p hmem
      · rw [List.mem_singleton] at hmem
        rw [hmem]
        exact dot_not_mem_co

/-- C24: `assignAPIHost` is total and idempotent in the host: for every host `h`, the empty
one and those without a dot included, and every namespace `n`, `assignAPIHost h n` returns a
value `r` (the slice is never out of range), and `assignAPIHost r n` returns `r` again. -/
theorem C24_assignAPIHost_total_idempotent (h n : GoString) :
    ∃ r, assignAPIHost h n = some r ∧ assignAPIHost r n = some r := by
  by_cases hn : utf8 "fn-" <+: n
  · refine ⟨_, assignAPIHost_prefixed h n hn, ?_⟩
    rw [assignAPIHost_prefixed _ n hn,
      stringsSplit_migrated _ (fun p hmem =>
        stringsSplit_not_mem h dot p (List.mem_of_mem_dropLast hmem))]
    by_cases he : (stringsSplit h dot).dropLast = []
    · rw [he, if_pos rfl]
      rfl
    · rw [if_neg he]
  · have e : assignAPIHost h n = some h := by
      unfold assignAPIHost
      rw [if_neg]
      rw [stringsHasPrefix_iff]
      exact hn
    exact ⟨h, e, e⟩

/-! ## Claim C25 -/

/-- With no region wanted the loop appends every address. -/
theorem floatingIPLoop_all (list fips : List FloatingIP) :
    floatingIPLoop [] list fips = some (fips ++ list) := by
  induction list generalizing fips with
  | nil => simp [floatingIPLoop]
  | cons fip rest ih =>
    unfold floatingIPLoop
    have e : floatingIPSkip [] fip = some false := by
      unfold floatingIPSkip
      rw [if_neg (by simp)]
    rw [e]
    simp only [Bool.not_false, if_true]
    rw [ih]
    simp

/-- With a region wanted, and every address having one, the loop appends the addresses of
that region. -/
theorem floatingIPLoop_region (r : GoString) (hr : r ≠ []) (list fips : List FloatingIP)
    (h : ∀ fip ∈ list, fip.Region ≠ none) :
    floatingIPLoop r list fips = some (fips ++ list.filter (hasRegionSlug r)) := by
  induction list generalizing fips with
  | nil => simp [floatingIPLoop]
  | cons fip rest ih =>
    have hrest : ∀ x ∈ rest, x.Region ≠ none := fun x hx => h x (List.mem_cons_of_mem _ hx)
    have hfip := h fip (List.mem_cons_self _ _)
    cases hreg : fip.Region with
    | none => exact absurd hreg hfip
    | some region =>
      unfold floatingIPLoop
      have e : floatingIPSkip r fip = some (decide (r ≠ region.Slug)) := by
        unfold floatingIPSkip
        rw [if_pos hr, hreg]
      rw [e]
      by_cases hs : region.Slug = r
      · have hp : hasRegionSlug r fip = true := by
          unfold hasRegionSlug
          rw [hreg]
          simpa using hs
        have hd : decide (r ≠ region.Slug) = false := by simpa using hs.symm
        rw [hd]
        simp only [Bool.not_false, if_true]
        rw [ih _ hrest, List.filter_cons_of_pos hp]
        simp
      · have hp : ¬ hasRegionSlug r fip = true := by
          unfold hasRegionSlug
          rw [hreg]
          simpa using hs
        have hd : decide (r ≠ region.Slug) = true := by
          simpa using fun e : r = region.Slug => hs e.symm
        rw [hd]
        simp only [Bool.not_true, Bool.false_eq_true, if_false]
        rw [ih _ hrest, List.filter_cons_of_neg hp]

/-- C25, counterexample: asked for the region `nyc1`, with a listed address that has no
region, `RunFloatingIPList` displays nothing and returns nothing: reading the slug of the nil
region is a nil dereference, a panic. -/
theorem C25_nil_region_counterexample :
    RunFloatingIPList (utf8 "nyc1", none)
      ([{ IP := utf8 "10.0.0.9", Region := none }], none) sampleDisplay = none := by
  decide

/-- C25, amended: `RunFloatingIPList` returns the error of reading the region flag, or else
the error of listing, without reaching the displayer; with the empty region it displays the
whole list as it came; with a region `r` that is not empty, each listed address having a
region, it displays the addresses whose region slug is `r`, a sublist of the list: in their
original order and each as often as it was listed. -/
theorem C25_RunFloatingIPList_filters (r : GoString) (list : List FloatingIP)
    (Display : List FloatingIP → Option GoError) :
    (∀ e fisList, RunFloatingIPList (r, some e) fisList Display = some (none, some e)) ∧
    (∀ e, RunFloatingIPList (r, none) (list, some e) Display = some (none, some e)) ∧
    (r = [] →
      RunFloatingIPList (r, none) (list, none) Display = some (some list, Display list)) ∧
    (r ≠ [] → (∀ fip ∈ list, fip.Region ≠ none) →
      RunFloatingIPList (r, none) (list, none) Display
          = some (some (list.filter (hasRegionSlug r)), Display (list.filter (hasRegionSlug r)))
        ∧ (list.filter (hasRegionSlug r)).Sublist list
        ∧ ∀ fip, (list.filter (hasRegionSlug r)).count fip
            = if hasRegionSlug r fip then list.count fip else 0) := by
  refine ⟨fun e fisList => rfl, fun e => rfl, ?_, ?_⟩
  · intro hr
    subst hr
    unfold RunFloatingIPList
    simp only [floatingIPLoop_all, List.nil_append]
  · intro hr h
    refine ⟨?_, List.filter_sublist _, ?_⟩
    · unfold RunFloatingIPList
      simp only [floatingIPLoop_region r hr list [] h, List.nil_append]
    · intro fip
      by_cases hp : hasRegionSlug r fip = true
      · rw [if_pos hp, List.count_filter hp]
      · rw [if_neg hp, List.count_eq_zero]
        intro hmem
        exact hp (List.mem_filter.mp hmem).2

/-- C25 on three addresses in `nyc1`, `ams3` and `nyc1`: asked for `nyc1`, the first and the
third are displayed, in this order. -/
theorem C25_RunFloatingIPList_filters_witness :
    RunFloatingIPList (utf8 "nyc1", none) (sampleFloatingIPs, none) sampleDisplay
      = some (some [ { IP := utf8 "10.0.0.1", Region := some { Slug := utf8 "nyc1" } },
                     { IP := utf8 "10.0.0.3", Region := some { Slug := utf8 "nyc1" } } ],
              none) :=
  ((C25_RunFloatingIPList_filters (utf8 "nyc1") sampleFloatingIPs sampleDisplay).2.2.2
    (by decide) (by decide)).1

/-! ## Claim C22 -/

/-- A service without a client, whose credentials cannot be read or parsed, fails to
initialize with the error of `ReadCredentials`. -/
theorem initWhisk_ReadCredentials_error
    (whiskNewClient : WhiskConfig → Option WhiskClient × Option GoError)
    (s : serverlessService) (fs : FS) (e : GoError) (hs : s.owClient = none)
    (h : (ReadCredentials s fs).2 = some e) :
    initWhisk whiskNewClient s fs = (s, some e) := by
  unfold initWhisk
  rw [hs]
  rcases hr : ReadCredentials s fs with ⟨creds, err⟩
  rw [hr] at h
  cases h
  rfl

/-- A service that has its client initializes without doing anything. -/
theorem initWhisk_of_client
    (whiskNewClient : WhiskConfig → Option WhiskClient × Option GoError)
    (s : serverlessService) (fs : FS) (c : WhiskClient) (hs : s.owClient = some c) :
    initWhisk whiskNewClient s fs = (s, none) := by
  unfold initWhisk
  rw [hs]

/-- C22: for every service whose on-demand initialization of the client fails with an error
`e`, and every name and `fetchCode` flag, `GetFunction` returns the empty action, an empty
parameter list and a nil error, whereas `GetConnectedAPIHost` returns the empty host and the
error `e`. -/
theorem C22_GetFunction_discards_init_error
    (whiskNewClient : WhiskConfig → Option WhiskClient × Option GoError)
    (unmarshal : GoString → FunctionParameterReparse × Option GoError)
    (s : serverlessService) (fs : FS) (e : GoError)
    (h : (initWhisk whiskNewClient s fs).2 = some e) (name : GoString) (fetchCode : Bool) :
    (GetFunction whiskNewClient unmarshal s fs name fetchCode).2
        = some (whiskAction.zero, [], none) ∧
      (GetConnectedAPIHost whiskNewClient s fs).2 = some ([], some e) := by
  rcases hi : initWhisk whiskNewClient s fs with ⟨s1, err⟩
  rw [hi] at h
  cases h
  unfold GetFunction GetConnectedAPIHost
  rw [hi]
  exact ⟨rfl, rfl⟩

/-- C22 on the sample service where no credentials file was written: the initialization
fails with the error of opening the file, `GetFunction` returns no error and
`GetConnectedAPIHost` returns that one. -/
theorem C22_GetFunction_discards_init_error_witness :
    (initWhisk sampleWhiskNewClient sampleService rootOnlyFS).2
        = some (GoError.pathError (utf8 "open")
            [utf8 "home", utf8 ".sandbox", utf8 "creds", utf8 "tok", utf8 "credentials.json"]
            Errno.ENOENT) ∧
      (GetFunction sampleWhiskNewClient sampleReparseUnmarshal sampleService rootOnlyFS
          (utf8 "hello") true).2 = some (whiskAction.zero, [], none) ∧
      (GetConnectedAPIHost sampleWhiskNewClient sampleService rootOnlyFS).2
        = some ([], some (GoError.pathError (utf8 "open")
            [utf8 "home", utf8 ".sandbox", utf8 "creds", utf8 "tok", utf8 "credentials.json"]
            Errno.ENOENT)) :=
  ⟨by decide,
    C22_GetFunction_discards_init_error sampleWhiskNewClient sampleReparseUnmarshal
      sampleService rootOnlyFS _ (by decide) (utf8 "hello") true⟩

/-! ## Claim C23 -/

/-- A rename whose source resolves fails with the error of resolving the parent of the
target, when that fails. -/
theorem osRename_parent_error (fs : FS) (a b : Path) (n : Node)
    (e : Errno) (ha : fs.lookup a = Except.ok n) (hane : a ≠ []) (hbne : b ≠ [])
    (hb : fs.lookup b.dropLast = Except.error e) :
    osRename fs a b = (fs, some (GoError.linkError (utf8 "rename") a b e)) := by
  have h0 : ¬ fs.isDir b = true := by
    intro hd
    unfold FS.isDir at hd
    rcases hlb : fs.lookup b with e1 | (⟨p1, c1⟩ | pm)
    · rw [hlb] at hd
      simp at hd
    · rw [hlb] at hd
      simp at hd
    · rw [← List.dropLast_append_getLast hbne] at hlb
      obtain ⟨pm1, h1⟩ := FS.lookup_ok_init fs _ _ _ (by simp) hlb
      rw [h1] at hb
      simp at hb
  unfold osRename
  simp only [ha, hb]
  rw [if_neg h0, if_neg (by simp [hane, hbne])]

/-- The legacy directory is not the relocated `creds` nor above it, unless it is above the
staging directory. -/
theorem legacy_prefix_reloc (stagingDir sd : Path)
    (h : filepathJoin sd [utf8 ".nimbella"] <+: filepathJoin stagingDir [credsDir]) :
    filepathJoin sd [utf8 ".nimbella"] <+: stagingDir ∧
      filepathJoin sd [utf8 ".nimbella"] ≠ filepathJoin stagingDir [credsDir] := by
  rw [filepathJoin_single _ (utf8 ".nimbella") (by decide),
    filepathJoin_single _ credsDir (by decide)] at h ⊢
  have hne : sd ++ [utf8 ".nimbella"] ≠ stagingDir ++ [credsDir] := by
    intro e
    have := List.append_inj_right' e rfl
    exact absurd this (by decide)
  refine ⟨?_, hne⟩
  rcases h with ⟨t, ht⟩
  rcases List.eq_nil_or_concat t with rfl | ⟨t1, x, rfl⟩
  · exact absurd (by simpa using ht) hne
  · rw [List.concat_eq_append, ← List.append_assoc] at ht
    have := List.append_inj_left' ht (by simp)
    exact ⟨t1, this⟩

/-- C23: where the code departs from the claim.  In the install under `/home/.sandbox` that
has both `creds` and the legacy directory `.nimbella`, with no staging directory
`/home/sbx-install123`, the source `creds` exists and the first rename fails with `ENOENT`,
because the parent of its target does not exist.  `PreserveCreds` takes this for a missing
source: it does not return the error but runs the legacy fallback and returns nil, having
created `creds` in staging and moved the legacy directory there, with `creds` left where it
was.  `InstallServerless` meets this when the bundle unpacks no `sandbox`: the upgrade
returns nil and the credentials of the install are gone. -/
theorem C23_PreserveCreds_missing_staging :
    (sampleBothFS.lookup [utf8 "home", utf8 ".sandbox", utf8 "creds"]
        = Except.ok (Node.dir 448) ∧
      osRename sampleBothFS [utf8 "home", utf8 ".sandbox", utf8 "creds"]
          [utf8 "home", utf8 "sbx-install123", utf8 "creds"]
        = (sampleBothFS, some (GoError.linkError (utf8 "rename")
            [utf8 "home", utf8 ".sandbox", utf8 "creds"]
            [utf8 "home", utf8 "sbx-install123", utf8 "creds"] Errno.ENOENT)) ∧
      (PreserveCreds sampleBothFS (utf8 "tok") [utf8 "home", utf8 "sbx-install123"]
        [utf8 "home", utf8 ".sandbox"]).2 = none ∧
      sampleBothFS [utf8 "home", utf8 "sbx-install123", utf8 "creds"] = none ∧
      (PreserveCreds sampleBothFS (utf8 "tok") [utf8 "home", utf8 "sbx-install123"]
        [utf8 "home", utf8 ".sandbox"]).1 [utf8 "home", utf8 "sbx-install123", utf8 "creds"]
        = some (Node.dir 0o700) ∧
      sampleBothFS [utf8 "home", utf8 ".sandbox", utf8 ".nimbella"] = some (Node.dir 448) ∧
      (PreserveCreds sampleBothFS (utf8 "tok") [utf8 "home", utf8 "sbx-install123"]
        [utf8 "home", utf8 ".sandbox"]).1 [utf8 "home", utf8 ".sandbox", utf8 ".nimbella"]
        = none ∧
      (PreserveCreds sampleBothFS (utf8 "tok") [utf8 "home", utf8 "sbx-install123"]
        [utf8 "home", utf8 ".sandbox"]).1
          [utf8 "home", utf8 "sbx-install123", utf8 "creds", utf8 "tok"]
        = some (Node.dir 448) ∧
      (PreserveCreds sampleBothFS (utf8 "tok") [utf8 "home", utf8 "sbx-install123"]
        [utf8 "home", utf8 ".sandbox"]).1
          [utf8 "home", utf8 ".sandbox", utf8 "creds", utf8 "tok", utf8 "credentials.json"]
        = some (Node.file 384 (utf8 "tok-credentials"))) ∧
    ((installFetch sampleService sampleNoSandboxWorld (sampleEnv [])
        { fs := sampleBothFS, requests := [] } true).1.fs
        [utf8 "home", utf8 "sbx-install123", utf8 "sandbox"] = none ∧
      (InstallServerless sampleService sampleNoSandboxWorld (sampleEnv [])
        { fs := sampleBothFS, requests := [] } (utf8 "tok") true).2 = none ∧
      sampleBothFS [utf8 "home", utf8 ".sandbox", utf8 "creds", utf8 "tok",
        utf8 "credentials.json"] = some (Node.file 384 (utf8 "tok-credentials")) ∧
      (InstallServerless sampleService sampleNoSandboxWorld (sampleEnv [])
        { fs := sampleBothFS, requests := [] } (utf8 "tok") true).1.fs
        [utf8 "home", utf8 ".sandbox", utf8 "creds", utf8 "tok", utf8 "credentials.json"]
        = some (Node.file 384 (utf8 "legacy-credentials")) ∧
      (InstallServerless sampleService sampleNoSandboxWorld (sampleEnv [])
        { fs := sampleBothFS, requests := [] } (utf8 "tok") true).1.fs
        [utf8 "home", utf8 ".sandbox", utf8 "creds", utf8 "other", utf8 "credentials.json"]
        = none) := by
  refine ⟨⟨rfl, ?_, by decide, by decide, by decide, by decide, by decide, by decide,
    by decide⟩, by decide, by decide, by decide, by decide, by decide⟩
  exact osRename_parent_error _ _ _ (Node.dir 448) _ rfl (by decide) (by decide) rfl

/-- The cases of `PreserveCreds L staging dir`, which first renames `dir/creds` to
`staging/creds`.  If that succeeds, it returns nil with the tree moved, and nothing at or
below the legacy location `dir/.nimbella` changes, `staging/creds` and what is below it
apart.  If it fails, the test `errors.Is(err, os.ErrNotExist)` holds exactly when
`dir/creds` does not resolve, or it resolves and the staging directory, the parent of the
target, does not.  With any other error `PreserveCreds` returns that error and the filesystem
is as before.  Under the test the legacy fallback runs: `staging/creds` is created, and the
legacy location is renamed to the leaf, the error of either being returned; and when nothing
is at the legacy location, `PreserveCreds` returns an error. -/
theorem PreserveCreds_cases (fs : FS) (L : GoString) (stagingDir sd : Path) :
    ((osRename fs (filepathJoin sd [credsDir])
        (filepathJoin stagingDir [credsDir])).2 = none →
      PreserveCreds fs L stagingDir sd
          = (fs.moveTree (filepathJoin sd [credsDir]) (filepathJoin stagingDir [credsDir]),
              none) ∧
        ∀ q, filepathJoin sd [utf8 ".nimbella"] <+: q →
          ¬ filepathJoin stagingDir [credsDir] <+: q →
          (PreserveCreds fs L stagingDir sd).1 q = fs q) ∧
    (∀ err, (osRename fs (filepathJoin sd [credsDir])
        (filepathJoin stagingDir [credsDir])).2 = some err →
      (errorsIsNotExist err = true ↔
        (fs.lookup (filepathJoin sd [credsDir]) = Except.error Errno.ENOENT ∨
          ((∃ n, fs.lookup (filepathJoin sd [credsDir]) = Except.ok n) ∧
            fs.lookup stagingDir = Except.error Errno.ENOENT))) ∧
      (errorsIsNotExist err = false → PreserveCreds fs L stagingDir sd = (fs, some err)) ∧
      (errorsIsNotExist err = true →
        PreserveCreds fs L stagingDir sd
            = (match osMkdirAll fs (filepathJoin stagingDir [credsDir]) 0o700 with
              | (fs2, some e) => (fs2, some e)
              | (fs2, none) =>
                osRename fs2 (filepathJoin sd [utf8 ".nimbella"])
                  (GetCredentialDirectory L stagingDir)) ∧
          (fs (filepathJoin sd [utf8 ".nimbella"]) = none →
            ∃ e, (PreserveCreds fs L stagingDir sd).2 = some e))) := by
  have hdrop : (filepathJoin stagingDir [credsDir]).dropLast = stagingDir :=
    dropLast_filepathJoin_single _ _ (by decide)
  have hcne : filepathJoin sd [credsDir] ≠ [] := by
    rw [filepathJoin_single _ credsDir (by decide)]
    simp
  have hrne : filepathJoin stagingDir [credsDir] ≠ [] := by
    rw [filepathJoin_single _ credsDir (by decide)]
    simp
  constructor
  · intro hok
    obtain ⟨hfs, _, _, _, _, hsep⟩ := osRename_ok _ _ _ hok
    have hP : PreserveCreds fs L stagingDir sd
        = (fs.moveTree (filepathJoin sd [credsDir]) (filepathJoin stagingDir [credsDir]),
            none) := by
      unfold PreserveCreds
      dsimp only
      rcases hr : osRename fs (filepathJoin sd [credsDir])
        (filepathJoin stagingDir [credsDir]) with ⟨fs1, _ | e⟩
      · rw [hr] at hfs
        simp only at hfs
        rw [hfs]
      · rw [hr] at hok
        simp at hok
    refine ⟨hP, ?_⟩
    intro q hq hnr
    rw [hP]
    simp only
    rcases hsep with heq | ⟨_, _⟩
    · rw [heq, FS.moveTree_self]
    · apply FS.moveTree_other _ _ _ _ hnr
      obtain ⟨rel, rfl⟩ := hq
      rw [filepathJoin_single _ (utf8 ".nimbella") (by decide),
        filepathJoin_single _ credsDir (by decide), List.append_assoc]
      exact not_prefix_append_of_ne sd credsDir (utf8 ".nimbella") rel (by decide)
  · intro err herr
    have hfs1 := osRename_err _ _ _ _ herr
    have hr : osRename fs (filepathJoin sd [credsDir])
        (filepathJoin stagingDir [credsDir]) = (fs, some err) :=
      Prod.ext hfs1 herr
    have hfall : errorsIsNotExist err = true →
        PreserveCreds fs L stagingDir sd
          = (match osMkdirAll fs (filepathJoin stagingDir [credsDir]) 0o700 with
            | (fs2, some e) => (fs2, some e)
            | (fs2, none) =>
              osRename fs2 (filepathJoin sd [utf8 ".nimbella"])
                (GetCredentialDirectory L stagingDir)) := by
      intro hne
      unfold PreserveCreds
      dsimp only
      rw [hr]
      simp only [hne, Bool.not_true, Bool.false_eq_true, if_false]
    refine ⟨⟨fun hne => ?_, fun h => ?_⟩, fun hne => ?_, fun hne => ⟨hfall hne, fun hleg => ?_⟩⟩
    · rcases osRename_notExist _ _ _ _ herr hne with h | h
      · exact Or.inl h
      · rw [hdrop] at h
        rcases hl : fs.lookup (filepathJoin sd [credsDir]) with e | n
        · rw [osRename_lookup_error _ _ _ e hl] at hr
          simp only [Prod.mk.injEq, Option.some.injEq, true_and] at hr
          subst hr
          cases e <;> simp [errorsIsNotExist] at hne
          exact Or.inl rfl
        · exact Or.inr ⟨⟨n, rfl⟩, h⟩
    · rcases h with h | ⟨⟨n, hn⟩, h⟩
      · rw [osRename_lookup_error _ _ _ _ h] at hr
        simp only [Prod.mk.injEq, Option.some.injEq, true_and] at hr
        subst hr
        rfl
      · rw [osRename_parent_error _ _ _ n _ hn hcne hrne (by rw [hdrop]; exact h)] at hr
        simp only [Prod.mk.injEq, Option.some.injEq, true_and] at hr
        subst hr
        rfl
    · unfold PreserveCreds
      dsimp only
      rw [hr]
      simp only [hne, Bool.not_false, if_true]
    · rw [hfall hne]
      rcases hm : osMkdirAll fs (filepathJoin stagingDir [credsDir]) 0o700 with ⟨fs2, _ | e⟩
      · simp only
        rcases osRename_cases fs2 (filepathJoin sd [utf8 ".nimbella"])
          (GetCredentialDirectory L stagingDir) with ⟨_, ⟨n, hn⟩, _, _, _, hsep⟩ | ⟨e, he, _⟩
        · exfalso
          have hself := FS.lookup_ok_self _ _ _ hn
          have hch := osMkdirAll_change fs (filepathJoin stagingDir [credsDir]) 0o700
            (filepathJoin sd [utf8 ".nimbella"])
          rw [hm] at hch
          simp only at hch
          rcases hch with hch | ⟨_, hpre, _⟩
          · rw [hch, hleg] at hself
            simp at hself
          · obtain ⟨hst, hneq⟩ := legacy_prefix_reloc _ _ hpre
            have hto : filepathJoin stagingDir [credsDir]
                <+: GetCredentialDirectory L stagingDir := by
              unfold GetCredentialDirectory filepathJoin
              rw [List.prefix_append_right_inj]
              simp only [List.filter_cons, List.filter_nil]
              rw [if_pos (by decide), if_pos (by decide)]
              exact ⟨_, rfl⟩
            have hlt : filepathJoin sd [utf8 ".nimbella"]
                <+: GetCredentialDirectory L stagingDir := hpre.trans hto
            rcases hsep with heq | ⟨hno, _⟩
            · have hle := hto.length_le
              rw [← heq] at hle
              exact hneq (List.IsPrefix.eq_of_length_le hpre hle)
            · exact hno hlt
        · rw [he]
          exact ⟨_, rfl⟩
      · exact ⟨e, rfl⟩

/-! ## Claim C21 -/

/-- The archive of the interpreter and the bundle are at different URLs. -/
theorem nodeArchiveURL_ne_sandboxURL (goos arch : GoString) (env : Env) :
    nodeArchiveURL goos arch ≠ sandboxURL env := by
  intro e
  have h1 : ∃ t, nodeArchiveURL goos arch = utf8 "https://n" ++ t := by
    unfold nodeArchiveURL
    have e1 : utf8 "https://nodejs.org/dist/" = utf8 "https://n" ++ utf8 "odejs.org/dist/" := by
      decide
    rw [e1]
    by_cases hg : goos = utf8 "win"
    · rw [if_pos hg]
      simp only [List.append_assoc]
      exact ⟨_, rfl⟩
    · rw [if_neg hg]
      simp only [List.append_assoc]
      exact ⟨_, rfl⟩
  have h2 : ∃ t, sandboxURL env = utf8 "https://d" ++ t := by
    unfold sandboxURL
    have e2 : utf8 "https://do-serverless-tools.nyc3.digitaloceanspaces.com/doctl-sandbox-"
        = utf8 "https://d"
          ++ utf8 "o-serverless-tools.nyc3.digitaloceanspaces.com/doctl-sandbox-" := by
      decide
    rw [e2]
    simp only [List.append_assoc]
    exact ⟨_, rfl⟩
  obtain ⟨t1, ht1⟩ := h1
  obtain ⟨t2, ht2⟩ := h2
  rw [ht1, ht2] at e
  have := List.append_inj_left e rfl
  exact absurd this (by decide)

/-- The interpreter can be reused exactly when the version probe succeeds with an output
that, trimmed, is the target version. -/
theorem canReuseNode_iff (w : World) (fs : FS) (serverlessDir : Path) (nodeBin : GoString) :
    canReuseNode w fs serverlessDir nodeBin = true ↔
      ∃ out, execCommandOutput w fs (filepathJoin serverlessDir [nodeBin]) [utf8 "--version"]
          = (out, none) ∧ stringsTrimSpace out = nodeVersion := by
  unfold canReuseNode
  dsimp only
  rcases execCommandOutput w fs (filepathJoin serverlessDir [nodeBin]) [utf8 "--version"]
    with ⟨out, _ | e⟩
  · simp
  · simp

/-- When the interpreter is reused, the run requests the bundle and nothing else, and records
no archive file of the interpreter. -/
theorem installFetch_skip (s : serverlessService) (w : World) (env : Env)
    (m : Machine) (goos arch nodeBin : GoString)
    (htmp : (ioutilTempDir w.random m.fs (filepathDir s.serverlessDir)
      (utf8 "sbx-install")).2.2 = none)
    (hn : targetNames w.GOOS w.GOARCH = Except.ok (goos, arch, nodeBin))
    (hc : canReuseNode w (m.fs.set (stagingPath s w) (Node.dir 0o700))
      s.serverlessDir nodeBin = true) :
    (installFetch s w env m true).1.requests = m.requests ++ [sandboxURL env] ∧
      ∀ st, (installFetch s w env m true).2 = Except.ok st → st.nodeFileName = none := by
  have hok := ioutilTempDir_ok w.random m.fs (filepathDir s.serverlessDir)
    (utf8 "sbx-install") htmp
  unfold installFetch
  dsimp only
  rw [hok.1, hn]
  dsimp only
  have hc1 : canReuseNode w
      (m.fs.set (filepathDir s.serverlessDir ++ [utf8 "sbx-install" ++ w.random]) (Node.dir 0o700))
      s.serverlessDir nodeBin = true := hc
  rw [if_neg (by simp [hc1])]
  dsimp only
  have hreq2 := download_requests w
    { fs := m.fs.set (filepathDir s.serverlessDir ++ [utf8 "sbx-install" ++ w.random])
        (Node.dir 0o700), requests := m.requests } (sandboxURL env)
    (filepathJoin (filepathDir s.serverlessDir ++ [utf8 "sbx-install" ++ w.random])
      [utf8 "doctl-sandbox.tar.gz"])
  rcases hd2 : download w
    { fs := m.fs.set (filepathDir s.serverlessDir ++ [utf8 "sbx-install" ++ w.random])
        (Node.dir 0o700), requests := m.requests } (sandboxURL env)
    (filepathJoin (filepathDir s.serverlessDir ++ [utf8 "sbx-install" ++ w.random])
      [utf8 "doctl-sandbox.tar.gz"]) with ⟨m2, _ | e2⟩
  · rw [hd2] at hreq2
    dsimp only at hreq2 ⊢
    rcases extractExtract w m2.fs
      (filepathJoin (filepathDir s.serverlessDir ++ [utf8 "sbx-install" ++ w.random])
        [utf8 "doctl-sandbox.tar.gz"])
      (filepathDir s.serverlessDir ++ [utf8 "sbx-install" ++ w.random]) with ⟨fs3, _ | e3⟩
    · refine ⟨hreq2, fun st hst => ?_⟩
      simp only [Except.ok.injEq] at hst
      rw [← hst]
    · refine ⟨hreq2, fun st hst => ?_⟩
      simp at hst
  · rw [hd2] at hreq2
    refine ⟨hreq2, fun st hst => ?_⟩
    simp at hst

/-- A successful `PreserveCreds` changes nothing outside the credentials subtree, the legacy
directory and the staging directory with the directories above it. -/
theorem PreserveCreds_ok_frame (fs : FS) (L : GoString) (stagingDir sd : Path)
    (h : (PreserveCreds fs L stagingDir sd).2 = none) (q : Path)
    (hc : ¬ filepathJoin sd [credsDir] <+: q)
    (hl : ¬ filepathJoin sd [utf8 ".nimbella"] <+: q)
    (hs : ¬ stagingDir <+: q) (hq : ¬ q <+: stagingDir) :
    (PreserveCreds fs L stagingDir sd).1 q = fs q := by
  have hrel : ¬ filepathJoin stagingDir [credsDir] <+: q := fun hp =>
    hs ((filepathJoin_extends stagingDir [credsDir]).trans hp)
  have hto : ¬ GetCredentialDirectory L stagingDir <+: q := fun hp =>
    hs ((filepathJoin_extends stagingDir [credsDir, L]).trans hp)
  have hqr : ¬ q <+: filepathJoin stagingDir [credsDir] := by
    intro hp
    rw [filepathJoin_single _ credsDir (by decide)] at hp hrel
    rcases hp with ⟨t, ht⟩
    rcases List.eq_nil_or_concat t with rfl | ⟨t1, x, rfl⟩
    · rw [List.append_nil] at ht
      exact hrel (ht ▸ List.prefix_refl _)
    · rw [List.concat_eq_append, ← List.append_assoc] at ht
      exact hq ⟨t1, List.append_inj_left' ht rfl⟩
  unfold PreserveCreds at h ⊢
  dsimp only at h ⊢
  have hok1 := osRename_ok fs (filepathJoin sd [credsDir])
    (filepathJoin stagingDir [credsDir])
  have herr1 := osRename_err fs (filepathJoin sd [credsDir])
    (filepathJoin stagingDir [credsDir])
  rcases hr : osRename fs (filepathJoin sd [credsDir])
    (filepathJoin stagingDir [credsDir]) with ⟨fs1, _ | e1⟩
  · rw [hr] at hok1
    dsimp only at hok1 ⊢
    obtain ⟨hfs1, _, _, _, _, hsep⟩ := hok1 rfl
    rw [hfs1]
    rcases hsep with heq | _
    · rw [heq, FS.moveTree_self]
    · exact FS.moveTree_other _ _ _ _ hrel hc
  · rw [hr] at h herr1
    have hfs1 : fs1 = fs := herr1 e1 rfl
    subst hfs1
    dsimp only at h ⊢
    by_cases hne : errorsIsNotExist e1 = true
    · simp only [hne, Bool.not_true, Bool.false_eq_true, if_false] at h ⊢
      have hch := osMkdirAll_change fs1 (filepathJoin stagingDir [credsDir]) 0o700 q
      rcases hm : osMkdirAll fs1 (filepathJoin stagingDir [credsDir]) 0o700 with ⟨fs2, _ | e2⟩
      · rw [hm] at h hch
        dsimp only at h hch ⊢
        have hfs2 : fs2 q = fs1 q := by
          rcases hch with hch | ⟨_, hp, _⟩
          · exact hch
          · exact absurd hp hqr
        obtain ⟨hfs3, _, _, _, _, hsep⟩ := osRename_ok fs2
          (filepathJoin sd [utf8 ".nimbella"]) (GetCredentialDirectory L stagingDir) h
        rw [hfs3, ← hfs2]
        rcases hsep with heq | _
        · rw [heq, FS.moveTree_self]
        · exact FS.moveTree_other _ _ _ _ hto hl
      · rw [hm] at h
        simp at h
    · simp only [hne, Bool.not_false, if_true] at h
      simp at h

/-- An upgrade that reuses the interpreter and returns nil: the credentials were preserved,
the interpreter was moved into the staged tree, and the activation went through. -/
theorem InstallServerless_nil_reuse (s : serverlessService) (w : World) (env : Env)
    (m : Machine) (L : GoString) (st : Staging)
    (hf : (installFetch s w env m true).2 = Except.ok st) (hnf : st.nodeFileName = none)
    (h : (InstallServerless s w env m L true).2 = none) :
    ∃ fsP fs2 : FS,
      PreserveCreds (installFetch s w env m true).1.fs L
        (filepathJoin st.tmp [utf8 "sandbox"]) s.serverlessDir = (fsP, none) ∧
      osRename fsP (filepathJoin s.serverlessDir [st.nodeBin])
        (filepathJoin (filepathJoin st.tmp [utf8 "sandbox"]) [st.nodeBin]) = (fs2, none) ∧
      (installActivate s fs2 st).2 = none ∧
      (InstallServerless s w env m L true).1.fs = (installActivate s fs2 st).1 := by
  rw [InstallServerless_fetch_ok s w env m L true st hf] at h ⊢
  unfold installRelocate at h ⊢
  dsimp only at h ⊢
  simp only [if_true] at h ⊢
  rcases hp : PreserveCreds (installFetch s w env m true).1.fs L
    (filepathJoin st.tmp [utf8 "sandbox"]) s.serverlessDir with ⟨fsP, _ | e1⟩
  · rw [hp] at h
    dsimp only at h ⊢
    rw [hnf] at h ⊢
    dsimp only at h ⊢
    unfold moveExistingNode at h ⊢
    dsimp only at h ⊢
    rcases hr : osRename fsP (filepathJoin s.serverlessDir [st.nodeBin])
      (filepathJoin (filepathJoin st.tmp [utf8 "sandbox"]) [st.nodeBin]) with ⟨fsN, _ | e2⟩
    · rw [hr] at h
      dsimp only at h ⊢
      exact ⟨fsP, fsN, rfl, hr, h, rfl⟩
    · rw [hr] at h
      simp at h
  · rw [hp] at h
    simp at h

/-- The names of the interpreter binary are not the name of the legacy directory. -/
theorem targetNames_nodeBin_ne_legacy (goos0 arch0 goos arch nodeBin : GoString)
    (h : targetNames goos0 arch0 = Except.ok (goos, arch, nodeBin)) :
    nodeBin ≠ utf8 ".nimbella" := by
  rw [(targetNames_ok _ _ _ _ _ h).1]
  by_cases hw : goos0 = utf8 "windows"
  · rw [if_pos hw]
    decide
  · rw [if_neg hw]
    decide

/-- C21: once the temporary directory is made and the platform is a supported one,
`InstallServerless` does not request the archive of the interpreter if and only if
`upgrading` is true and the version probe of the installed interpreter, run after the
temporary directory was made, succeeds with an output that, trimmed of surrounding white
space, is `v16.13.0`.  Then the only request of the run is the one for the bundle; in every
other case the first request of the run is the one for the archive of the interpreter.  When
the download was skipped and the upgrade returns nil, the install directory holds at and below
the interpreter binary what the previous install held there, and the binary resolves to the
file it was. -/
theorem C21_interpreter_download_skipped_iff (s : serverlessService) (w : World) (env : Env)
    (m : Machine) (L : GoString) (upgrading : Bool) (goos arch nodeBin : GoString)
    (htmp : (ioutilTempDir w.random m.fs (filepathDir s.serverlessDir)
      (utf8 "sbx-install")).2.2 = none)
    (hn : targetNames w.GOOS w.GOARCH = Except.ok (goos, arch, nodeBin)) :
    (nodeArchiveURL goos arch
        ∉ (InstallServerless s w env m L upgrading).1.requests.drop m.requests.length ↔
      (upgrading = true ∧
        ∃ out, execCommandOutput w (m.fs.set (stagingPath s w) (Node.dir 0o700))
            (filepathJoin s.serverlessDir [nodeBin]) [utf8 "--version"] = (out, none) ∧
          stringsTrimSpace out = nodeVersion)) ∧
    ((upgrading = true ∧
        ∃ out, execCommandOutput w (m.fs.set (stagingPath s w) (Node.dir 0o700))
            (filepathJoin s.serverlessDir [nodeBin]) [utf8 "--version"] = (out, none) ∧
          stringsTrimSpace out = nodeVersion) →
      (InstallServerless s w env m L upgrading).1.requests
          = m.requests ++ [sandboxURL env] ∧
        ((InstallServerless s w env m L upgrading).2 = none →
          (∀ rel, (InstallServerless s w env m L upgrading).1.fs
              (s.serverlessDir ++ [nodeBin] ++ rel) = m.fs (s.serverlessDir ++ [nodeBin] ++ rel)) ∧
          ∃ pm program,
            m.fs (s.serverlessDir ++ [nodeBin]) = some (Node.file pm program) ∧
            (InstallServerless s w env m L upgrading).1.fs.lookup (s.serverlessDir ++ [nodeBin])
              = Except.ok (Node.file pm program))) ∧
    (¬ (upgrading = true ∧
        ∃ out, execCommandOutput w (m.fs.set (stagingPath s w) (Node.dir 0o700))
            (filepathJoin s.serverlessDir [nodeBin]) [utf8 "--version"] = (out, none) ∧
          stringsTrimSpace out = nodeVersion) →
      m.requests ++ [nodeArchiveURL goos arch]
        <+: (InstallServerless s w env m L upgrading).1.requests) := by
  rw [← canReuseNode_iff]
  have hskip : (upgrading = true ∧ canReuseNode w (m.fs.set (stagingPath s w) (Node.dir 0o700))
        s.serverlessDir nodeBin = true) →
      (InstallServerless s w env m L upgrading).1.requests = m.requests ++ [sandboxURL env] := by
    rintro ⟨hu, hc⟩
    subst hu
    rw [InstallServerless_requests]
    exact (installFetch_skip s w env m goos arch nodeBin htmp hn hc).1
  have hload : ¬ (upgrading = true ∧ canReuseNode w
        (m.fs.set (stagingPath s w) (Node.dir 0o700)) s.serverlessDir nodeBin = true) →
      m.requests ++ [nodeArchiveURL goos arch]
        <+: (InstallServerless s w env m L upgrading).1.requests := by
    intro hno
    rw [InstallServerless_requests]
    apply installFetch_node_request s w env m upgrading goos arch nodeBin htmp hn
    cases upgrading
    · rfl
    · simp only [Bool.not_true, Bool.false_or, Bool.not_eq_true']
      simpa using hno
  refine ⟨⟨fun hnot => ?_, fun hC => ?_⟩, fun hC => ⟨hskip hC, fun hrun => ?_⟩, hload⟩
  · by_contra hno
    obtain ⟨t, ht⟩ := hload hno
    apply hnot
    rw [← ht, List.append_assoc, List.drop_left]
    simp
  · rw [hskip hC, List.drop_left]
    simp only [List.mem_singleton]
    exact nodeArchiveURL_ne_sandboxURL goos arch env
  · obtain ⟨hu, hc⟩ := hC
    subst hu
    obtain ⟨st, hf⟩ := InstallServerless_nil_fetch s w env m L true hrun
    obtain ⟨htmpst, hnames, _, _, _⟩ := installFetch_ok s w env m true st hf
    have hnb : st.nodeBin = nodeBin := by
      rw [hn] at hnames
      simp only [Except.ok.injEq, Prod.mk.injEq] at hnames
      exact hnames.2.2.symm
    have hnf := (installFetch_skip s w env m goos arch nodeBin htmp hn hc).2 st hf
    obtain ⟨hbin, hbinc, _⟩ := targetNames_nodeBin_ne _ _ _ _ _ hn
    have hbinl := targetNames_nodeBin_ne_legacy _ _ _ _ _ hn
    obtain ⟨fsP, fs2, hP, hmove, hact, hres⟩ :=
      InstallServerless_nil_reuse s w env m L st hf hnf hrun
    rw [hnb] at hmove
    obtain ⟨hstaging, hsd, hparent, _, hin, _⟩ :=
      installActivate_ok s w fs2 st htmpst (hnb ▸ hbin) hact
    have hsb : filepathJoin st.tmp [utf8 "sandbox"] = stagingPath s w ++ [utf8 "sandbox"] := by
      rw [htmpst]
      exact filepathJoin_single _ _ (by decide)
    rw [hsb] at hP hmove
    rw [filepathJoin_single _ _ hbin, filepathJoin_single _ _ hbin] at hmove
    obtain ⟨hfs2, _, ⟨pmS, hsand⟩, _, _, _⟩ := osRename_ok _ _ _ (by rw [hmove])
    rw [hmove] at hfs2
    simp only at hfs2
    rw [List.dropLast_concat] at hsand
    -- below the install directory the preserved state is the one before the run
    have hkeep : ∀ rel, fsP (s.serverlessDir ++ [nodeBin] ++ rel)
        = m.fs (s.serverlessDir ++ [nodeBin] ++ rel) := by
      intro rel
      have hfr := PreserveCreds_ok_frame (installFetch s w env m true).1.fs L
        (stagingPath s w ++ [utf8 "sandbox"]) s.serverlessDir (by rw [hP])
        (s.serverlessDir ++ [nodeBin] ++ rel)
        (by
          rw [filepathJoin_single _ credsDir (by decide), List.append_assoc]
          exact not_prefix_append_of_ne s.serverlessDir credsDir nodeBin rel
            (fun e => hbinc e.symm))
        (by
          rw [filepathJoin_single _ (utf8 ".nimbella") (by decide), List.append_assoc]
          exact not_prefix_append_of_ne s.serverlessDir (utf8 ".nimbella") nodeBin rel
            (fun e => hbinl e.symm))
        (by
          rw [List.append_assoc]
          exact not_staging_prefix_install s w _ _ hstaging)
        (by
          rw [List.append_assoc]
          exact not_install_prefix_staging s w _ _ hstaging)
      rw [hP] at hfr
      simp only at hfr
      rw [hfr]
      apply installFetch_frame
      apply not_prefix_staging s w _ hstaging
      exact ⟨[nodeBin] ++ rel, by simp⟩
    have hfinal : ∀ rel, (InstallServerless s w env m L true).1.fs
        (s.serverlessDir ++ [nodeBin] ++ rel) = m.fs (s.serverlessDir ++ [nodeBin] ++ rel) := by
      intro rel
      rw [hres]
      have h1 := hin ([nodeBin] ++ rel) (Or.inl hnf)
      simp only [← List.append_assoc] at h1
      rw [h1, hfs2, FS.moveTree_new]
      exact hkeep rel
    refine ⟨hfinal, ?_⟩
    -- the probe ran a file
    obtain ⟨out, hprobe, _⟩ := (canReuseNode_iff _ _ _ _).mp hc
    have hne : s.serverlessDir ++ [nodeBin] ≠ stagingPath s w := fun e =>
      hstaging (e ▸ List.prefix_append _ _)
    have hfile : ∃ pm program, m.fs (s.serverlessDir ++ [nodeBin]) = some (Node.file pm program) := by
      unfold execCommandOutput at hprobe
      rw [filepathJoin_single _ _ hbin] at hprobe
      rcases hl : (m.fs.set (stagingPath s w) (Node.dir 0o700)).lookup (s.serverlessDir ++ [nodeBin])
        with e | (⟨pm, program⟩ | pm)
      · rw [hl] at hprobe
        simp at hprobe
      · have := FS.lookup_ok_self _ _ _ hl
        rw [FS.set_other _ _ _ _ hne] at this
        exact ⟨pm, program, this⟩
      · rw [hl] at hprobe
        simp at hprobe
    obtain ⟨pm, program, hfile⟩ := hfile
    refine ⟨pm, program, hfile, ?_⟩
    -- the install directory is the staged directory
    have hdir : (InstallServerless s w env m L true).1.fs s.serverlessDir
        = some (Node.dir pmS) := by
      rw [hres]
      have h1 := hin [] (Or.inl hnf)
      simp only [List.append_nil] at h1
      rw [h1, hfs2, FS.moveTree_other]
      · exact FS.lookup_ok_self _ _ _ hsand
      · exact not_prefix_of_length_lt _ _ (by simp)
      · have := not_install_prefix_staging s w [utf8 "sandbox"] [nodeBin] hstaging
        exact this
    obtain ⟨pmP, hparent⟩ := hparent
    rw [← hres] at hparent
    have hlsd := FS.lookup_of_parent _ s.serverlessDir pmP _ hsd hparent hdir
    have hlast := FS.lookup_of_parent (InstallServerless s w env m L true).1.fs
      (s.serverlessDir ++ [nodeBin]) pmS (Node.file pm program) (by simp)
      (by rw [List.dropLast_concat]; exact hlsd)
      (by
        have := hfinal []
        simp only [List.append_nil] at this
        rw [this, hfile])
    exact hlast

/-- C21 on the upgrade of the install under `/home/.sandbox` whose interpreter `node16`
prints `v16.13.0` and a line end: the temporary directory can be made, linux on amd64 is
supported, the probe succeeds; so the run requests the bundle alone, it returns nil, and the
binary `node` of the new install resolves to the file it was. -/
theorem C21_interpreter_download_skipped_iff_witness :
    (InstallServerless sampleService sampleWorld (sampleEnv [])
        { fs := sampleUpgradeFS, requests := [] } (utf8 "tok") true).1.requests
      = [] ++ [sandboxURL (sampleEnv [])] ∧
    ∃ pm program,
      sampleUpgradeFS (sampleService.serverlessDir ++ [utf8 "node"])
        = some (Node.file pm program) ∧
      (InstallServerless sampleService sampleWorld (sampleEnv [])
        { fs := sampleUpgradeFS, requests := [] } (utf8 "tok") true).1.fs.lookup
          (sampleService.serverlessDir ++ [utf8 "node"]) = Except.ok (Node.file pm program) :=
  ⟨((C21_interpreter_download_skipped_iff sampleService sampleWorld (sampleEnv [])
      { fs := sampleUpgradeFS, requests := [] } (utf8 "tok") true (utf8 "linux") (utf8 "x64")
      (utf8 "node") (by decide) rfl).2.1 ⟨rfl, utf8 "v16.13.0\n", by decide, by decide⟩).1,
    (((C21_interpreter_download_skipped_iff sampleService sampleWorld (sampleEnv [])
      { fs := sampleUpgradeFS, requests := [] } (utf8 "tok") true (utf8 "linux") (utf8 "x64")
      (utf8 "node") (by decide) rfl).2.1 ⟨rfl, utf8 "v16.13.0\n", by decide, by decide⟩).2
      (by decide)).2⟩

/-! ## Claim C11 -/

/-- C11, counterexample: an upgrade of the install under `/home/.sandbox`, whose interpreter
can be reused, with a bundle in which `sandbox/node` is a directory.  The credentials are
moved into the staged tree, then the move of the interpreter fails with `EEXIST`, its new
path being an existing directory, and `InstallServerless` returns that error: before the
activation step, yet the credentials file of `tok`, which was in the install directory before
the call, is not there after it. -/
theorem C11_credentials_moved_counterexample :
    (InstallServerless sampleService sampleNodeDirBundleWorld (sampleEnv [])
      { fs := sampleUpgradeFS, requests := [] } (utf8 "tok") true).2
      = some (GoError.linkError (utf8 "rename") [utf8 "home", utf8 ".sandbox", utf8 "node"]
          [utf8 "home", utf8 "sbx-install123", utf8 "sandbox", utf8 "node"] Errno.EEXIST) ∧
    (installRelocate sampleService
      (installFetch sampleService sampleNodeDirBundleWorld (sampleEnv [])
        { fs := sampleUpgradeFS, requests := [] } true).1.fs (utf8 "tok") true
      sampleReuseStaging).2
      = Relocated.failed (GoError.linkError (utf8 "rename")
          [utf8 "home", utf8 ".sandbox", utf8 "node"]
          [utf8 "home", utf8 "sbx-install123", utf8 "sandbox", utf8 "node"] Errno.EEXIST) ∧
    sampleUpgradeFS [utf8 "home", utf8 ".sandbox", utf8 "creds", utf8 "tok",
      utf8 "credentials.json"] = some (Node.file 384 (utf8 "tok-credentials")) ∧
    (InstallServerless sampleService sampleNodeDirBundleWorld (sampleEnv [])
      { fs := sampleUpgradeFS, requests := [] } (utf8 "tok") true).1.fs
      [utf8 "home", utf8 ".sandbox", utf8 "creds", utf8 "tok", utf8 "credentials.json"]
      = none := by
  refine ⟨by decide, by rfl, by decide, by decide⟩

/-- C11, amended: for every initial filesystem state and both values of `upgrading`, when the
temporary directory is not inside the install directory: a run of `InstallServerless` in
which the first part fails (the temporary directory, the check of the target, a download, an
extraction), or in which, not upgrading, the creation of the install directory path fails,
or in which, upgrading, `PreserveCreds` fails, returns an error and leaves every path in the
install directory as it was before the call.  And in an upgrade that reuses the interpreter,
when `PreserveCreds` has returned nil and `moveExistingNode` fails, that error is returned
with the filesystem as `PreserveCreds` left it: if the credentials subtree and the staged
`sandbox` resolved, nothing is at or below `<serverlessDir>/creds` any more, the staged tree
holds it. -/
theorem C11_install_untouched (s : serverlessService) (w : World) (env : Env) (m : Machine)
    (L : GoString) (upgrading : Bool)
    (hstaging : ¬ s.serverlessDir <+: stagingPath s w) :
    (((∃ e, (installFetch s w env m upgrading).2 = Except.error e) ∨
      (∃ st, (installFetch s w env m upgrading).2 = Except.ok st ∧
        ((upgrading = false ∧ ∃ e, (installRelocate s (installFetch s w env m upgrading).1.fs
            L upgrading st).2 = Relocated.failed e) ∨
          (upgrading = true ∧ (PreserveCreds (installFetch s w env m upgrading).1.fs L
            (filepathJoin st.tmp [utf8 "sandbox"]) s.serverlessDir).2 ≠ none)))) →
      (InstallServerless s w env m L upgrading).2 ≠ none ∧
      ∀ q, s.serverlessDir <+: q →
        (InstallServerless s w env m L upgrading).1.fs q = m.fs q) ∧
    (∀ st fsP e, upgrading = true →
      (installFetch s w env m upgrading).2 = Except.ok st → st.nodeFileName = none →
      PreserveCreds (installFetch s w env m upgrading).1.fs L
        (filepathJoin st.tmp [utf8 "sandbox"]) s.serverlessDir = (fsP, none) →
      (moveExistingNode fsP s.serverlessDir (filepathJoin st.tmp [utf8 "sandbox"])
        st.nodeBin).2 = some e →
      (InstallServerless s w env m L upgrading).2 = some e ∧
      (InstallServerless s w env m L upgrading).1.fs = fsP ∧
      (∀ n nb, m.fs.lookup (s.serverlessDir ++ [credsDir]) = Except.ok n →
        (installFetch s w env m upgrading).1.fs.lookup (stagingPath s w ++ [utf8 "sandbox"])
          = Except.ok nb →
        ∀ rel, fsP (s.serverlessDir ++ [credsDir] ++ rel) = none ∧
          fsP (stagingPath s w ++ [utf8 "sandbox"] ++ [credsDir] ++ rel)
            = m.fs (s.serverlessDir ++ [credsDir] ++ rel))) := by
  have hframe : ∀ q, s.serverlessDir <+: q → (installFetch s w env m upgrading).1.fs q = m.fs q :=
    fun q hq => installFetch_frame s w env m upgrading q (not_prefix_staging s w q hstaging hq)
  refine ⟨fun hphase => ?_, ?_⟩
  · rcases hphase with ⟨e, he⟩ | ⟨st, hst, hrel⟩
    · rw [InstallServerless_fetch_error s w env m L upgrading e he]
      exact ⟨by simp, hframe⟩
    · obtain ⟨htmp, _⟩ := installFetch_ok s w env m upgrading st hst
      have hcreds_ne : credsDir ≠ [] := by decide
      have hp1 : filepathJoin (filepathJoin st.tmp [utf8 "sandbox"]) [credsDir]
          = stagingPath s w ++ ([utf8 "sandbox"] ++ [credsDir]) := by
        rw [htmp, filepathJoin_single _ (utf8 "sandbox") (by decide),
          filepathJoin_single _ credsDir hcreds_ne, List.append_assoc]
      rw [InstallServerless_fetch_ok s w env m L upgrading st hst]
      rcases hrel with ⟨hup, e, he⟩ | ⟨hup, hpc⟩
      · subst hup
        unfold installRelocate at he ⊢
        dsimp only at he ⊢
        simp only [Bool.false_eq_true, if_false] at he ⊢
        rw [hp1] at he ⊢
        have hch := osMkdirAll_change (installFetch s w env m false).1.fs
          (stagingPath s w ++ ([utf8 "sandbox"] ++ [credsDir])) 0o700
        rcases hm1 : osMkdirAll (installFetch s w env m false).1.fs
          (stagingPath s w ++ ([utf8 "sandbox"] ++ [credsDir])) 0o700 with ⟨fs1, _ | e1⟩
        · rw [hm1] at he hch
          dsimp only at he hch ⊢
          have herr := osMkdirAll_err fs1 s.serverlessDir 0o755
          rcases hm2 : osMkdirAll fs1 s.serverlessDir 0o755 with ⟨fs2, _ | e2⟩
          · rw [hm2] at he
            simp at he
          · rw [hm2] at herr
            have hfs2 : fs2 = fs1 := herr e2 rfl
            refine ⟨by simp, ?_⟩
            intro q hq
            dsimp only
            rw [hfs2]
            rcases hch q with h1 | ⟨_, h1, _⟩
            · rw [h1]
              exact hframe q hq
            · exact absurd h1 (not_prefix_staging_append s w q _ hstaging hq)
        · rw [hm1] at he
          simp at he
      · subst hup
        unfold installRelocate
        dsimp only
        simp only [if_true]
        have hfr := PreserveCreds_err_frame (installFetch s w env m true).1.fs L
          (filepathJoin st.tmp [utf8 "sandbox"]) s.serverlessDir hpc
        rcases hp : PreserveCreds (installFetch s w env m true).1.fs L
          (filepathJoin st.tmp [utf8 "sandbox"]) s.serverlessDir with ⟨fs1, _ | e1⟩
        · rw [hp] at hpc
          exact absurd rfl hpc
        · rw [hp] at hfr
          refine ⟨by simp, ?_⟩
          intro q hq
          dsimp only at hfr ⊢
          rw [hfr q]
          · exact hframe q hq
          · rw [hp1]
            exact not_prefix_staging_append s w q _ hstaging hq
  · intro st fsP e hup hst hnf hP hmv
    subst hup
    obtain ⟨htmp, _⟩ := installFetch_ok s w env m true st hst
    have hsb : filepathJoin st.tmp [utf8 "sandbox"] = stagingPath s w ++ [utf8 "sandbox"] := by
      rw [htmp]
      exact filepathJoin_single _ _ (by decide)
    have hres : InstallServerless s w env m L true
        = ({ fs := fsP, requests := (installFetch s w env m true).1.requests }, some e) := by
      rw [InstallServerless_fetch_ok s w env m L true st hst]
      unfold installRelocate
      dsimp only
      simp only [if_true]
      rw [hP]
      dsimp only
      rw [hnf]
      dsimp only
      have herr : (moveExistingNode fsP s.serverlessDir (filepathJoin st.tmp [utf8 "sandbox"])
          st.nodeBin).1 = fsP := by
        unfold moveExistingNode at hmv ⊢
        exact osRename_err _ _ _ _ hmv
      rcases hm : moveExistingNode fsP s.serverlessDir (filepathJoin st.tmp [utf8 "sandbox"])
        st.nodeBin with ⟨fsN, _ | e2⟩
      · rw [hm] at hmv
        simp at hmv
      · rw [hm] at hmv herr
        simp only [Option.some.injEq] at hmv
        simp only at herr
        rw [hmv, herr]
    refine ⟨by rw [hres], by rw [hres], ?_⟩
    intro n nb hcreds hbundle rel
    have hcp : filepathJoin s.serverlessDir [credsDir] = s.serverlessDir ++ [credsDir] :=
      filepathJoin_single _ _ (by decide)
    have hrp : filepathJoin (stagingPath s w ++ [utf8 "sandbox"]) [credsDir]
        = stagingPath s w ++ [utf8 "sandbox"] ++ [credsDir] :=
      filepathJoin_single _ _ (by decide)
    have hc1 : (installFetch s w env m true).1.fs.lookup (filepathJoin s.serverlessDir [credsDir])
        = Except.ok n := by
      rw [hcp, ← hcreds]
      apply FS.lookup_congr
      intro q hq
      apply installFetch_frame
      intro hp
      have := not_staging_prefix_install s w [] [credsDir] hstaging
      simp only [List.append_nil] at this
      exact this (List.IsPrefix.trans hp hq)
    have hfsP : fsP = (installFetch s w env m true).1.fs.moveTree
        (s.serverlessDir ++ [credsDir]) (stagingPath s w ++ [utf8 "sandbox"] ++ [credsDir]) := by
      have := PreserveCreds_new_style (installFetch s w env m true).1.fs L
        (filepathJoin st.tmp [utf8 "sandbox"]) s.serverlessDir n nb hc1
        (by rw [hsb]; exact hbundle) (by rw [hP])
      rw [hP, hsb, hcp, hrp] at this
      exact this
    rw [hfsP]
    constructor
    · apply FS.moveTree_old
      · have := not_staging_prefix_install s w ([utf8 "sandbox"] ++ [credsDir])
          ([credsDir] ++ rel) hstaging
        simpa using this
      · exact List.prefix_append _ _
    · rw [FS.moveTree_new]
      exact hframe _ ⟨[credsDir] ++ rel, by simp⟩

/-- C11, amended, on the upgrade of an install under `/home/.sandbox` that holds a version
file and nothing else: `PreserveCreds` finds neither `creds` nor `.nimbella` and fails. -/
theorem C11_install_untouched_witness :
    (InstallServerless sampleService sampleWorld (sampleEnv [])
      { fs := sampleInstalledFS (utf8 "4.0.0"), requests := [] } (utf8 "tok") true).2 ≠ none ∧
    ∀ q, sampleService.serverlessDir <+: q →
      (InstallServerless sampleService sampleWorld (sampleEnv [])
        { fs := sampleInstalledFS (utf8 "4.0.0"), requests := [] } (utf8 "tok") true).1.fs q
        = (sampleInstalledFS (utf8 "4.0.0")) q :=
  (C11_install_untouched sampleService sampleWorld (sampleEnv [])
    { fs := sampleInstalledFS (utf8 "4.0.0"), requests := [] } (utf8 "tok") true (by decide)).1
    (Or.inr ⟨sampleStaging, rfl, Or.inr ⟨rfl, by decide⟩⟩)


/-! ## Claim C3 -/

/-- Resolution ends with `ENOENT` exactly when some name on the path is missing and every
name before the first missing one is a directory. -/
theorem FS.walk_enoent_iff (fs : FS) (cur : Path) (rest : List GoString) :
    fs.walk cur rest = Except.error Errno.ENOENT ↔
      ∃ a, a <+: rest ∧ fs (cur ++ a) = none ∧
        ∀ b, b <+: a → b ≠ a → ∃ pm, fs (cur ++ b) = some (Node.dir pm) := by
  induction rest generalizing cur with
  | nil =>
    simp only [FS.walk]
    constructor
    · intro h
      refine ⟨[], List.prefix_refl _, ?_, ?_⟩
      · rcases hc : fs cur with _ | n
        · simpa using hc
        · rw [hc] at h
          simp at h
      · intro b hb hne
        exact absurd (List.prefix_nil.mp hb) hne
    · rintro ⟨a, ha, hnone, _⟩
      rw [List.prefix_nil.mp ha, List.append_nil] at hnone
      rw [hnone]
  | cons c rest ih =>
    simp only [FS.walk]
    rcases hc : fs cur with _ | (⟨p, d⟩ | pm)
    · simp only [true_iff]
      exact ⟨[], List.nil_prefix, by simpa using hc,
        fun b hb hne => absurd (List.prefix_nil.mp hb) hne⟩
    · constructor
      · intro h
        cases h
      · rintro ⟨a, _, hnone, hdirs⟩
        by_cases ha : a = []
        · subst ha
          rw [List.append_nil, hc] at hnone
          simp at hnone
        · obtain ⟨pm, hpm⟩ := hdirs [] List.nil_prefix (fun e => ha e.symm)
          rw [List.append_nil, hc] at hpm
          simp at hpm
    · simp only
      rw [ih (cur ++ [c])]
      constructor
      · rintro ⟨a, ha, hnone, hdirs⟩
        refine ⟨c :: a, ?_, ?_, ?_⟩
        · exact (List.prefix_cons_inj c).mpr ha
        · simpa using hnone
        · intro b hb hne
          cases b with
          | nil => exact ⟨pm, by simpa using hc⟩
          | cons x b1 =>
            obtain ⟨hx, hb1⟩ := List.cons_prefix_cons.mp hb
            subst hx
            obtain ⟨pm1, h1⟩ := hdirs b1 hb1 (fun e => hne (by rw [e]))
            exact ⟨pm1, by simpa using h1⟩
      · rintro ⟨a, ha, hnone, hdirs⟩
        cases a with
        | nil =>
          rw [List.append_nil, hc] at hnone
          simp at hnone
        | cons x a1 =>
          obtain ⟨hx, ha1⟩ := List.cons_prefix_cons.mp ha
          subst hx
          refine ⟨a1, ha1, by simpa using hnone, ?_⟩
          intro b hb hne
          obtain ⟨pm1, h1⟩ := hdirs (x :: b) ((List.prefix_cons_inj x).mpr hb)
            (fun e => hne (List.cons.inj e).2)
          exact ⟨pm1, by simpa using h1⟩

theorem FS.lookup_enoent_iff (fs : FS) (p : Path) :
    fs.lookup p = Except.error Errno.ENOENT ↔
      ∃ q, q <+: p ∧ fs q = none ∧
        ∀ r, r <+: q → r ≠ q → ∃ pm, fs r = some (Node.dir pm) := by
  have := FS.walk_enoent_iff fs [] p
  simpa [FS.lookup] using this

/-- The test `os.IsNotExist` of the error of `os.Stat` holds exactly when resolution ends
with `ENOENT`. -/
theorem osIsNotExist_osStat_lookup (fs : FS) (p : Path) :
    osIsNotExist (osStat fs p).2 = true ↔ fs.lookup p = Except.error Errno.ENOENT := by
  unfold osStat
  rcases fs.lookup p with e | n
  · cases e <;> simp [osIsNotExist]
  · simp [osIsNotExist]

/-- C3, counterexample.  First part: `/home` is a regular file, so nothing is at the install
directory `/home/.sandbox`, yet `CheckServerlessStatus` returns `ErrServerlessNeedsUpgrade`,
not `ErrServerlessNotInstalled`: resolution ends with `ENOTDIR`.  Second part: the install is
up to date and `creds` is a regular file, so no `credentials.json` exists under `creds/tok`,
yet `CheckServerlessStatus` returns nil. -/
theorem C3_file_in_the_way_counterexample :
    (sampleFileHomeFS [utf8 "home", utf8 ".sandbox"] = none ∧
      sampleFileHomeFS.lookup sampleService.serverlessDir = Except.error Errno.ENOTDIR ∧
      CheckServerlessStatus sampleService (sampleEnv []) sampleFileHomeFS (utf8 "tok")
        = some ErrServerlessNeedsUpgrade) ∧
    (sampleCredsFileFS
        [utf8 "home", utf8 ".sandbox", utf8 "creds", utf8 "tok", utf8 "credentials.json"]
        = none ∧
      sampleCredsFileFS.lookup
        [utf8 "home", utf8 ".sandbox", utf8 "creds", utf8 "tok", utf8 "credentials.json"]
        = Except.error Errno.ENOTDIR ∧
      CheckServerlessStatus sampleService (sampleEnv []) sampleCredsFileFS (utf8 "tok")
        = none) := by
  refine ⟨⟨by decide, rfl, by decide⟩, by decide, rfl, by decide⟩

/-- C3, amended: for every filesystem state and token scope `L`, `CheckServerlessStatus`
checks three conditions in a fixed order and returns the first that fails:
`ErrServerlessNotInstalled` if the install directory does not exist, resolution ending at a
missing name, whatever the version marker and the credentials are; if it exists,
`ErrServerlessNeedsUpgrade` if the stored version (the content of the version file, `0`
when it cannot be read) is below the minimum in the order of strings, whatever the
credentials are; otherwise `ErrServerlessNotConnected` if `credentials.json` under
`<serverlessDir>/creds/L` does not exist, resolution ending at a missing name; and nil if
it exists.  In every state it returns no other error.  Resolution ends at a missing name
exactly when some name on the path is missing and every name before the first missing one is
a directory: the states in which a regular file stands in the way are left out. -/
theorem C3_CheckServerlessStatus_resolution (s : serverlessService) (env : Env) (fs : FS)
    (L : GoString) :
    (fs.lookup s.serverlessDir = Except.error Errno.ENOENT →
      CheckServerlessStatus s env fs L = some ErrServerlessNotInstalled) ∧
    (∀ n, fs.lookup s.serverlessDir = Except.ok n →
      goStringGe (GetCurrentServerlessVersion fs s.serverlessDir) (GetMinServerlessVersion env)
        = false →
      CheckServerlessStatus s env fs L = some ErrServerlessNeedsUpgrade) ∧
    (∀ n, fs.lookup s.serverlessDir = Except.ok n →
      goStringGe (GetCurrentServerlessVersion fs s.serverlessDir) (GetMinServerlessVersion env)
        = true →
      fs.lookup (filepathJoin s.serverlessDir [utf8 "creds", L, utf8 "credentials.json"])
        = Except.error Errno.ENOENT →
      CheckServerlessStatus s env fs L = some ErrServerlessNotConnected) ∧
    (∀ n c, fs.lookup s.serverlessDir = Except.ok n →
      goStringGe (GetCurrentServerlessVersion fs s.serverlessDir) (GetMinServerlessVersion env)
        = true →
      fs.lookup (filepathJoin s.serverlessDir [utf8 "creds", L, utf8 "credentials.json"])
        = Except.ok c →
      CheckServerlessStatus s env fs L = none) ∧
    (CheckServerlessStatus s env fs L = none ∨
      CheckServerlessStatus s env fs L = some ErrServerlessNotInstalled ∨
      CheckServerlessStatus s env fs L = some ErrServerlessNeedsUpgrade ∨
      CheckServerlessStatus s env fs L = some ErrServerlessNotConnected) ∧
    (∀ p, fs.lookup p = Except.error Errno.ENOENT ↔
      ∃ q, q <+: p ∧ fs q = none ∧
        ∀ r, r <+: q → r ≠ q → ∃ pm, fs r = some (Node.dir pm)) := by
  have hpath : filepathJoin (GetCredentialDirectory L s.serverlessDir) [CredentialsFile]
      = filepathJoin s.serverlessDir [utf8 "creds", L, utf8 "credentials.json"] := by
    unfold GetCredentialDirectory filepathJoin credsDir CredentialsFile
    rw [List.append_assoc, ← List.filter_append]
    rfl
  have hn1 : ∀ p, fs.lookup p ≠ Except.error Errno.ENOENT →
      osIsNotExist (osStat fs p).2 = false := by
    intro p hp
    rw [← Bool.not_eq_true, osIsNotExist_osStat_lookup]
    exact hp
  unfold CheckServerlessStatus isServerlessConnected serverlessUptodate
  dsimp only
  rw [hpath]
  have hok : ∀ p n, fs.lookup p = Except.ok n → fs.lookup p ≠ Except.error Errno.ENOENT := by
    intro p n hp he
    rw [hp] at he
    cases he
  refine ⟨?_, ?_, ?_, ?_, ?_, FS.lookup_enoent_iff fs⟩
  · intro h1
    simp [(osIsNotExist_osStat_lookup fs _).mpr h1]
  · intro n h1 h2
    simp [hn1 _ (hok _ n h1), h2]
  · intro n h1 h2 h3
    simp [hn1 _ (hok _ n h1), h2, (osIsNotExist_osStat_lookup fs _).mpr h3]
  · intro n c h1 h2 h3
    simp [hn1 _ (hok _ n h1), h2, hn1 _ (hok _ c h3)]
  · cases osIsNotExist (osStat fs s.serverlessDir).2 <;>
      cases goStringGe (GetCurrentServerlessVersion fs s.serverlessDir)
        (GetMinServerlessVersion env) <;>
      cases osIsNotExist (osStat fs
        (filepathJoin s.serverlessDir [utf8 "creds", L, utf8 "credentials.json"])).2 <;>
      simp

/-- C3 on four filesystem states, for the token scope `tok` and the default minimum version:
no install directory; an install directory with the version `4.0.0`; one with the version
`4.1.0-1.3.0` and no credentials; and that one after credentials were written. -/
theorem C3_CheckServerlessStatus_resolution_witness :
    CheckServerlessStatus sampleService (sampleEnv []) rootOnlyFS (utf8 "tok")
      = some ErrServerlessNotInstalled ∧
    CheckServerlessStatus sampleService (sampleEnv []) (sampleInstalledFS (utf8 "4.0.0"))
      (utf8 "tok") = some ErrServerlessNeedsUpgrade ∧
    CheckServerlessStatus sampleService (sampleEnv [])
      (sampleInstalledFS (utf8 "4.1.0-1.3.0")) (utf8 "tok") = some ErrServerlessNotConnected ∧
    CheckServerlessStatus sampleService (sampleEnv [])
      (WriteCredentials sampleService (sampleInstalledFS (utf8 "4.1.0-1.3.0"))
        sampleCredentials).1 (utf8 "tok") = none :=
  ⟨(C3_CheckServerlessStatus_resolution sampleService (sampleEnv []) rootOnlyFS
      (utf8 "tok")).1 rfl,
    (C3_CheckServerlessStatus_resolution sampleService (sampleEnv [])
      (sampleInstalledFS (utf8 "4.0.0")) (utf8 "tok")).2.1 (Node.dir 493) rfl (by decide),
    (C3_CheckServerlessStatus_resolution sampleService (sampleEnv [])
      (sampleInstalledFS (utf8 "4.1.0-1.3.0")) (utf8 "tok")).2.2.1 (Node.dir 493) rfl
        (by decide) rfl,
    (C3_CheckServerlessStatus_resolution sampleService (sampleEnv [])
      (WriteCredentials sampleService (sampleInstalledFS (utf8 "4.1.0-1.3.0"))
        sampleCredentials).1 (utf8 "tok")).2.2.2.1 (Node.dir 493)
        (Node.file 0o600 (jsonMarshalIndent sampleCredentials).1) rfl (by decide) rfl⟩

end Doctl
